import Mathlib

/-!
A shallow embedding of the smart-swap routing pipeline `findBestRoutes` and
its helpers (`generatePercentageAmounts`, `buildQuoteUpdateRequests`,
`updateQuoteMap`, `categorizeQuotes`, `pruneQuoteMap`, `getSingleHopSplit`).

Conventions of the embedding:
* Token mints, vaults and pool addresses are plain strings.  The source
  normalises addresses via `AddressUtil.toPubKey(x).toBase58()`; here every
  address is assumed to be already in normalised form, so that comparison of
  the stored strings models comparison of the normalised keys.
* `u64` / `BN` arithmetic is `Nat`.  `BN` is arbitrary-precision and the
  slicer only multiplies and floor-divides, so no overflow modelling is
  needed; `mul`/`div` become `Nat` multiplication and truncating division.
* The external collaborators are parameters: `batchBuild` models the awaited
  `batchBuildSwapQuoteParams` (its exceptions become `Except.error`, caught by
  the `try` in `findBestRoutes`), and `engine` models `swapQuoteWithParams`,
  returning the quote's `otherAmountThreshold` on success or the thrown
  error's `errorCode` on failure.  The fetcher-only `prefetchRoutes` step has
  no effect on the computed value and is omitted.
* A rejected promise is distinguished from a resolved one by the
  `PromiseOutcome` type: `Promise.reject(value)` becomes `.rejectedResult`,
  an uncaught runtime exception becomes `.rejectedError`, and a normal return
  becomes `.resolved`.
* JavaScript sparse-array slots (`Array(n)` holes) are `Option` values:
  a hole is `none`.  Reading a missing property of `undefined` (which would
  throw a `TypeError` at runtime) is modelled by `Except.error` in
  `categorizeQuotes`; in the two helpers where the pipeline can never reach
  the corresponding state (`routeStep` with an uninitialised current quote,
  `qmSetHop` on a missing entry) the embedding leaves the state unchanged.
* `Array.prototype.sort` is guaranteed stable (ES2019), and a stable sort of
  a list under a total preorder is unique, so it is modelled by
  `List.insertionSort`, which inserts an earlier element before any later
  element that does not strictly precede it.
-/

set_option maxHeartbeats 1000000

namespace Whirlpools

/-- One entry of the pool registry (`TokenPairPool`): the pool fields the
router reads. -/
structure Pool where
  address : String
  tokenMintA : String
  tokenMintB : String
  tokenVaultA : String
  tokenVaultB : String
deriving DecidableEq, Repr

/-- The `SwapErrorCode` enum of the SDK error module. -/
inductive SwapErrorCode where
  | InvalidDevFeePercentage
  | InvalidSqrtPriceLimitDirection
  | SqrtPriceOutOfBounds
  | ZeroTradableAmount
  | AmountOutBelowMinimum
  | AmountInAboveMaximum
  | TickArrayCrossingAboveMax
  | TickArrayIndexNotInitialized
  | TickArraySequenceInvalid
deriving DecidableEq, Repr

/-- The successful branch of a calculated hop, as written by
`updateQuoteMap` (the nested `quote` object is represented by the amounts
derived from it). -/
structure SuccessHop where
  percent : Nat
  amountIn : Nat
  amountOut : Nat
  whirlpool : String
  inputMint : String
  outputMint : String
  mintA : String
  mintB : String
  vaultA : String
  vaultB : String
deriving DecidableEq, Repr

/-- One slot of `calculatedHops`: either a successful quote or a recorded
failure.  The error is optional because a thrown value with no `errorCode`
property stores `undefined` in the failure record. -/
inductive CalculatedHop where
  | success (hop : SuccessHop)
  | failure (error : Option SwapErrorCode)
deriving DecidableEq, Repr

/-- The per-(percent, route) record of the quote map
(`Pick<InternalRouteQuote, "route" | "percent" | "calculatedHops">`).
`calculatedHops` is a sparse array: unset slots are `none`. -/
structure InternalRouteQuote where
  percent : Nat
  route : List String
  calculatedHops : List (Option CalculatedHop)
deriving DecidableEq, Repr

/-- One percentage bucket of the quote map: `Array(pairRoutes.length)` with
possible holes. -/
abbrev QuoteBucket := List (Option InternalRouteQuote)

/-- The quote map `Record<number, Array<...>>`.  JavaScript enumerates the
integer-like keys of such a record in ascending numeric order; the pipeline
inserts the keys in ascending percent order, so an insertion-ordered
association list coincides with the key enumeration the source relies on. -/
abbrev QuoteMap := List (Nat × QuoteBucket)

/-- A complete route quote produced by `categorizeQuotes`; its
`calculatedHops` is the filtered list of successful hops. -/
structure RouteQuote where
  percent : Nat
  route : List String
  amountIn : Nat
  amountOut : Nat
  calculatedHops : List SuccessHop
deriving DecidableEq, Repr

/-- The cleaned/pruned quote map `{ [key: number]: RouteQuote[] }`. -/
abbrev CleanedMap := List (Nat × List RouteQuote)

/-- The request pushed by `buildQuoteUpdateRequests` for one quote. -/
structure QuoteRequest where
  whirlpool : String
  tradeTokenMint : String
  tokenAmount : Nat
  amountSpecifiedIsInput : Bool
deriving DecidableEq, Repr

/-- One element of the `quoteUpdates` list: the positional metadata plus the
request. -/
structure QuoteUpdate where
  percent : Nat
  routeIndex : Nat
  hopIndex : Nat
  quoteIndex : Nat
  address : String
  request : QuoteRequest
deriving DecidableEq, Repr

/-- The pool state carried inside a `SwapQuoteParam` (the fields
`updateQuoteMap` reads from `whirlpoolData`). -/
structure WhirlpoolData where
  tokenMintA : String
  tokenMintB : String
  tokenVaultA : String
  tokenVaultB : String
deriving DecidableEq, Repr

/-- The parts of a `SwapQuoteParam` that `updateQuoteMap` consumes. -/
structure SwapQuoteParam where
  whirlpoolData : WhirlpoolData
  tokenAmount : Nat
  aToB : Bool
  amountSpecifiedIsInput : Bool
deriving DecidableEq, Repr

/-- A ranked route set: the shape shared by `getSingleHopSplit` results and
the combinations produced by the ranking stage. -/
structure RouteSet where
  quotes : List RouteQuote
  percent : Nat
  totalIn : Nat
  totalOut : Nat
deriving DecidableEq, Repr

/-- The `RouteQueryError` enum. -/
inductive RouteQueryError where
  | ROUTE_DOES_NOT_EXIST
  | ZERO_INPUT_AMOUNT
  | TRADE_AMOUNT_TOO_HIGH
  | GENERAL
deriving DecidableEq, Repr

/-- The structured `BestRoutesResult` value:
`{success: true, bestRoutes}` or `{success: false, error, stack?}`. -/
inductive BestRoutesResult where
  | success (bestRoutes : List RouteSet)
  | failure (error : RouteQueryError) (stack : Option String)
deriving DecidableEq, Repr

/-- What the promise returned by the `async` entry point does: resolve with
a value, reject with a structured value (`Promise.reject(v)`), or reject
with an uncaught runtime exception. -/
inductive PromiseOutcome where
  | resolved (value : BestRoutesResult)
  | rejectedResult (value : BestRoutesResult)
  | rejectedError (message : String)
deriving DecidableEq, Repr

/-- `RoutingOptions`. -/
structure RoutingOptions where
  percentIncrement : Nat
  numTopRoutes : Nat
  numTopPartialQuotes : Nat
  maxSplits : Nat
deriving DecidableEq, Repr

/-- `DEFAULT_ROUTING_OPTIONS`. -/
def DEFAULT_ROUTING_OPTIONS : RoutingOptions :=
  { percentIncrement := 20, numTopRoutes := 50, numTopPartialQuotes := 10, maxSplits := 3 }

/-! ### Association-map helpers for the record-with-numeric-keys values -/

/-- Lookup in an insertion-ordered association list (a `Record` keyed by
numbers). -/
def assocFind {β : Type} : List (Nat × β) → Nat → Option β
  | [], _ => none
  | kv :: rest, k => if kv.1 = k then some kv.2 else assocFind rest k

/-- `quoteMap[percent][routeIndex]`, where a missing bucket or an array hole
reads as `none`. -/
def qmEntry (qm : QuoteMap) (p r : Nat) : Option InternalRouteQuote :=
  match assocFind qm p with
  | none => none
  | some bucket => bucket.getD r none

/-- `if (!quoteMap[percent]) quoteMap[percent] = Array(size)`. -/
def qmCreate (qm : QuoteMap) (p : Nat) (size : Nat) : QuoteMap :=
  match assocFind qm p with
  | some _ => qm
  | none => qm ++ [(p, List.replicate size none)]

/-- The write `bucket[routeIndex] = e` on one bucket. -/
def bucketSetEntry (r : Nat) (e : InternalRouteQuote) (b : QuoteBucket) : QuoteBucket :=
  b.set r (some e)

/-- `quoteMap[percent][routeIndex] = e` (the bucket always exists and the
index is in range at every call site of the source). -/
def qmSetEntry (qm : QuoteMap) (p r : Nat) (e : InternalRouteQuote) : QuoteMap :=
  qm.map fun kv => if kv.1 = p then (kv.1, bucketSetEntry r e kv.2) else kv

/-- The write `bucket[routeIndex].calculatedHops[hopIndex] = ch` on one
bucket.  The source would throw if the entry were missing; the pipeline never
reaches such a state, and the embedding leaves the bucket unchanged there. -/
def bucketSetHop (r h : Nat) (ch : CalculatedHop) (b : QuoteBucket) : QuoteBucket :=
  match b.getD r none with
  | none => b
  | some e => b.set r (some { e with calculatedHops := e.calculatedHops.set h (some ch) })

/-- `quoteMap[percent][routeIndex].calculatedHops[hopIndex] = ch`. -/
def qmSetHop (qm : QuoteMap) (p r h : Nat) (ch : CalculatedHop) : QuoteMap :=
  qm.map fun kv => if kv.1 = p then (kv.1, bucketSetHop r h ch kv.2) else kv

/-! ### The quote batch builder (`buildQuoteUpdateRequests`) -/

/-- The adjacent already-computed hop:
`calculatedHops[hop - 1]` in forward mode, `calculatedHops[hop + 1]` in
backward mode (out-of-range reads are `undefined`, i.e. `none`; in forward
mode `hop = 0` would read index `-1`). -/
def lastHopOf (asi : Bool) (hop : Nat) (hops : List (Option CalculatedHop)) :
    Option CalculatedHop :=
  if asi then (if hop = 0 then none else hops.getD (hop - 1) none)
  else hops.getD (hop + 1) none

/-- The pool key read when a route index is out of range (never reached by
the loops of the source, which index within bounds). -/
def emptyKey : String := ""

/-- The skip condition of the route loop:
`amountSpecifiedIsInput ? route.length <= hop : hop > route.length - 1`.
Over JavaScript numbers the backward condition is `route.length < hop + 1`
for every `route.length`, including `0`. -/
def routeSkipB (asi : Bool) (hop len : Nat) : Bool :=
  if asi then decide (len ≤ hop) else decide (len < hop + 1)

/-- `startingRouteEval`: first hop in forward mode, last hop in backward
mode. -/
def startingB (asi : Bool) (hop len : Nat) : Bool :=
  if asi then hop == 0 else hop == len - 1

/-- The entry initialisation of the starting hop applied to the bucket map
(`quoteMap[percent][routeIndex] = {percent, route, calculatedHops: Array(route.length)}`),
a no-op at non-starting hops. -/
def initEntry (qm : QuoteMap) (asi : Bool) (hop : Nat) (percent routeIndex : Nat)
    (route : List String) : QuoteMap :=
  if startingB asi hop route.length then
    qmSetEntry qm percent routeIndex
      { percent := percent, route := route,
        calculatedHops := List.replicate route.length none }
  else qm

/-- The pool quoted at this hop: the route is reversed when neither mint of
its first pool is the overall input token, and the hop indexes the reordered
route. -/
def poolForHop (inputTokenMint : String) (pools : String → Pool)
    (route : List String) (hop : Nat) : Pool :=
  if (pools (route.getD 0 emptyKey)).tokenMintA ≠ inputTokenMint ∧
      (pools (route.getD 0 emptyKey)).tokenMintB ≠ inputTokenMint then
    pools (route.reverse.getD hop emptyKey)
  else pools (route.getD hop emptyKey)

/-- The traded amount and token of the request: the slice amount on the
overall input (forward) or output (backward) token at the starting hop,
otherwise the adjacent hop's output (forward) or input (backward) — and no
request at all when the adjacent hop is not a success. -/
def nextTrade (inputTokenMint outputTokenMint : String) (asi : Bool) (hop : Nat)
    (route : List String) (tradeAmount : Nat) (hops : List (Option CalculatedHop)) :
    Option (Nat × String) :=
  if startingB asi hop route.length then
    some (tradeAmount, if asi then inputTokenMint else outputTokenMint)
  else
    match lastHopOf asi hop hops with
    | some (CalculatedHop.success s) =>
      some (if asi then s.amountOut else s.amountIn,
            if asi then s.outputMint else s.inputMint)
    | _ => none

/-- The body of the route loop of `buildQuoteUpdateRequests` for one
`(percent, routeIndex)` pair, acting on the pair
(accumulated `quoteUpdates`, quote map). -/
def routeStep (inputTokenMint outputTokenMint : String) (pools : String → Pool)
    (pairRoutes : List (List String)) (hop : Nat) (asi : Bool)
    (percent tradeAmount : Nat) (st : List QuoteUpdate × QuoteMap) (routeIndex : Nat) :
    List QuoteUpdate × QuoteMap :=
  if routeSkipB asi hop (pairRoutes.getD routeIndex []).length then st
  else
    match qmEntry (initEntry st.2 asi hop percent routeIndex (pairRoutes.getD routeIndex []))
        percent routeIndex with
    | none => (st.1, initEntry st.2 asi hop percent routeIndex (pairRoutes.getD routeIndex []))
    | some currentQuote =>
      match nextTrade inputTokenMint outputTokenMint asi hop (pairRoutes.getD routeIndex [])
          tradeAmount currentQuote.calculatedHops with
      | none => (st.1, initEntry st.2 asi hop percent routeIndex (pairRoutes.getD routeIndex []))
      | some nt =>
        (st.1 ++
          [{ percent := percent, routeIndex := routeIndex, hopIndex := hop,
             quoteIndex := st.1.length,
             address := (poolForHop inputTokenMint pools (pairRoutes.getD routeIndex []) hop).address,
             request :=
               { whirlpool := (poolForHop inputTokenMint pools (pairRoutes.getD routeIndex []) hop).address,
                 tradeTokenMint := nt.2, tokenAmount := nt.1,
                 amountSpecifiedIsInput := asi } }],
         initEntry st.2 asi hop percent routeIndex (pairRoutes.getD routeIndex []))

/-- The body of the amount loop of `buildQuoteUpdateRequests` for one
`(percent, tradeAmount)` pair: initialise the bucket if missing, then run the
route loop over all route indices in order. -/
def percentStep (inputTokenMint outputTokenMint : String) (pools : String → Pool)
    (pairRoutes : List (List String)) (hop : Nat) (asi : Bool)
    (st : List QuoteUpdate × QuoteMap) (pa : Nat × Nat) :
    List QuoteUpdate × QuoteMap :=
  let st1 := (st.1, qmCreate st.2 pa.1 pairRoutes.length)
  (List.range pairRoutes.length).foldl
    (routeStep inputTokenMint outputTokenMint pools pairRoutes hop asi pa.1 pa.2) st1

/-- `buildQuoteUpdateRequests`.  The source iterates `amountIndex` over
`amounts` and reads `percents[amountIndex]` in parallel; the two lists have
equal length at every call, so the iteration is the fold over their zip.
Returns the `quoteUpdates` list together with the updated quote map (the
source mutates the map in place). -/
def buildQuoteUpdateRequests (inputTokenMint outputTokenMint : String)
    (pools : String → Pool) (pairRoutes : List (List String))
    (percents amounts : List Nat) (hop : Nat) (asi : Bool) (qm : QuoteMap) :
    List QuoteUpdate × QuoteMap :=
  (percents.zip amounts).foldl
    (percentStep inputTokenMint outputTokenMint pools pairRoutes hop asi) ([], qm)

/-! ### The hop quote executor (`updateQuoteMap`) -/

/-- The calculated-hop value written back for one update: the engine call on
`quoteParams[quoteIndex]` inside the `try`, the success record with resolved
mints, or the failure record carrying the thrown `errorCode` (a lookup past
the end of `quoteParams` reads `undefined` and the resulting `TypeError`
carries no `errorCode`). -/
def hopResultOf (engine : SwapQuoteParam → Except SwapErrorCode Nat)
    (swapParam? : Option SwapQuoteParam) (u : QuoteUpdate) : CalculatedHop :=
  match swapParam? with
  | none => CalculatedHop.failure none
  | some swapParam =>
    match engine swapParam with
    | Except.error errorCode => CalculatedHop.failure (some errorCode)
    | Except.ok otherAmountThreshold =>
      let mintA := swapParam.whirlpoolData.tokenMintA
      let mintB := swapParam.whirlpoolData.tokenMintB
      let inputMint := if swapParam.aToB then mintA else mintB
      let outputMint := if swapParam.aToB then mintB else mintA
      CalculatedHop.success
        { percent := u.percent,
          amountIn :=
            if swapParam.amountSpecifiedIsInput then swapParam.tokenAmount
            else otherAmountThreshold,
          amountOut :=
            if swapParam.amountSpecifiedIsInput then otherAmountThreshold
            else swapParam.tokenAmount,
          whirlpool := u.address,
          inputMint := inputMint, outputMint := outputMint,
          mintA := mintA, mintB := mintB,
          vaultA := swapParam.whirlpoolData.tokenVaultA,
          vaultB := swapParam.whirlpoolData.tokenVaultB }

/-- One iteration of the loop of `updateQuoteMap`. -/
def applyQuoteResult (engine : SwapQuoteParam → Except SwapErrorCode Nat)
    (quoteParams : List SwapQuoteParam) (qm : QuoteMap) (u : QuoteUpdate) : QuoteMap :=
  qmSetHop qm u.percent u.routeIndex u.hopIndex
    (hopResultOf engine (quoteParams.get? u.quoteIndex) u)

/-- `updateQuoteMap`. -/
def updateQuoteMap (engine : SwapQuoteParam → Except SwapErrorCode Nat)
    (quoteUpdates : List QuoteUpdate) (quoteParams : List SwapQuoteParam)
    (qm : QuoteMap) : QuoteMap :=
  quoteUpdates.foldl (applyQuoteResult engine quoteParams) qm

/-! ### The quote aggregator (`categorizeQuotes`) -/

/-- `calculatedHops.flatMap(val => !!val && val.success ? val : [])`. -/
def successHops (hops : List (Option CalculatedHop)) : List SuccessHop :=
  hops.filterMap fun o =>
    match o with
    | some (CalculatedHop.success s) => some s
    | _ => none

/-- `calculatedHops.flatMap(f => f && !f?.success ? f : [])`. -/
def failureHops (hops : List (Option CalculatedHop)) : List (Option SwapErrorCode) :=
  hops.filterMap fun o =>
    match o with
    | some (CalculatedHop.failure e) => some e
    | _ => none

/-- `Set.add`: insertion-ordered, duplicates ignored. -/
def insertErr (s : List (Option SwapErrorCode)) (e : Option SwapErrorCode) :
    List (Option SwapErrorCode) :=
  if e ∈ s then s else s ++ [e]

/-- Message of the `TypeError` thrown when iterating a sparse bucket hits a
hole (destructuring `undefined`). -/
def errHoleEntry : String := "TypeError: cannot destructure undefined route quote entry"

/-- Message of the `TypeError` thrown when a complete chain is empty and the
boundary hop access reads `undefined`. -/
def errEmptyChain : String := "TypeError: cannot read amount of undefined boundary hop"

/-- Message of the `TypeError` thrown by `quoteFailures[0].error` on an
incomplete chain with no recorded failure. -/
def errNoFailure : String := "TypeError: cannot read error of undefined failure entry"

/-- The loop body of `categorizeBucket` for one entry of a percentage
bucket: accumulates the cleaned quotes and threads the call-wide failure
set.  The uncaught `TypeError`s of the source (reached only from states the
pipeline does not produce) are modelled by `Except.error`. -/
def catStepSome (tradeAmount : Nat) (asi : Bool) (percent : Nat)
    (acc : List RouteQuote × List (Option SwapErrorCode)) (e : InternalRouteQuote) :
    Except String (List RouteQuote × List (Option SwapErrorCode)) :=
  if (successHops e.calculatedHops).length = e.route.length then
    match (if asi then (successHops e.calculatedHops).getLast?
           else (successHops e.calculatedHops).head?) with
    | none => Except.error errEmptyChain
    | some boundary =>
      Except.ok
        (acc.1 ++
          [{ percent := percent, route := e.route,
             amountIn := if asi then tradeAmount
               else (if asi then boundary.amountOut else boundary.amountIn),
             amountOut := if asi then
                 (if asi then boundary.amountOut else boundary.amountIn)
               else tradeAmount,
             calculatedHops := successHops e.calculatedHops }], acc.2)
  else
    match (failureHops e.calculatedHops).head? with
    | none => Except.error errNoFailure
    | some err => Except.ok (acc.1, insertErr acc.2 err)

/-- The hole case of the loop body, then the entry case. -/
def catStep (tradeAmount : Nat) (asi : Bool) (percent : Nat)
    (acc : List RouteQuote × List (Option SwapErrorCode))
    (o : Option InternalRouteQuote) :
    Except String (List RouteQuote × List (Option SwapErrorCode)) :=
  match o with
  | none => Except.error errHoleEntry
  | some e => catStepSome tradeAmount asi percent acc e

/-- The body of `categorizeQuotes` for one percentage bucket. -/
def categorizeBucket (tradeAmount : Nat) (asi : Bool) (percent : Nat)
    (entries : QuoteBucket) (failures0 : List (Option SwapErrorCode)) :
    Except String (List RouteQuote × List (Option SwapErrorCode)) :=
  entries.foldlM (catStep tradeAmount asi percent) (([] : List RouteQuote), failures0)

/-- The outer loop body of `categorizeQuotes` for one bucket of the map. -/
def catQStep (tradeAmount : Nat) (asi : Bool)
    (acc : CleanedMap × List (Option SwapErrorCode)) (pb : Nat × QuoteBucket) :
    Except String (CleanedMap × List (Option SwapErrorCode)) :=
  match categorizeBucket tradeAmount asi pb.1 pb.2 acc.2 with
  | Except.error e => Except.error e
  | Except.ok bucket => Except.ok (acc.1 ++ [(pb.1, bucket.1)], bucket.2)

/-- `categorizeQuotes`: iterate the buckets in key order, keep complete
chains as `RouteQuote`s (the fixed side carries the `tradeAmount` argument,
the free side the boundary hop's value), and add the first failure of every
incomplete chain to the call-wide failure set. -/
def categorizeQuotes (tradeAmount : Nat) (asi : Bool) (qm : QuoteMap) :
    Except String (CleanedMap × List (Option SwapErrorCode)) :=
  qm.foldlM (catQStep tradeAmount asi)
    (([] : CleanedMap), ([] : List (Option SwapErrorCode)))

/-! ### The quote pruner (`pruneQuoteMap`) -/

/-- The sort relation of `pruneQuoteMap`: descending by `amountOut` when the
amount is fixed on the input side, ascending by `amountIn` otherwise. -/
def quoteSortLE (asi : Bool) (a b : RouteQuote) : Prop :=
  match asi with
  | true => b.amountOut ≤ a.amountOut
  | false => a.amountIn ≤ b.amountIn

instance (asi : Bool) : DecidableRel (quoteSortLE asi) := fun a b =>
  match asi with
  | true => (inferInstance : Decidable (b.amountOut ≤ a.amountOut))
  | false => (inferInstance : Decidable (a.amountIn ≤ b.amountIn))

/-- The ranking key of a route quote under a direction. -/
def rankKey (asi : Bool) (q : RouteQuote) : Nat :=
  match asi with
  | true => q.amountOut
  | false => q.amountIn

/-- The in-place `quoteMap[percents[i]].sort(sortFn)` applied to every
bucket.  `pruneQuoteMap` iterates all keys, so after it runs the
`cleanedQuoteMap` object aliased by the caller holds these sorted buckets. -/
def sortBuckets (asi : Bool) (qm : CleanedMap) : CleanedMap :=
  qm.map fun pb => (pb.1, pb.2.insertionSort (quoteSortLE asi))

/-- `pruneQuoteMap`: sort every bucket and keep the first `pruneN`. -/
def pruneQuoteMap (qm : CleanedMap) (pruneN : Nat) (asi : Bool) : CleanedMap :=
  (sortBuckets asi qm).map fun pb => (pb.1, pb.2.take pruneN)

/-! ### Ranking (`getSingleHopSplit` plus the external ranking module) -/

/-- `getSingleHopSplit`: from the (post-sort) 100% bucket, the degenerate
full-size candidates of the one-hop routes whose single hop succeeded. -/
def getSingleHopSplit (qm : CleanedMap) : List RouteSet :=
  match assocFind qm 100 with
  | none => []
  | some fullFlow =>
    fullFlow.filterMap fun f =>
      match f.calculatedHops with
      | [oneHop] =>
        some { quotes := [f], percent := 100,
               totalIn := oneHop.amountIn, totalOut := oneHop.amountOut }
      | _ => none

/-- Modelled from the spec: `getRouteCompareFn` lives in the missing
`rank-route-sets` module; the spec ranks by total `amountOut` descending in
fixed-input mode and total `amountIn` ascending in fixed-output mode. -/
def routeSetLE (asi : Bool) (a b : RouteSet) : Prop :=
  match asi with
  | true => b.totalOut ≤ a.totalOut
  | false => a.totalIn ≤ b.totalIn

instance (asi : Bool) : DecidableRel (routeSetLE asi) := fun a b =>
  match asi with
  | true => (inferInstance : Decidable (b.totalOut ≤ a.totalOut))
  | false => (inferInstance : Decidable (a.totalIn ≤ b.totalIn))

/-- Modelled from the spec: the combination generator of the missing
`rank-route-sets` module.  From the ordered bucket list, every selection of
at most `slots` quotes, one from each of a set of distinct buckets, whose
percents sum exactly to `target`. -/
def combosFrom : List (Nat × List RouteQuote) → Nat → Nat → List (List RouteQuote)
  | [], _, target => if target = 0 then [[]] else []
  | (p, qs) :: rest, slots, target =>
    combosFrom rest slots target ++
      (if 0 < slots ∧ p ≤ target then
        qs.flatMap fun q => (combosFrom rest (slots - 1) (target - p)).map fun c => q :: c
      else [])

/-- The route set built from one generated combination. -/
def comboRouteSet (c : List RouteQuote) : RouteSet :=
  { quotes := c,
    percent := (c.map RouteQuote.percent).sum,
    totalIn := (c.map RouteQuote.amountIn).sum,
    totalOut := (c.map RouteQuote.amountOut).sum }

/-- Modelled from the spec: `getRankedRoutes` of the missing
`rank-route-sets` module.  Generate all combinations of pruned route quotes
across distinct percentage buckets whose percentages partition 100 into at
most `maxSplits` parts, rank them by the direction comparator, and select up
to `numTopRoutes`. -/
def getRankedRoutes (qm : CleanedMap) (asi : Bool) (numTopRoutes maxSplits : Nat) :
    List RouteSet :=
  (((combosFrom qm maxSplits 100).filterMap fun c =>
      match c with
      | [] => none
      | _ => some (comboRouteSet c)).insertionSort (routeSetLE asi)).take numTopRoutes

/-! ### The percentage slicer (`generatePercentageAmounts`) -/

/-- `generatePercentageAmounts`: the loop runs `i = 1 .. 100 / minPercent`
(floating-point division in the source; for every positive `minPercent` the
integer `i` satisfies `i <= 100 / minPercent` exactly when
`i ≤ ⌊100 / minPercent⌋`), pushing `i * minPercent` and
`inputAmount * (i * minPercent) / 100` with truncating division. -/
def generatePercentageAmounts (inputAmount : Nat) (minPercent : Nat) :
    List Nat × List Nat :=
  ((List.range (100 / minPercent)).map fun i => (i + 1) * minPercent,
   (List.range (100 / minPercent)).map fun i => inputAmount * ((i + 1) * minPercent) / 100)

/-! ### The orchestrator (`findBestRoutes`) -/

/-- The hop iteration order: `Array.from(Array(maxRouteLength).keys())`,
reversed when the amount is fixed on the output side. -/
def routeIteration (asi : Bool) (pairRoutes : List (List String)) : List Nat :=
  let maxRouteLength := (pairRoutes.map List.length).foldl max 0
  if asi then List.range maxRouteLength else (List.range maxRouteLength).reverse

/-- One iteration of the `try` loop: build the batch, run the external
parameter builder (whose exception aborts the whole loop), distribute the
results. -/
def runHopsStep (inputTokenMint outputTokenMint : String) (pools : String → Pool)
    (pairRoutes : List (List String)) (percents amounts : List Nat) (asi : Bool)
    (batchBuild : List QuoteRequest → Except String (List SwapQuoteParam))
    (engine : SwapQuoteParam → Except SwapErrorCode Nat)
    (qm : QuoteMap) (hop : Nat) : Except String QuoteMap :=
  let bu := buildQuoteUpdateRequests inputTokenMint outputTokenMint pools pairRoutes
    percents amounts hop asi qm
  match batchBuild (bu.1.map QuoteUpdate.request) with
  | Except.error e => Except.error e
  | Except.ok quoteParams => Except.ok (updateQuoteMap engine bu.1 quoteParams bu.2)

/-- The `try` loop over all hops. -/
def runHops (inputTokenMint outputTokenMint : String) (pools : String → Pool)
    (pairRoutes : List (List String)) (percents amounts : List Nat) (asi : Bool)
    (batchBuild : List QuoteRequest → Except String (List SwapQuoteParam))
    (engine : SwapQuoteParam → Except SwapErrorCode Nat)
    (iteration : List Nat) (qm0 : QuoteMap) : Except String QuoteMap :=
  iteration.foldlM
    (runHopsStep inputTokenMint outputTokenMint pools pairRoutes percents amounts asi
      batchBuild engine) qm0

/-- The whole quoting phase of `findBestRoutes`: slice, then run the hop
loop from the empty quote map. -/
def pipelineQuoteMap (inputTokenMint outputTokenMint : String) (pools : String → Pool)
    (pairRoutes : List (List String)) (tradeAmount : Nat) (asi : Bool)
    (batchBuild : List QuoteRequest → Except String (List SwapQuoteParam))
    (engine : SwapQuoteParam → Except SwapErrorCode Nat)
    (opts : RoutingOptions) : Except String QuoteMap :=
  let pa := generatePercentageAmounts tradeAmount opts.percentIncrement
  runHops inputTokenMint outputTokenMint pools pairRoutes pa.1 pa.2 asi batchBuild engine
    (routeIteration asi pairRoutes) []

/-- The `bestRoutes` list: ranked combinations of the pruned map plus the
degenerate single-hop candidates, sorted by the direction comparator.  The
in-place bucket sort of `pruneQuoteMap` mutates `cleanedQuoteMap`, so
`getSingleHopSplit` reads the sorted buckets. -/
def bestRoutesList (asi : Bool) (opts : RoutingOptions) (cleaned : CleanedMap) :
    List RouteSet :=
  (getRankedRoutes (pruneQuoteMap cleaned opts.numTopPartialQuotes asi) asi
      opts.numTopRoutes opts.maxSplits ++
    getSingleHopSplit (sortBuckets asi cleaned)).insertionSort (routeSetLE asi)

/-- The tail of `findBestRoutes`: the empty-result diagnosis and the success
return. -/
def finishRoutes (asi : Bool) (opts : RoutingOptions) (cleaned : CleanedMap)
    (failures : List (Option SwapErrorCode)) : BestRoutesResult :=
  let bestRoutes := bestRoutesList asi opts cleaned
  if bestRoutes.length = 0 then
    if some SwapErrorCode.TickArraySequenceInvalid ∈ failures then
      BestRoutesResult.failure RouteQueryError.TRADE_AMOUNT_TOO_HIGH none
    else BestRoutesResult.success bestRoutes
  else BestRoutesResult.success bestRoutes

/-- `findBestRoutes`.  The pool-graph lookup `walks[getRouteId(in, out)]` is
modelled from the spec as an ordered-pair lookup (the `getRouteId` helper
lives in the missing `pool-graph` module; the spec specifies
`routesFor(tokenA, tokenB) → list of Route | absent` for the ordered pair).
The two validation failures return `Promise.reject({...})`; an exception in
the hop loop is caught and resolved as a `GENERAL` failure; an uncaught
exception after the loop (inside `categorizeQuotes`) rejects the promise. -/
def findBestRoutes (inputTokenMint outputTokenMint : String) (tradeAmount : Nat)
    (asi : Bool) (walks : String → String → Option (List (List String)))
    (pools : String → Pool)
    (batchBuild : List QuoteRequest → Except String (List SwapQuoteParam))
    (engine : SwapQuoteParam → Except SwapErrorCode Nat)
    (opts : RoutingOptions) : PromiseOutcome :=
  match walks inputTokenMint outputTokenMint with
  | none =>
    PromiseOutcome.rejectedResult
      (BestRoutesResult.failure RouteQueryError.ROUTE_DOES_NOT_EXIST none)
  | some pairRoutes =>
    if tradeAmount = 0 then
      PromiseOutcome.rejectedResult
        (BestRoutesResult.failure RouteQueryError.ZERO_INPUT_AMOUNT none)
    else
      match pipelineQuoteMap inputTokenMint outputTokenMint pools pairRoutes tradeAmount
        asi batchBuild engine opts with
      | Except.error e =>
        PromiseOutcome.resolved (BestRoutesResult.failure RouteQueryError.GENERAL (some e))
      | Except.ok qm =>
        match categorizeQuotes tradeAmount asi qm with
        | Except.error e => PromiseOutcome.rejectedError e
        | Except.ok cf => PromiseOutcome.resolved (finishRoutes asi opts cf.1 cf.2)

/-! ### Concrete data used to evaluate the embedding -/

/-- A token mint. -/
def tokA : String := "A"

/-- A token mint. -/
def tokB : String := "B"

/-- A token mint. -/
def tokX : String := "X"

/-- A pool address. -/
def keyP : String := "P"

/-- A pool address. -/
def keyP1 : String := "P1"

/-- A pool address. -/
def keyP2 : String := "P2"

/-- A vault address. -/
def vltA : String := "VA"

/-- A vault address. -/
def vltB : String := "VB"

/-- A single pool trading `tokA` against `tokB`. -/
def poolP : Pool :=
  { address := keyP, tokenMintA := tokA, tokenMintB := tokB,
    tokenVaultA := vltA, tokenVaultB := vltB }

/-- First pool of a two-hop path: `tokA` against `tokX`. -/
def poolP1 : Pool :=
  { address := keyP1, tokenMintA := tokA, tokenMintB := tokX,
    tokenVaultA := vltA, tokenVaultB := vltB }

/-- Second pool of a two-hop path: `tokX` against `tokB`. -/
def poolP2 : Pool :=
  { address := keyP2, tokenMintA := tokX, tokenMintB := tokB,
    tokenVaultA := vltA, tokenVaultB := vltB }

/-- Registry for the one-pool scenarios. -/
def poolsOne : String → Pool := fun _ => poolP

/-- Registry for the two-hop scenario. -/
def poolsTwo : String → Pool := fun k => if k = keyP2 then poolP2 else poolP1

/-- Pool graph holding the single one-hop route `[P]` for `(tokA, tokB)`. -/
def walksOne : String → String → Option (List (List String)) :=
  fun a b => if a = tokA ∧ b = tokB then some [[keyP]] else none

/-- Pool graph holding the single two-hop route `[P1, P2]` for `(tokA, tokB)`. -/
def walksTwo : String → String → Option (List (List String)) :=
  fun a b => if a = tokA ∧ b = tokB then some [[keyP1, keyP2]] else none

/-- A pool graph with no routes at all. -/
def walksNone : String → String → Option (List (List String)) := fun _ _ => none

/-- The batched parameter builder induced by a registry: each request becomes
the parameter on its own pool, trading `aToB` when the trade token is the
pool's mint A. -/
def mkParam (pools : String → Pool) (r : QuoteRequest) : SwapQuoteParam :=
  let p := pools r.whirlpool
  { whirlpoolData :=
      { tokenMintA := p.tokenMintA, tokenMintB := p.tokenMintB,
        tokenVaultA := p.tokenVaultA, tokenVaultB := p.tokenVaultB },
    tokenAmount := r.tokenAmount,
    aToB := decide (r.tradeTokenMint = p.tokenMintA),
    amountSpecifiedIsInput := r.amountSpecifiedIsInput }

/-- A `batchBuild` collaborator that never throws. -/
def batchOf (pools : String → Pool) : List QuoteRequest → Except String (List SwapQuoteParam) :=
  fun reqs => Except.ok (reqs.map (mkParam pools))

/-- A quote engine returning twice the traded amount. -/
def engineDouble : SwapQuoteParam → Except SwapErrorCode Nat :=
  fun p => Except.ok (2 * p.tokenAmount)

/-- A quote engine that always reports an invalid tick-array sequence. -/
def engineTASI : SwapQuoteParam → Except SwapErrorCode Nat :=
  fun _ => Except.error SwapErrorCode.TickArraySequenceInvalid

/-- A quote engine failing exactly on pools whose mint A is `tokA` (the
first hop of the two-hop scenario). -/
def engineFailA : SwapQuoteParam → Except SwapErrorCode Nat :=
  fun p =>
    if p.whirlpoolData.tokenMintA = tokA then
      Except.error SwapErrorCode.TickArraySequenceInvalid
    else Except.ok (2 * p.tokenAmount)

/-- Options with a 50% increment. -/
def opts50 : RoutingOptions :=
  { percentIncrement := 50, numTopRoutes := 50, numTopPartialQuotes := 10, maxSplits := 3 }

/-- Options with a 100% increment and `numTopRoutes = 0`. -/
def optsTop0 : RoutingOptions :=
  { percentIncrement := 100, numTopRoutes := 0, numTopPartialQuotes := 10, maxSplits := 3 }

/-- A successful one-hop chain quoted at the 50% slice of a total of 100:
its boundary amounts carry the slice amount 50. -/
def hopS50 : SuccessHop :=
  { percent := 50, amountIn := 50, amountOut := 49, whirlpool := keyP,
    inputMint := tokA, outputMint := tokB, mintA := tokA, mintB := tokB,
    vaultA := vltA, vaultB := vltB }

/-- The same chain quoted at the 100% slice. -/
def hopS100 : SuccessHop :=
  { percent := 100, amountIn := 100, amountOut := 99, whirlpool := keyP,
    inputMint := tokA, outputMint := tokB, mintA := tokA, mintB := tokB,
    vaultA := vltA, vaultB := vltB }

/-- The quote map reaching `categorizeQuotes` for a forward call with total
trade amount 100 over one one-hop route at percents 50 and 100, both hops
successful. -/
def qmSlices : QuoteMap :=
  [(50, [some { percent := 50, route := [keyP],
                calculatedHops := [some (CalculatedHop.success hopS50)] }]),
   (100, [some { percent := 100, route := [keyP],
                 calculatedHops := [some (CalculatedHop.success hopS100)] }])]

/-- What `categorizeQuotes 100 true qmSlices` stores for the 50% bucket. -/
def rqBug50 : RouteQuote :=
  { percent := 50, route := [keyP], amountIn := 100, amountOut := 49,
    calculatedHops := [hopS50] }

/-- What `categorizeQuotes 100 true qmSlices` stores for the 100% bucket. -/
def rqBug100 : RouteQuote :=
  { percent := 100, route := [keyP], amountIn := 100, amountOut := 99,
    calculatedHops := [hopS100] }

instance (asi : Bool) : IsTotal RouteQuote (quoteSortLE asi) := by
  constructor
  intro a b
  cases asi
  · exact Nat.le_total a.amountIn b.amountIn
  · exact Nat.le_total b.amountOut a.amountOut

instance (asi : Bool) : IsTrans RouteQuote (quoteSortLE asi) := by
  constructor
  intro a b c h1 h2
  cases asi
  · exact le_trans h1 h2
  · exact le_trans h2 h1

/-- Every update's `quoteIndex` is its position in the list. -/
def qiAligned (l : List QuoteUpdate) : Prop :=
  ∀ i u, l.get? i = some u → u.quoteIndex = i

/-- Strict lexicographic order on `(percent, routeIndex)`. -/
def lexPR (a b : QuoteUpdate) : Prop :=
  a.percent < b.percent ∨ (a.percent = b.percent ∧ a.routeIndex < b.routeIndex)

/-- Entry of the 50% bucket before the batch of the C5 witness. -/
def e50W : InternalRouteQuote :=
  { percent := 50, route := [keyP1, keyP2], calculatedHops := [none, none] }

/-- Entry of the 100% bucket before the batch of the C5 witness. -/
def e100W : InternalRouteQuote :=
  { percent := 100, route := [keyP1, keyP2], calculatedHops := [none, none] }

/-- The quote map before the batch of the C5 witness. -/
def qmW : QuoteMap := [(50, [some e50W]), (100, [some e100W])]

/-- First update of the C5 witness batch (hop 0 of the 50% bucket). -/
def updW1 : QuoteUpdate :=
  { percent := 50, routeIndex := 0, hopIndex := 0, quoteIndex := 0, address := keyP1,
    request := { whirlpool := keyP1, tradeTokenMint := tokA, tokenAmount := 50,
                 amountSpecifiedIsInput := true } }

/-- Second update of the C5 witness batch (hop 0 of the 100% bucket). -/
def updW2 : QuoteUpdate :=
  { percent := 100, routeIndex := 0, hopIndex := 0, quoteIndex := 1, address := keyP1,
    request := { whirlpool := keyP1, tradeTokenMint := tokA, tokenAmount := 100,
                 amountSpecifiedIsInput := true } }

/-- The two parameters of the C5 witness batch: the first fails under
`engineFailA`, the second succeeds. -/
def paramsW : List SwapQuoteParam :=
  [mkParam poolsTwo updW1.request,
   mkParam poolsOne
     { whirlpool := keyP, tradeTokenMint := tokX, tokenAmount := 100,
       amountSpecifiedIsInput := true }]

/-- The quote map of the C7 witness run: a one-hop route whose engine always
reports `TickArraySequenceInvalid`. -/
def qmTASI : QuoteMap :=
  (pipelineQuoteMap tokA tokB poolsOne [[keyP]] 100 true (batchOf poolsOne) engineTASI
    opts50).toOption.getD []

/-- The aggregation result of the C7 witness run. -/
def catTASI : CleanedMap × List (Option SwapErrorCode) :=
  (categorizeQuotes 100 true qmTASI).toOption.getD ([], [])

instance (asi : Bool) : IsTotal RouteSet (routeSetLE asi) := by
  constructor
  intro a b
  cases asi
  · exact Nat.le_total a.totalIn b.totalIn
  · exact Nat.le_total b.totalOut a.totalOut

instance (asi : Bool) : IsTrans RouteSet (routeSetLE asi) := by
  constructor
  intro a b c h1 h2
  cases asi
  · exact le_trans h1 h2
  · exact le_trans h2 h1

/-- The quote map of the C8 witness run (healthy doubling engine). -/
def qmDouble : QuoteMap :=
  (pipelineQuoteMap tokA tokB poolsOne [[keyP]] 100 true (batchOf poolsOne) engineDouble
    opts50).toOption.getD []

/-- The aggregation result of the C8 witness run. -/
def catDouble : CleanedMap × List (Option SwapErrorCode) :=
  (categorizeQuotes 100 true qmDouble).toOption.getD ([], [])

/-- The successful hop of the 100% slice in the C8 witness run. -/
def hopD100 : SuccessHop :=
  { percent := 100, amountIn := 100, amountOut := 200, whirlpool := keyP,
    inputMint := tokA, outputMint := tokB, mintA := tokA, mintB := tokB,
    vaultA := vltA, vaultB := vltB }

/-- The 100% bucket quote of the C8 witness run. -/
def qD100 : RouteQuote :=
  { percent := 100, route := [keyP], amountIn := 100, amountOut := 200,
    calculatedHops := [hopD100] }

/-- The effect of one `buildQuoteUpdateRequests` pass on one entry of its own
percent bucket: skipped routes and non-starting hops leave the entry alone,
the starting hop re-initialises it. -/
def stepEntry (asi : Bool) (hop percent : Nat) (route : List String)
    (old : Option InternalRouteQuote) : Option InternalRouteQuote :=
  if routeSkipB asi hop route.length then old
  else if startingB asi hop route.length then
    some { percent := percent, route := route,
           calculatedHops := List.replicate route.length none }
  else old

/-- When one pass emits a request for an entry: the route is eligible, and
the hop is the starting one or the adjacent hop is a recorded success. -/
def emitsAt (asi : Bool) (hop : Nat) (route : List String)
    (old : Option InternalRouteQuote) : Prop :=
  routeSkipB asi hop route.length = false ∧
  (startingB asi hop route.length = true ∨
    (startingB asi hop route.length = false ∧
      ∃ e s, old = some e ∧
        lastHopOf asi hop e.calculatedHops = some (CalculatedHop.success s)))

/-- All buckets of the map have the same length (the route count). -/
def bucketsLen (qm : QuoteMap) (n : Nat) : Prop := ∀ pb ∈ qm, pb.2.length = n

/-- Shape of a forward chain after the hops below `bound` have been
processed: a prefix of successes followed either by nothing or by exactly
one failure and nothing. -/
def shapeF (bound len : Nat) (hops : List (Option CalculatedHop)) : Prop :=
  (∃ ss : List SuccessHop, ss.length = min bound len ∧
    hops = ss.map (fun s => some (CalculatedHop.success s)) ++
      List.replicate (len - ss.length) none) ∨
  (∃ (ss : List SuccessHop) (err : Option SwapErrorCode),
    ss.length < bound ∧ ss.length < len ∧
    hops = ss.map (fun s => some (CalculatedHop.success s)) ++
      some (CalculatedHop.failure err) :: List.replicate (len - ss.length - 1) none)

/-- Shape of a backward chain: a suffix of successes preceded either by
nothing or by exactly one failure and nothing. -/
def shapeB (bound len : Nat) (hops : List (Option CalculatedHop)) : Prop :=
  (∃ ss : List SuccessHop, ss.length = min bound len ∧
    hops = List.replicate (len - ss.length) none ++
      ss.map (fun s => some (CalculatedHop.success s))) ∨
  (∃ (ss : List SuccessHop) (err : Option SwapErrorCode),
    ss.length < bound ∧ ss.length < len ∧
    hops = List.replicate (len - ss.length - 1) none ++
      some (CalculatedHop.failure err) :: ss.map (fun s => some (CalculatedHop.success s)))

/-- Invariant of the forward hop loop after the hops `0, …, bound - 1` have
been processed. -/
def qmInvF (pairRoutes : List (List String)) (pfsts : List Nat) (bound : Nat)
    (qm : QuoteMap) : Prop :=
  (bound = 0 → qm = []) ∧
  (0 < bound → qm.map Prod.fst = pfsts ∧ bucketsLen qm pairRoutes.length ∧
    ∀ p, p ∈ pfsts → ∀ r route, pairRoutes.get? r = some route →
      ∃ e, qmEntry qm p r = some e ∧ e.percent = p ∧ e.route = route ∧
        e.calculatedHops.length = route.length ∧
        shapeF bound route.length e.calculatedHops)

/-- Invariant of the backward hop loop when the hops `nextHop, …, L - 1`
have been processed (in descending order). -/
def qmInvB (pairRoutes : List (List String)) (pfsts : List Nat) (L nextHop : Nat)
    (qm : QuoteMap) : Prop :=
  (nextHop = L → qm = []) ∧
  (nextHop < L → qm.map Prod.fst = pfsts ∧ bucketsLen qm pairRoutes.length ∧
    ∀ p, p ∈ pfsts → ∀ r route, pairRoutes.get? r = some route →
      (route.length ≤ nextHop → qmEntry qm p r = none) ∧
      (nextHop < route.length →
        ∃ e, qmEntry qm p r = some e ∧ e.percent = p ∧ e.route = route ∧
          e.calculatedHops.length = route.length ∧
          shapeB (route.length - nextHop) route.length e.calculatedHops))

/-- The update pushed by `routeStep` at a starting hop. -/
def startUpdate (inputTokenMint outputTokenMint : String) (pools : String → Pool)
    (pairRoutes : List (List String)) (hop : Nat) (asi : Bool)
    (percent tradeAmount qi ri : Nat) : QuoteUpdate :=
  { percent := percent, routeIndex := ri, hopIndex := hop, quoteIndex := qi,
    address := (poolForHop inputTokenMint pools (pairRoutes.getD ri []) hop).address,
    request :=
      { whirlpool := (poolForHop inputTokenMint pools (pairRoutes.getD ri []) hop).address,
        tradeTokenMint := if asi then inputTokenMint else outputTokenMint,
        tokenAmount := tradeAmount, amountSpecifiedIsInput := asi } }

/-- The update pushed by `routeStep` at a non-starting hop, sourced from the
adjacent successful hop. -/
def adjUpdate (inputTokenMint : String) (pools : String → Pool)
    (pairRoutes : List (List String)) (hop : Nat) (asi : Bool)
    (percent qi ri : Nat) (s : SuccessHop) : QuoteUpdate :=
  { percent := percent, routeIndex := ri, hopIndex := hop, quoteIndex := qi,
    address := (poolForHop inputTokenMint pools (pairRoutes.getD ri []) hop).address,
    request :=
      { whirlpool := (poolForHop inputTokenMint pools (pairRoutes.getD ri []) hop).address,
        tradeTokenMint := if asi then s.outputMint else s.inputMint,
        tokenAmount := if asi then s.amountOut else s.amountIn,
        amountSpecifiedIsInput := asi } }

/-- The fresh entry written by the starting hop. -/
def freshEntry (p : Nat) (route : List String) : InternalRouteQuote :=
  { percent := p, route := route, calculatedHops := List.replicate route.length none }

/-- An entry with one hop slot overwritten. -/
def setHopEntry (e : InternalRouteQuote) (h : Nat) (ch : CalculatedHop) :
    InternalRouteQuote :=
  { e with calculatedHops := e.calculatedHops.set h (some ch) }

/-- A finished entry: present, with a non-empty route, a full-length slot
list, and either complete with no failures or incomplete with exactly one
recorded failure. -/
def entryDone (o : Option InternalRouteQuote) : Prop :=
  ∃ e, o = some e ∧ e.route ≠ [] ∧ e.calculatedHops.length = e.route.length ∧
    (((successHops e.calculatedHops).length = e.route.length ∧
        failureHops e.calculatedHops = []) ∨
     ((successHops e.calculatedHops).length < e.route.length ∧
        (failureHops e.calculatedHops).length = 1))

/-- What `catStep` needs to avoid all of its `TypeError` branches. -/
def entryReady (o : Option InternalRouteQuote) : Prop :=
  ∃ e, o = some e ∧ e.route ≠ [] ∧
    ((successHops e.calculatedHops).length = e.route.length ∨
      failureHops e.calculatedHops ≠ [])

/-- The quote map left by the two-hop pipeline whose first-hop engine fails. -/
def qmC10W : QuoteMap :=
  (pipelineQuoteMap tokA tokB poolsTwo [[keyP1, keyP2]] 100 true (batchOf poolsTwo)
    engineFailA opts50).toOption.getD []

/-- The quote map after the hop-0 pass of the two-hop scenario whose
first-hop engine fails: both percent buckets carry the failure at slot 0. -/
def qmC4MidW : QuoteMap :=
  (runHopsStep tokA tokB poolsTwo [[keyP1, keyP2]] [50, 100] [50, 100] true
    (batchOf poolsTwo) engineFailA [] 0).toOption.getD []

/-! ## Theorems -/

/-! ### C3: the percentage slicer -/

/-- Value of `getD` on a mapped range. -/
theorem getD_map_range (f : Nat → Nat) {n i : Nat} (h : i < n) :
    ((List.range n).map f).getD i 0 = f i := by
  rw [List.getD_eq_getElem?_getD]
  simp [List.getElem?_map, List.getElem?_range, h]

/-- C3: for every non-negative total `T` and every increment dividing 100,
`generatePercentageAmounts` returns the percents `inc, 2·inc, …, 100` in
strictly increasing order, the amount at the position of percent `p` is
`⌊T * p / 100⌋` with truncating division, and the amounts are monotonically
non-decreasing with percentage. -/
theorem C3_slicer_parallel_floor_monotone (T inc : Nat) (hdvd : inc ∣ 100) :
    (generatePercentageAmounts T inc).1.length = 100 / inc ∧
    (generatePercentageAmounts T inc).2.length = 100 / inc ∧
    (∀ i, i < 100 / inc →
      (generatePercentageAmounts T inc).1.getD i 0 = (i + 1) * inc ∧
      (generatePercentageAmounts T inc).2.getD i 0 = T * ((i + 1) * inc) / 100) ∧
    List.Sorted (· < ·) (generatePercentageAmounts T inc).1 ∧
    (generatePercentageAmounts T inc).1.getD (100 / inc - 1) 0 = 100 ∧
    (∀ i j, i ≤ j → j < 100 / inc →
      (generatePercentageAmounts T inc).2.getD i 0 ≤
        (generatePercentageAmounts T inc).2.getD j 0) := by
  have hpos : 0 < inc := by
    rcases Nat.eq_zero_or_pos inc with h0 | h0
    · subst h0; exact absurd (Nat.eq_zero_of_zero_dvd hdvd) (by decide)
    · exact h0
  have hn : 0 < 100 / inc := Nat.div_pos (Nat.le_of_dvd (by decide) hdvd) hpos
  refine ⟨by simp [generatePercentageAmounts], by simp [generatePercentageAmounts],
    ?_, ?_, ?_, ?_⟩
  · intro i hi
    constructor
    · simpa [generatePercentageAmounts] using
        getD_map_range (fun i => (i + 1) * inc) hi
    · simpa [generatePercentageAmounts] using
        getD_map_range (fun i => T * ((i + 1) * inc) / 100) hi
  · have hr : List.Pairwise (· < ·) (List.range (100 / inc)) := List.pairwise_lt_range _
    have := hr.map (fun i => (i + 1) * inc)
      (fun a b hab => Nat.mul_lt_mul_of_lt_of_le (Nat.succ_lt_succ hab) le_rfl hpos)
    simpa [generatePercentageAmounts, List.Sorted] using this
  · have hlast : 100 / inc - 1 < 100 / inc := Nat.sub_lt hn (by decide)
    have h := getD_map_range (fun i => (i + 1) * inc) hlast
    have hval : (100 / inc - 1 + 1) * inc = 100 := by
      rw [Nat.sub_add_cancel hn, Nat.div_mul_cancel hdvd]
    simpa [generatePercentageAmounts, hval] using h
  · intro i j hij hj
    have hi : i < 100 / inc := lt_of_le_of_lt hij hj
    have h1 := getD_map_range (fun i => T * ((i + 1) * inc) / 100) hi
    have h2 := getD_map_range (fun i => T * ((i + 1) * inc) / 100) hj
    simp only [generatePercentageAmounts]
    rw [h1, h2]
    exact Nat.div_le_div_right
      (Nat.mul_le_mul_left T (Nat.mul_le_mul_right inc (Nat.succ_le_succ hij)))

/-- Witness for C3 at `T = 7`, `inc = 20`. -/
theorem C3_slicer_parallel_floor_monotone_witness :
    (20 ∣ 100) ∧
    ((generatePercentageAmounts 7 20).1.length = 100 / 20 ∧
     (generatePercentageAmounts 7 20).2.length = 100 / 20 ∧
     (∀ i, i < 100 / 20 →
       (generatePercentageAmounts 7 20).1.getD i 0 = (i + 1) * 20 ∧
       (generatePercentageAmounts 7 20).2.getD i 0 = 7 * ((i + 1) * 20) / 100) ∧
     List.Sorted (· < ·) (generatePercentageAmounts 7 20).1 ∧
     (generatePercentageAmounts 7 20).1.getD (100 / 20 - 1) 0 = 100 ∧
     (∀ i j, i ≤ j → j < 100 / 20 →
       (generatePercentageAmounts 7 20).2.getD i 0 ≤
         (generatePercentageAmounts 7 20).2.getD j 0)) :=
  ⟨by decide, C3_slicer_parallel_floor_monotone 7 20 (by decide)⟩

/-! ### C1: the fixed side written by `categorizeQuotes` -/

/-- C1 (failing input): on the quote map of a forward call with total trade
amount 100 over a single one-hop route, both slices successful, the 50%
bucket's `RouteQuote` carries `amountIn = 100` — the total trade amount — on
the fixed side, although the slice amount is `⌊100 * 50 / 100⌋ = 50` and the
chain's own first hop was quoted with `amountIn = 50`. -/
theorem C1_fixed_side_carries_total_not_slice :
    categorizeQuotes 100 true qmSlices =
      Except.ok ([(50, [rqBug50]), (100, [rqBug100])], []) ∧
    rqBug50.amountIn = 100 ∧
    100 * 50 / 100 = 50 ∧
    rqBug50.calculatedHops.map SuccessHop.amountIn = [50] :=
  ⟨rfl, rfl, rfl, rfl⟩

/-! ### C2: validation order and promise rejection -/

/-- C2 (amended): `findBestRoutes` checks the pool-graph entry first and the
zero amount second, and delivers the two structured validation failures
through a rejected promise (`Promise.reject`), not through a resolved one;
a missing pair with a zero amount yields `ROUTE_DOES_NOT_EXIST`. -/
theorem C2_validation_order_rejects (inputTokenMint outputTokenMint : String)
    (tradeAmount : Nat) (asi : Bool)
    (walks : String → String → Option (List (List String))) (pools : String → Pool)
    (batchBuild : List QuoteRequest → Except String (List SwapQuoteParam))
    (engine : SwapQuoteParam → Except SwapErrorCode Nat) (opts : RoutingOptions) :
    (walks inputTokenMint outputTokenMint = none →
      findBestRoutes inputTokenMint outputTokenMint tradeAmount asi walks pools
          batchBuild engine opts =
        PromiseOutcome.rejectedResult
          (BestRoutesResult.failure RouteQueryError.ROUTE_DOES_NOT_EXIST none)) ∧
    (∀ pr, walks inputTokenMint outputTokenMint = some pr → tradeAmount = 0 →
      findBestRoutes inputTokenMint outputTokenMint tradeAmount asi walks pools
          batchBuild engine opts =
        PromiseOutcome.rejectedResult
          (BestRoutesResult.failure RouteQueryError.ZERO_INPUT_AMOUNT none)) := by
  constructor
  · intro h
    simp [findBestRoutes, h]
  · intro pr h h0
    simp [findBestRoutes, h, h0]

/-- C2 (counterexample to the claim as stated): a call whose token pair has
no pool-graph entry returns a rejected promise, not a resolved structured
result. -/
theorem C2_counterexample_rejected_promise :
    findBestRoutes tokA tokB 5 true walksNone poolsOne (batchOf poolsOne) engineDouble
        DEFAULT_ROUTING_OPTIONS =
      PromiseOutcome.rejectedResult
        (BestRoutesResult.failure RouteQueryError.ROUTE_DOES_NOT_EXIST none) := rfl

/-- Witness for C2 on concrete graphs: the missing pair rejects with
`ROUTE_DOES_NOT_EXIST`, the present pair with zero amount rejects with
`ZERO_INPUT_AMOUNT`. -/
theorem C2_validation_order_rejects_witness :
    (walksNone tokA tokB = none ∧
      findBestRoutes tokA tokB 5 true walksNone poolsOne (batchOf poolsOne) engineDouble
          DEFAULT_ROUTING_OPTIONS =
        PromiseOutcome.rejectedResult
          (BestRoutesResult.failure RouteQueryError.ROUTE_DOES_NOT_EXIST none)) ∧
    (walksOne tokA tokB = some [[keyP]] ∧
      findBestRoutes tokA tokB 0 true walksOne poolsOne (batchOf poolsOne) engineDouble
          DEFAULT_ROUTING_OPTIONS =
        PromiseOutcome.rejectedResult
          (BestRoutesResult.failure RouteQueryError.ZERO_INPUT_AMOUNT none)) :=
  ⟨⟨rfl,
    (C2_validation_order_rejects tokA tokB 5 true walksNone poolsOne (batchOf poolsOne)
      engineDouble DEFAULT_ROUTING_OPTIONS).1 rfl⟩,
   ⟨by decide,
    (C2_validation_order_rejects tokA tokB 0 true walksOne poolsOne (batchOf poolsOne)
      engineDouble DEFAULT_ROUTING_OPTIONS).2 [[keyP]] (by decide) rfl⟩⟩

/-! ### C6: the pruner sorts stably and keeps the first `pruneN` -/

theorem assocFind_map_val {β γ : Type} (f : β → γ) (l : List (Nat × β)) (k : Nat) :
    assocFind (l.map fun pb => (pb.1, f pb.2)) k = (assocFind l k).map f := by
  induction l with
  | nil => rfl
  | cons kv rest ih =>
    by_cases h : kv.1 = k
    · simp [assocFind, h]
    · simp [assocFind, h, ih]

/-- Two quotes unrelated by the sort relation have different ranking keys:
the comparator is a total preorder induced by `rankKey`. -/
theorem quoteSortLE_not_key (asi : Bool) (x y : RouteQuote)
    (h : ¬ quoteSortLE asi x y) : rankKey asi x ≠ rankKey asi y := by
  cases asi
  · simp only [quoteSortLE, not_le] at h
    show x.amountIn ≠ y.amountIn
    omega
  · simp only [quoteSortLE, not_le] at h
    show x.amountOut ≠ y.amountOut
    omega

/-- Stability of one ordered insertion with respect to a key that refines
the relation. -/
theorem filter_orderedInsert_key {α : Type} (k : α → Nat) (r : α → α → Prop)
    [DecidableRel r] (hr : ∀ x y, ¬ r x y → k x ≠ k y) (x : α) (l : List α) (n : Nat) :
    (l.orderedInsert r x).filter (fun y => k y == n) =
      ((x :: l).filter fun y => k y == n) := by
  induction l with
  | nil => simp [List.orderedInsert]
  | cons b tl ih =>
    rw [List.orderedInsert]
    by_cases hrb : r x b
    · rw [if_pos hrb]
    · rw [if_neg hrb]
      have hk : k x ≠ k b := hr x b hrb
      by_cases hbn : k b = n
      · have hxn : ¬ k x = n := fun h => hk (by rw [h, hbn])
        simp [List.filter_cons, hbn, hxn, ih]
      · by_cases hxn : k x = n
        · simp [List.filter_cons, hbn, hxn, ih]
        · simp [List.filter_cons, hbn, hxn, ih]

/-- Stability of the whole insertion sort with respect to a key that refines
the relation: elements with any fixed key keep their relative order. -/
theorem filter_insertionSort_key {α : Type} (k : α → Nat) (r : α → α → Prop)
    [DecidableRel r] (hr : ∀ x y, ¬ r x y → k x ≠ k y) (l : List α) (n : Nat) :
    (l.insertionSort r).filter (fun y => k y == n) = (l.filter fun y => k y == n) := by
  induction l with
  | nil => rfl
  | cons b tl ih =>
    rw [List.insertionSort, filter_orderedInsert_key k r hr b _ n]
    simp [List.filter_cons, ih]

/-- C6: per percentage bucket, `pruneQuoteMap` returns exactly the first
`pruneN` elements of the bucket sorted by the direction comparator
(descending `amountOut` when the input side is fixed, ascending `amountIn`
otherwise); the sort order is the comparator's, and the sort is stable —
quotes with equal ranking key keep their relative enumeration order. -/
theorem C6_prune_sorted_stable_topN (qm : CleanedMap) (pruneN : Nat) (asi : Bool)
    (p : Nat) :
    assocFind (pruneQuoteMap qm pruneN asi) p =
      (assocFind qm p).map (fun l => (l.insertionSort (quoteSortLE asi)).take pruneN) ∧
    (∀ l : List RouteQuote,
      List.Sorted (quoteSortLE asi) (l.insertionSort (quoteSortLE asi))) ∧
    (∀ (l : List RouteQuote) (n : Nat),
      (l.insertionSort (quoteSortLE asi)).filter (fun q => rankKey asi q == n) =
        (l.filter fun q => rankKey asi q == n)) := by
  refine ⟨?_, fun l => List.sorted_insertionSort _ l,
    fun l n => filter_insertionSort_key _ _ (quoteSortLE_not_key asi) l n⟩
  have hmap : pruneQuoteMap qm pruneN asi =
      qm.map fun pb => (pb.1, (pb.2.insertionSort (quoteSortLE asi)).take pruneN) := by
    unfold pruneQuoteMap sortBuckets
    rw [List.map_map]
    rfl
  rw [hmap]
  exact assocFind_map_val (fun l => (l.insertionSort (quoteSortLE asi)).take pruneN) qm p

/-! ### C9: positions and enumeration order of the built requests -/

/-- `routeStep` either pushes nothing or pushes one update for its own
`(percent, routeIndex)` at this hop with `quoteIndex` equal to the current
length of the accumulated list. -/
theorem routeStep_fst (inputTokenMint outputTokenMint : String) (pools : String → Pool)
    (pairRoutes : List (List String)) (hop : Nat) (asi : Bool)
    (percent tradeAmount : Nat) (st : List QuoteUpdate × QuoteMap) (ri : Nat) :
    (routeStep inputTokenMint outputTokenMint pools pairRoutes hop asi percent
        tradeAmount st ri).1 = st.1 ∨
    ∃ q : QuoteUpdate,
      (routeStep inputTokenMint outputTokenMint pools pairRoutes hop asi percent
          tradeAmount st ri).1 = st.1 ++ [q] ∧
      q.percent = percent ∧ q.routeIndex = ri ∧ q.hopIndex = hop ∧
      q.quoteIndex = st.1.length ∧ q.request.amountSpecifiedIsInput = asi := by
  simp only [routeStep]
  split
  · left; rfl
  · split
    · left; rfl
    · split
      · left; rfl
      · right
        exact ⟨_, rfl, rfl, rfl, rfl, rfl, rfl⟩

/-- Appending an update with `quoteIndex = length` preserves alignment. -/
theorem qiAligned_append_one {l : List QuoteUpdate} (h : qiAligned l)
    {q : QuoteUpdate} (hq : q.quoteIndex = l.length) : qiAligned (l ++ [q]) := by
  intro i u hget
  by_cases hi : i < l.length
  · rw [List.get?_append hi] at hget
    exact h i u hget
  · have hlen : i < (l ++ [q]).length := (List.get?_eq_some.mp hget).1
    rw [List.length_append, List.length_singleton] at hlen
    have hieq : i = l.length := Nat.le_antisymm (Nat.lt_succ_iff.mp hlen) (Nat.le_of_not_lt hi)
    subst hieq
    rw [List.get?_concat_length] at hget
    cases hget
    exact hq

/-- The inner route loop only appends updates: the result extends the
accumulator by a tail whose elements carry the loop's percent and hop, whose
route indices form a sublist of the iterated index list, and alignment of
`quoteIndex` with positions is preserved. -/
theorem foldl_routeStep_tail (inputTokenMint outputTokenMint : String)
    (pools : String → Pool) (pairRoutes : List (List String)) (hop : Nat) (asi : Bool)
    (percent tradeAmount : Nat) :
    ∀ (ris : List Nat) (st : List QuoteUpdate × QuoteMap),
    ∃ tail : List QuoteUpdate,
      (ris.foldl (routeStep inputTokenMint outputTokenMint pools pairRoutes hop asi
          percent tradeAmount) st).1 = st.1 ++ tail ∧
      (∀ u ∈ tail, u.percent = percent ∧ u.hopIndex = hop) ∧
      List.Sublist (tail.map QuoteUpdate.routeIndex) ris ∧
      (qiAligned st.1 →
        qiAligned (ris.foldl (routeStep inputTokenMint outputTokenMint pools pairRoutes
          hop asi percent tradeAmount) st).1) := by
  intro ris
  induction ris with
  | nil =>
    intro st
    exact ⟨[], by simp, by simp, List.nil_sublist _, fun h => h⟩
  | cons r rest ih =>
    intro st
    rcases routeStep_fst inputTokenMint outputTokenMint pools pairRoutes hop asi percent
        tradeAmount st r with hsame | ⟨q, heq, hqp, hqr, hqh, hqi, _⟩
    · rcases ih (routeStep inputTokenMint outputTokenMint pools pairRoutes hop asi percent
          tradeAmount st r) with ⟨tail, h1, h2, h3, h4⟩
      refine ⟨tail, by rw [List.foldl_cons, h1, hsame], h2, h3.cons r, ?_⟩
      intro hal
      rw [List.foldl_cons]
      exact h4 (by rw [hsame]; exact hal)
    · rcases ih (routeStep inputTokenMint outputTokenMint pools pairRoutes hop asi percent
          tradeAmount st r) with ⟨tail, h1, h2, h3, h4⟩
      refine ⟨q :: tail, ?_, ?_, ?_, ?_⟩
      · rw [List.foldl_cons, h1, heq, List.append_assoc]
        rfl
      · intro u hu
        rcases List.mem_cons.mp hu with hu | hu
        · subst hu; exact ⟨hqp, hqh⟩
        · exact h2 u hu
      · simpa [hqr] using h3.cons₂ r
      · intro hal
        rw [List.foldl_cons]
        exact h4 (by rw [heq]; exact qiAligned_append_one hal hqi)

/-- `percentStep` appends a tail of updates for its own percent, with route
indices strictly increasing, preserving `quoteIndex` alignment. -/
theorem percentStep_tail (inputTokenMint outputTokenMint : String)
    (pools : String → Pool) (pairRoutes : List (List String)) (hop : Nat) (asi : Bool)
    (st : List QuoteUpdate × QuoteMap) (pa : Nat × Nat) :
    ∃ tail : List QuoteUpdate,
      (percentStep inputTokenMint outputTokenMint pools pairRoutes hop asi st pa).1 =
        st.1 ++ tail ∧
      (∀ u ∈ tail, u.percent = pa.1 ∧ u.hopIndex = hop) ∧
      tail.Pairwise (fun a b => a.routeIndex < b.routeIndex) ∧
      (qiAligned st.1 →
        qiAligned (percentStep inputTokenMint outputTokenMint pools pairRoutes hop asi
          st pa).1) := by
  rcases foldl_routeStep_tail inputTokenMint outputTokenMint pools pairRoutes hop asi
      pa.1 pa.2 (List.range pairRoutes.length) (st.1, qmCreate st.2 pa.1 pairRoutes.length)
    with ⟨tail, h1, h2, h3, h4⟩
  refine ⟨tail, h1, h2, ?_, fun hal => h4 hal⟩
  have hr : (tail.map QuoteUpdate.routeIndex).Pairwise (· < ·) :=
    (List.pairwise_lt_range _).sublist h3
  exact (List.pairwise_map.mp hr)

/-- The zip of two lists projects on the left to a sublist of the first. -/
theorem map_fst_zip_sublist {α β : Type} :
    ∀ (l1 : List α) (l2 : List β), List.Sublist ((l1.zip l2).map Prod.fst) l1
  | [], _ => by simp
  | _ :: _, [] => by simp
  | a :: l1, b :: l2 => by
    simpa using (map_fst_zip_sublist l1 l2).cons₂ a

/-- The outer amount loop produces a tail whose elements are ordered by the
strict lexicographic order on `(percent, routeIndex)` whenever the iterated
percents are strictly increasing, preserving alignment. -/
theorem foldl_percentStep_tail (inputTokenMint outputTokenMint : String)
    (pools : String → Pool) (pairRoutes : List (List String)) (hop : Nat) (asi : Bool) :
    ∀ (pas : List (Nat × Nat)) (st : List QuoteUpdate × QuoteMap),
    (pas.map Prod.fst).Pairwise (· < ·) →
    ∃ tail : List QuoteUpdate,
      (pas.foldl (percentStep inputTokenMint outputTokenMint pools pairRoutes hop asi)
          st).1 = st.1 ++ tail ∧
      tail.Pairwise lexPR ∧
      (∀ u ∈ tail, u.percent ∈ pas.map Prod.fst ∧ u.hopIndex = hop) ∧
      (qiAligned st.1 →
        qiAligned (pas.foldl (percentStep inputTokenMint outputTokenMint pools pairRoutes
          hop asi) st).1) := by
  intro pas
  induction pas with
  | nil =>
    intro st _
    exact ⟨[], by simp, List.Pairwise.nil, by simp, fun h => h⟩
  | cons pa rest ih =>
    intro st hsort
    rcases percentStep_tail inputTokenMint outputTokenMint pools pairRoutes hop asi st pa
      with ⟨seg, h1, h2, h3, h4⟩
    rcases ih (percentStep inputTokenMint outputTokenMint pools pairRoutes hop asi st pa)
        (List.pairwise_cons.mp (by simpa using hsort)).2 with ⟨tail2, g1, g2, g3, g4⟩
    have hlt : ∀ p ∈ rest.map Prod.fst, pa.1 < p :=
      (List.pairwise_cons.mp (by simpa using hsort)).1
    refine ⟨seg ++ tail2, ?_, ?_, ?_, ?_⟩
    · rw [List.foldl_cons, g1, h1, List.append_assoc]
    · rw [List.pairwise_append]
      refine ⟨?_, g2, ?_⟩
      · exact h3.imp_of_mem fun ha hb hab =>
          Or.inr ⟨by rw [(h2 _ ha).1, (h2 _ hb).1], hab⟩
      · intro a ha b hb
        exact Or.inl (by
          rw [(h2 a ha).1]
          rcases g3 b hb with ⟨hbp, _⟩
          exact hlt _ hbp)
    · intro u hu
      rcases List.mem_append.mp hu with hu | hu
      · exact ⟨by rw [(h2 u hu).1]; exact List.mem_cons_self _ _, (h2 u hu).2⟩
      · rcases g3 u hu with ⟨hup, huh⟩
        exact ⟨List.mem_cons_of_mem _ hup, huh⟩
    · intro hal
      rw [List.foldl_cons]
      exact g4 (h4 hal)

/-- C9: in the list built by `buildQuoteUpdateRequests`, every element's
`quoteIndex` equals its position; hence whenever `quoteParams` has exactly
one entry per request, the lookup `quoteParams[quoteIndex]` is in bounds and
positionally aligned; and the requests are enumerated with percents in input
(ascending) order and route indices ascending within each percent. -/
theorem C9_build_positions_and_order (inputTokenMint outputTokenMint : String)
    (pools : String → Pool) (pairRoutes : List (List String))
    (percents amounts : List Nat) (hop : Nat) (asi : Bool) (qm : QuoteMap)
    (hsort : percents.Pairwise (· < ·)) :
    (∀ i u, (buildQuoteUpdateRequests inputTokenMint outputTokenMint pools pairRoutes
        percents amounts hop asi qm).1.get? i = some u → u.quoteIndex = i) ∧
    (buildQuoteUpdateRequests inputTokenMint outputTokenMint pools pairRoutes
        percents amounts hop asi qm).1.Pairwise lexPR ∧
    (∀ quoteParams : List SwapQuoteParam,
      quoteParams.length = (buildQuoteUpdateRequests inputTokenMint outputTokenMint pools
        pairRoutes percents amounts hop asi qm).1.length →
      ∀ i u, (buildQuoteUpdateRequests inputTokenMint outputTokenMint pools pairRoutes
          percents amounts hop asi qm).1.get? i = some u →
        u.quoteIndex < quoteParams.length ∧
        quoteParams.get? u.quoteIndex = quoteParams.get? i) := by
  have hz : ((percents.zip amounts).map Prod.fst).Pairwise (· < ·) :=
    hsort.sublist (map_fst_zip_sublist percents amounts)
  rcases foldl_percentStep_tail inputTokenMint outputTokenMint pools pairRoutes hop asi
      (percents.zip amounts) ([], qm) hz with ⟨tail, h1, h2, _, h4⟩
  have hal : qiAligned (buildQuoteUpdateRequests inputTokenMint outputTokenMint pools
      pairRoutes percents amounts hop asi qm).1 := by
    unfold buildQuoteUpdateRequests
    exact h4 fun i u h => absurd h (by simp)
  have hupd : (buildQuoteUpdateRequests inputTokenMint outputTokenMint pools pairRoutes
      percents amounts hop asi qm).1 = tail := by
    unfold buildQuoteUpdateRequests
    simpa using h1
  refine ⟨hal, by rw [hupd]; exact h2, ?_⟩
  intro quoteParams hlen i u hget
  have hqi := hal i u hget
  have hibound : i < (buildQuoteUpdateRequests inputTokenMint outputTokenMint pools
      pairRoutes percents amounts hop asi qm).1.length := (List.get?_eq_some.mp hget).1
  constructor
  · rw [hqi, hlen]
    exact hibound
  · rw [hqi]

/-- Witness for C9 at hop 0 of the one-route scenario with percents
`[50, 100]`. -/
theorem C9_build_positions_and_order_witness :
    (([50, 100] : List Nat).Pairwise (· < ·)) ∧
    ((∀ i u, (buildQuoteUpdateRequests tokA tokB poolsOne [[keyP]]
        [50, 100] [50, 100] 0 true []).1.get? i = some u → u.quoteIndex = i) ∧
    (buildQuoteUpdateRequests tokA tokB poolsOne [[keyP]]
        [50, 100] [50, 100] 0 true []).1.Pairwise lexPR ∧
    (∀ quoteParams : List SwapQuoteParam,
      quoteParams.length = (buildQuoteUpdateRequests tokA tokB poolsOne [[keyP]]
        [50, 100] [50, 100] 0 true []).1.length →
      ∀ i u, (buildQuoteUpdateRequests tokA tokB poolsOne [[keyP]]
          [50, 100] [50, 100] 0 true []).1.get? i = some u →
        u.quoteIndex < quoteParams.length ∧
        quoteParams.get? u.quoteIndex = quoteParams.get? i)) :=
  ⟨by decide,
   C9_build_positions_and_order tokA tokB poolsOne [[keyP]] [50, 100] [50, 100] 0 true []
     (by decide)⟩

/-! ### C5: positional application of batch results -/

/-- Effect of a keyed in-place map update on `assocFind`. -/
theorem assocFind_mapAt {β : Type} (f : β → β) (p : Nat) (l : List (Nat × β)) (k : Nat) :
    assocFind (l.map fun kv => if kv.1 = p then (kv.1, f kv.2) else kv) k =
      if k = p then (assocFind l k).map f else assocFind l k := by
  induction l with
  | nil => by_cases h : k = p <;> simp [assocFind, h]
  | cons kv rest ih =>
    obtain ⟨a, b⟩ := kv
    by_cases h2 : a = k
    · subst h2
      by_cases h1 : a = p
      · subst h1
        simp [assocFind]
      · simp [assocFind, h1]
    · by_cases h1 : a = p
      · subst h1
        simp [assocFind, h2, Ne.symm h2, ih]
      · simp [assocFind, h1, h2, ih]

/-- `bucketSetHop` leaves other route slots unchanged. -/
theorem bucketSetHop_getD_ne (r h : Nat) (ch : CalculatedHop) (b : QuoteBucket)
    (r' : Nat) (hne : r' ≠ r) :
    (bucketSetHop r h ch b).getD r' none = b.getD r' none := by
  unfold bucketSetHop
  split
  · rfl
  · show ((b.set r _).get? r').getD none = (b.get? r').getD none
    rw [List.get?_set_ne _ _ (Ne.symm hne)]

/-- `bucketSetHop` writes the hop slot of the present entry. -/
theorem bucketSetHop_getD_same (r h : Nat) (ch : CalculatedHop) (b : QuoteBucket)
    (e : InternalRouteQuote) (he : b.getD r none = some e) :
    (bucketSetHop r h ch b).getD r none =
      some { e with calculatedHops := e.calculatedHops.set h (some ch) } := by
  have hlt : r < b.length := by
    cases hbr : b.get? r with
    | none =>
      exfalso
      have : b.getD r none = none := by
        show (b.get? r).getD none = none
        rw [hbr]
        rfl
      rw [this] at he
      exact Option.noConfusion he
    | some o => exact (List.get?_eq_some.mp hbr).1
  unfold bucketSetHop
  rw [he]
  show ((b.set r _).get? r).getD none = _
  rw [List.get?_set_eq_of_lt _ hlt]
  rfl

/-- `qmSetHop` leaves every other `(percent, routeIndex)` entry unchanged. -/
theorem qmEntry_setHop_other (qm : QuoteMap) (p r h : Nat) (ch : CalculatedHop)
    (p' r' : Nat) (hne : ¬(p' = p ∧ r' = r)) :
    qmEntry (qmSetHop qm p r h ch) p' r' = qmEntry qm p' r' := by
  unfold qmEntry qmSetHop
  rw [assocFind_mapAt]
  by_cases hp : p' = p
  · rw [if_pos hp]
    cases hfind : assocFind qm p' with
    | none => simp
    | some b =>
      have hr : r' ≠ r := fun hrr => hne ⟨hp, hrr⟩
      simp only [Option.map_some']
      exact bucketSetHop_getD_ne r h ch b r' hr
  · rw [if_neg hp]

/-- `qmSetHop` writes the hop slot of the present targeted entry. -/
theorem qmEntry_setHop_same (qm : QuoteMap) (p r h : Nat) (ch : CalculatedHop)
    (e : InternalRouteQuote) (he : qmEntry qm p r = some e) :
    qmEntry (qmSetHop qm p r h ch) p r =
      some { e with calculatedHops := e.calculatedHops.set h (some ch) } := by
  unfold qmEntry qmSetHop at *
  rw [assocFind_mapAt, if_pos rfl]
  cases hfind : assocFind qm p with
  | none =>
    rw [hfind] at he
    exact absurd he (by simp)
  | some b =>
    rw [hfind] at he
    simp only [Option.map_some']
    exact bucketSetHop_getD_same r h ch b e he

/-- A batch application leaves untargeted entries unchanged. -/
theorem updateQuoteMap_untargeted (engine : SwapQuoteParam → Except SwapErrorCode Nat)
    (quoteParams : List SwapQuoteParam) :
    ∀ (updates : List QuoteUpdate) (qm : QuoteMap) (p r : Nat),
    (∀ u ∈ updates, ¬(u.percent = p ∧ u.routeIndex = r)) →
    qmEntry (updateQuoteMap engine updates quoteParams qm) p r = qmEntry qm p r := by
  intro updates
  induction updates with
  | nil => intro qm p r _; rfl
  | cons v rest ih =>
    intro qm p r hnt
    show qmEntry (updateQuoteMap engine rest quoteParams
      (applyQuoteResult engine quoteParams qm v)) p r = qmEntry qm p r
    rw [ih _ p r fun u hu => hnt u (List.mem_cons_of_mem _ hu)]
    exact qmEntry_setHop_other qm v.percent v.routeIndex v.hopIndex _ p r
      fun hpr => hnt v (List.mem_cons_self _ _) ⟨hpr.1.symm, hpr.2.symm⟩

/-- Core of C5: with pairwise-distinct targets, the slot of every update in
the batch receives exactly the engine's verdict on
`quoteParams[u.quoteIndex]`, independent of the sibling requests. -/
theorem updateQuoteMap_apply_mem (engine : SwapQuoteParam → Except SwapErrorCode Nat)
    (quoteParams : List SwapQuoteParam) :
    ∀ (updates : List QuoteUpdate) (qm : QuoteMap),
    updates.Pairwise (fun a b => ¬(a.percent = b.percent ∧ a.routeIndex = b.routeIndex)) →
    ∀ u ∈ updates, ∀ e, qmEntry qm u.percent u.routeIndex = some e →
    qmEntry (updateQuoteMap engine updates quoteParams qm) u.percent u.routeIndex =
      some { e with calculatedHops := (e.calculatedHops.set u.hopIndex
        (some (hopResultOf engine (quoteParams.get? u.quoteIndex) u))) } := by
  intro updates
  induction updates with
  | nil => intro qm _ u hu; exact absurd hu (List.not_mem_nil u)
  | cons v rest ih =>
    intro qm hDist u hu e he
    rcases List.mem_cons.mp hu with hv | hrest
    · subst hv
      show qmEntry (updateQuoteMap engine rest quoteParams
        (applyQuoteResult engine quoteParams qm u)) u.percent u.routeIndex = _
      rw [updateQuoteMap_untargeted engine quoteParams rest _ u.percent u.routeIndex
        fun w hw hpr =>
          (List.pairwise_cons.mp hDist).1 w hw ⟨hpr.1.symm, hpr.2.symm⟩]
      exact qmEntry_setHop_same qm u.percent u.routeIndex u.hopIndex _ e he
    · show qmEntry (updateQuoteMap engine rest quoteParams
        (applyQuoteResult engine quoteParams qm v)) u.percent u.routeIndex = _
      have hvne : ¬(u.percent = v.percent ∧ u.routeIndex = v.routeIndex) := fun hpr =>
        (List.pairwise_cons.mp hDist).1 u hrest ⟨hpr.1.symm, hpr.2.symm⟩
      have he' : qmEntry (applyQuoteResult engine quoteParams qm v) u.percent
          u.routeIndex = some e := by
        unfold applyQuoteResult
        rw [qmEntry_setHop_other qm v.percent v.routeIndex v.hopIndex _ _ _ hvne]
        exact he
      exact ih _ (List.pairwise_cons.mp hDist).2 u hrest e he'

/-- C5: within one hop batch, results are applied back strictly by position
— the quote result consumed for a request is the engine verdict on the
parameter at that request's own index — an engine error yields a `Failure`
hop tagged with the reported error kind at exactly that update's slot, and
every sibling update's slot still receives its own verdict; entries no
update targets are untouched. -/
theorem C5_update_positional_isolated (engine : SwapQuoteParam → Except SwapErrorCode Nat)
    (updates : List QuoteUpdate) (quoteParams : List SwapQuoteParam) (qm : QuoteMap)
    (hAl : ∀ i u, updates.get? i = some u → u.quoteIndex = i)
    (hDist : updates.Pairwise fun a b =>
      ¬(a.percent = b.percent ∧ a.routeIndex = b.routeIndex)) :
    (∀ i u, updates.get? i = some u →
      ∀ e, qmEntry qm u.percent u.routeIndex = some e →
        qmEntry (updateQuoteMap engine updates quoteParams qm) u.percent u.routeIndex =
          some { e with calculatedHops := (e.calculatedHops.set u.hopIndex
            (some (hopResultOf engine (quoteParams.get? i) u))) }) ∧
    (∀ p r, (∀ u ∈ updates, ¬(u.percent = p ∧ u.routeIndex = r)) →
      qmEntry (updateQuoteMap engine updates quoteParams qm) p r = qmEntry qm p r) := by
  constructor
  · intro i u hget e he
    have hmem : u ∈ updates := List.get?_mem hget
    have hqi := hAl i u hget
    rw [← hqi]
    exact updateQuoteMap_apply_mem engine quoteParams updates qm hDist u hmem e he
  · exact fun p r hnt => updateQuoteMap_untargeted engine quoteParams updates qm p r hnt

/-- Witness for C5: a concrete two-update batch in which the first request's
engine call fails and the second succeeds; each slot receives its own
positional verdict. -/
theorem C5_update_positional_isolated_witness :
    (∀ i u, ([updW1, updW2] : List QuoteUpdate).get? i = some u → u.quoteIndex = i) ∧
    (([updW1, updW2] : List QuoteUpdate).Pairwise fun a b =>
      ¬(a.percent = b.percent ∧ a.routeIndex = b.routeIndex)) ∧
    ((∀ i u, ([updW1, updW2] : List QuoteUpdate).get? i = some u →
      ∀ e, qmEntry qmW u.percent u.routeIndex = some e →
        qmEntry (updateQuoteMap engineFailA [updW1, updW2] paramsW qmW) u.percent
            u.routeIndex =
          some { e with calculatedHops := (e.calculatedHops.set u.hopIndex
            (some (hopResultOf engineFailA (paramsW.get? i) u))) }) ∧
    (∀ p r, (∀ u ∈ ([updW1, updW2] : List QuoteUpdate),
        ¬(u.percent = p ∧ u.routeIndex = r)) →
      qmEntry (updateQuoteMap engineFailA [updW1, updW2] paramsW qmW) p r =
        qmEntry qmW p r)) := by
  have hAl : ∀ i u, ([updW1, updW2] : List QuoteUpdate).get? i = some u →
      u.quoteIndex = i := by
    intro i u h
    match i, h with
    | 0, h => cases h; rfl
    | 1, h => cases h; rfl
    | n + 2, h => simp at h
  have hDist : ([updW1, updW2] : List QuoteUpdate).Pairwise fun a b =>
      ¬(a.percent = b.percent ∧ a.routeIndex = b.routeIndex) := by
    simp [updW1, updW2]
  exact ⟨hAl, hDist,
    C5_update_positional_isolated engineFailA [updW1, updW2] paramsW qmW hAl hDist⟩

/-! ### C7: empty-result diagnosis -/

/-- C7: when the whole pipeline runs (pool-graph entry present, non-zero
amount, no batch fault, aggregation returns), `findBestRoutes` resolves with
`finishRoutes`; the result is `Failure{TRADE_AMOUNT_TOO_HIGH}` exactly when
the final ranked list is empty and the observed failure kinds contain
`TickArraySequenceInvalid`; every other empty-result case resolves with
`Success` and an empty list. -/
theorem C7_empty_diag_TASI (inputTokenMint outputTokenMint : String)
    (tradeAmount : Nat) (asi : Bool)
    (walks : String → String → Option (List (List String))) (pools : String → Pool)
    (batchBuild : List QuoteRequest → Except String (List SwapQuoteParam))
    (engine : SwapQuoteParam → Except SwapErrorCode Nat) (opts : RoutingOptions)
    (pairRoutes : List (List String)) (qm : QuoteMap) (cleaned : CleanedMap)
    (failures : List (Option SwapErrorCode))
    (hw : walks inputTokenMint outputTokenMint = some pairRoutes)
    (hT : tradeAmount ≠ 0)
    (hrun : pipelineQuoteMap inputTokenMint outputTokenMint pools pairRoutes tradeAmount
      asi batchBuild engine opts = Except.ok qm)
    (hcat : categorizeQuotes tradeAmount asi qm = Except.ok (cleaned, failures)) :
    findBestRoutes inputTokenMint outputTokenMint tradeAmount asi walks pools batchBuild
        engine opts = PromiseOutcome.resolved (finishRoutes asi opts cleaned failures) ∧
    (finishRoutes asi opts cleaned failures =
        BestRoutesResult.failure RouteQueryError.TRADE_AMOUNT_TOO_HIGH none ↔
      bestRoutesList asi opts cleaned = [] ∧
        some SwapErrorCode.TickArraySequenceInvalid ∈ failures) ∧
    (bestRoutesList asi opts cleaned = [] →
      some SwapErrorCode.TickArraySequenceInvalid ∉ failures →
      finishRoutes asi opts cleaned failures = BestRoutesResult.success []) := by
  refine ⟨?_, ?_, ?_⟩
  · simp [findBestRoutes, hw, hT, hrun, hcat]
  · simp only [finishRoutes]
    constructor
    · intro h
      by_cases hb : (bestRoutesList asi opts cleaned).length = 0
      · rw [if_pos hb] at h
        by_cases hf : some SwapErrorCode.TickArraySequenceInvalid ∈ failures
        · exact ⟨List.length_eq_zero.mp hb, hf⟩
        · rw [if_neg hf] at h
          exact BestRoutesResult.noConfusion h
      · rw [if_neg hb] at h
        exact BestRoutesResult.noConfusion h
    · rintro ⟨hb, hf⟩
      rw [if_pos (by rw [hb]; rfl), if_pos hf]
  · intro hb hf
    simp only [finishRoutes]
    rw [if_pos (by rw [hb]; rfl), if_neg hf, hb]

/-- Witness for C7: with the always-failing engine the pipeline completes,
the ranked list is empty, the failure set holds `TickArraySequenceInvalid`,
and the call resolves with `Failure{TRADE_AMOUNT_TOO_HIGH}`. -/
theorem C7_empty_diag_TASI_witness :
    (walksOne tokA tokB = some [[keyP]]) ∧ (100 ≠ 0) ∧
    (pipelineQuoteMap tokA tokB poolsOne [[keyP]] 100 true (batchOf poolsOne) engineTASI
      opts50 = Except.ok qmTASI) ∧
    (categorizeQuotes 100 true qmTASI = Except.ok (catTASI.1, catTASI.2)) ∧
    (findBestRoutes tokA tokB 100 true walksOne poolsOne (batchOf poolsOne) engineTASI
        opts50 = PromiseOutcome.resolved (finishRoutes true opts50 catTASI.1 catTASI.2) ∧
      (finishRoutes true opts50 catTASI.1 catTASI.2 =
          BestRoutesResult.failure RouteQueryError.TRADE_AMOUNT_TOO_HIGH none ↔
        bestRoutesList true opts50 catTASI.1 = [] ∧
          some SwapErrorCode.TickArraySequenceInvalid ∈ catTASI.2) ∧
      (bestRoutesList true opts50 catTASI.1 = [] →
        some SwapErrorCode.TickArraySequenceInvalid ∉ catTASI.2 →
        finishRoutes true opts50 catTASI.1 catTASI.2 = BestRoutesResult.success [])) ∧
    finishRoutes true opts50 catTASI.1 catTASI.2 =
      BestRoutesResult.failure RouteQueryError.TRADE_AMOUNT_TOO_HIGH none :=
  ⟨by decide, by decide, rfl, rfl,
   C7_empty_diag_TASI tokA tokB 100 true walksOne poolsOne (batchOf poolsOne) engineTASI
     opts50 [[keyP]] qmTASI catTASI.1 catTASI.2 (by decide) (by decide) rfl rfl,
   by decide⟩

/-! ### C8: the final list is the sorted union, not truncated -/

/-- C8 (counterexample to the claim as stated): with `numTopRoutes = 0` and
one healthy one-hop route, the returned list still has one element — the
union of ranked combinations and degenerate candidates is sorted but never
truncated to `numTopRoutes` in `findBestRoutes`. -/
theorem C8_counterexample_no_truncation :
    (match findBestRoutes tokA tokB 100 true walksOne poolsOne (batchOf poolsOne)
        engineDouble optsTop0 with
      | PromiseOutcome.resolved (BestRoutesResult.success l) => l.length
      | _ => 0) = 1 ∧
    optsTop0.numTopRoutes = 0 ∧ ¬ (1 ≤ 0) :=
  ⟨rfl, rfl, by decide⟩

/-- C8 (amended): the final `bestRoutes` value is the union of the ranked
combinations (computed on the pruned map, themselves at most `numTopRoutes`
many) and the degenerate one-hop 100% candidates, sorted by the direction
comparator and NOT truncated further: its length is only bounded by
`numTopRoutes` plus the number of degenerate candidates, and every
successful one-hop quote of the 100% bucket appears in the final list even
when pruning dropped it. -/
theorem C8_union_sorted_not_truncated (asi : Bool) (opts : RoutingOptions)
    (cleaned : CleanedMap) :
    bestRoutesList asi opts cleaned =
      (getRankedRoutes (pruneQuoteMap cleaned opts.numTopPartialQuotes asi) asi
          opts.numTopRoutes opts.maxSplits ++
        getSingleHopSplit (sortBuckets asi cleaned)).insertionSort (routeSetLE asi) ∧
    List.Sorted (routeSetLE asi) (bestRoutesList asi opts cleaned) ∧
    (getRankedRoutes (pruneQuoteMap cleaned opts.numTopPartialQuotes asi) asi
        opts.numTopRoutes opts.maxSplits).length ≤ opts.numTopRoutes ∧
    (bestRoutesList asi opts cleaned).length ≤
      opts.numTopRoutes + (getSingleHopSplit (sortBuckets asi cleaned)).length ∧
    (∀ rs ∈ getSingleHopSplit (sortBuckets asi cleaned),
      rs ∈ bestRoutesList asi opts cleaned) ∧
    (∀ bucket q oneHop, assocFind cleaned 100 = some bucket → q ∈ bucket →
      q.calculatedHops = [oneHop] →
      ({ quotes := [q], percent := 100, totalIn := oneHop.amountIn,
         totalOut := oneHop.amountOut } : RouteSet) ∈ bestRoutesList asi opts cleaned) := by
  have hperm := List.perm_insertionSort (routeSetLE asi)
    (getRankedRoutes (pruneQuoteMap cleaned opts.numTopPartialQuotes asi) asi
        opts.numTopRoutes opts.maxSplits ++
      getSingleHopSplit (sortBuckets asi cleaned))
  have hranklen : (getRankedRoutes (pruneQuoteMap cleaned opts.numTopPartialQuotes asi)
      asi opts.numTopRoutes opts.maxSplits).length ≤ opts.numTopRoutes := by
    unfold getRankedRoutes
    rw [List.length_take]
    exact min_le_left _ _
  refine ⟨rfl, List.sorted_insertionSort _ _, hranklen, ?_, ?_, ?_⟩
  · rw [show (bestRoutesList asi opts cleaned).length = _ from hperm.length_eq]
    rw [List.length_append]
    exact Nat.add_le_add_right hranklen _
  · intro rs hrs
    exact hperm.mem_iff.mpr (List.mem_append_right _ hrs)
  · intro bucket q oneHop hfind hq hhops
    apply hperm.mem_iff.mpr
    apply List.mem_append_right
    unfold getSingleHopSplit
    have hfind2 : assocFind (sortBuckets asi cleaned) 100 =
        some (bucket.insertionSort (quoteSortLE asi)) := by
      unfold sortBuckets
      rw [assocFind_map_val (fun l => l.insertionSort (quoteSortLE asi)) cleaned 100,
        hfind]
      rfl
    rw [hfind2]
    apply List.mem_filterMap.mpr
    refine ⟨q, ?_, ?_⟩
    · exact (List.perm_insertionSort (quoteSortLE asi) bucket).mem_iff.mpr hq
    · rw [hhops]

/-- Witness for C8 on the concrete healthy run: the single-hop 100%
candidate is in the final list. -/
theorem C8_union_sorted_not_truncated_witness :
    (assocFind catDouble.1 100 = some [qD100]) ∧ (qD100 ∈ [qD100]) ∧
    (qD100.calculatedHops = [hopD100]) ∧
    ({ quotes := [qD100], percent := 100, totalIn := hopD100.amountIn,
       totalOut := hopD100.amountOut } : RouteSet) ∈
      bestRoutesList true opts50 catDouble.1 :=
  ⟨by decide, by decide, by decide,
   (C8_union_sorted_not_truncated true opts50 catDouble.1).2.2.2.2.2 [qD100] qD100
     hopD100 (by decide) (by decide) (by decide)⟩

/-! ### C4 and C10: machinery for the hop-loop invariant -/

/-- `getD` of a `replicate none` list is `none` at every index. -/
theorem getD_replicate_none {α : Type} :
    ∀ (n r : Nat), (List.replicate n (none : Option α)).getD r none = none
  | 0, _ => rfl
  | _ + 1, 0 => rfl
  | n + 1, r + 1 => getD_replicate_none n r

/-- Setting inside a `replicate` splits it around the written index. -/
theorem replicate_set {α : Type} (d v : α) :
    ∀ (n i : Nat), i < n →
      (List.replicate n d).set i v =
        List.replicate i d ++ v :: List.replicate (n - i - 1) d
  | 0, i, h => absurd h (Nat.not_lt_zero i)
  | n + 1, 0, _ => by simp [List.replicate_succ]
  | n + 1, i + 1, h => by
    simp only [List.replicate_succ, List.set_cons_succ, List.cons_append]
    rw [replicate_set d v n i (Nat.lt_of_succ_lt_succ h)]
    have hs : n + 1 - (i + 1) = n - i := Nat.succ_sub_succ n i
    rw [hs]

/-- A found association belongs to the list. -/
theorem assocFind_mem {β : Type} :
    ∀ (l : List (Nat × β)) (k : Nat) (b : β), assocFind l k = some b → (k, b) ∈ l := by
  intro l
  induction l with
  | nil => intro k b h; exact absurd h (by simp [assocFind])
  | cons kv rest ih =>
    intro k b h
    by_cases hk : kv.1 = k
    · rw [assocFind, if_pos hk] at h
      cases h
      subst hk
      exact List.mem_cons_self kv rest
    · rw [assocFind, if_neg hk] at h
      exact List.mem_cons_of_mem _ (ih k b h)

/-- `qmCreate` does not change any entry read. -/
theorem qmEntry_create (qm : QuoteMap) (p n : Nat) (p' r : Nat) :
    qmEntry (qmCreate qm p n) p' r = qmEntry qm p' r := by
  unfold qmCreate
  cases hfind : assocFind qm p with
  | some b => rfl
  | none =>
    unfold qmEntry
    have happ : ∀ (l : List (Nat × QuoteBucket)) (k : Nat),
        assocFind l k = none →
        assocFind (l ++ [(p, List.replicate n none)]) k =
          if p = k then some (List.replicate n none) else none := by
      intro l
      induction l with
      | nil => intro k _; simp [assocFind]
      | cons kv rest ih =>
        intro k hk
        by_cases h1 : kv.1 = k
        · rw [assocFind, if_pos h1] at hk
          exact absurd hk (by simp)
        · rw [assocFind, if_neg h1] at hk
          rw [List.cons_append, assocFind, if_neg h1]
          exact ih k hk
    by_cases hp : assocFind qm p' = none
    · rw [happ qm p' hp, hp]
      by_cases hpp : p = p'
      · rw [if_pos hpp]
        simp [getD_replicate_none]
      · rw [if_neg hpp]
    · cases hfind2 : assocFind qm p' with
      | none => exact absurd hfind2 hp
      | some b =>
        have happ2 : ∀ (l : List (Nat × QuoteBucket)),
            assocFind l p' = some b →
            assocFind (l ++ [(p, List.replicate n none)]) p' = some b := by
          intro l
          induction l with
          | nil => intro hl; exact absurd hl (by simp [assocFind])
          | cons kv rest ih =>
            intro hl
            by_cases h1 : kv.1 = p'
            · rw [assocFind, if_pos h1] at hl
              rw [List.cons_append, assocFind, if_pos h1]
              exact hl
            · rw [assocFind, if_neg h1] at hl
              rw [List.cons_append, assocFind, if_neg h1]
              exact ih hl
        simp [happ2 qm hfind2, hfind2]

/-- `qmSetEntry` leaves other entries unchanged. -/
theorem qmEntry_setEntry_other (qm : QuoteMap) (p r : Nat) (e : InternalRouteQuote)
    (p' r' : Nat) (hne : ¬(p' = p ∧ r' = r)) :
    qmEntry (qmSetEntry qm p r e) p' r' = qmEntry qm p' r' := by
  unfold qmEntry qmSetEntry
  rw [assocFind_mapAt]
  by_cases hp : p' = p
  · rw [if_pos hp]
    cases hfind : assocFind qm p' with
    | none => simp
    | some b =>
      have hr : r' ≠ r := fun hrr => hne ⟨hp, hrr⟩
      simp only [Option.map_some']
      show ((bucketSetEntry r e b).get? r').getD none = (b.get? r').getD none
      unfold bucketSetEntry
      rw [List.get?_set_ne _ _ (Ne.symm hr)]
  · rw [if_neg hp]

/-- `qmSetEntry` writes the targeted in-range slot of a present bucket. -/
theorem qmEntry_setEntry_same (qm : QuoteMap) (p r : Nat) (e : InternalRouteQuote)
    (b : QuoteBucket) (hb : assocFind qm p = some b) (hr : r < b.length) :
    qmEntry (qmSetEntry qm p r e) p r = some e := by
  unfold qmEntry qmSetEntry
  rw [assocFind_mapAt, if_pos rfl, hb]
  simp only [Option.map_some']
  show ((bucketSetEntry r e b).get? r).getD none = some e
  unfold bucketSetEntry
  rw [List.get?_set_eq_of_lt _ hr]
  rfl

/-- Keyed in-place map updates keep the key list. -/
theorem keys_mapAt {β : Type} (f : β → β) (p : Nat) (l : List (Nat × β)) :
    (l.map fun kv => if kv.1 = p then (kv.1, f kv.2) else kv).map Prod.fst =
      l.map Prod.fst := by
  induction l with
  | nil => rfl
  | cons kv rest ih =>
    by_cases h : kv.1 = p <;> simp [h, ih]

/-- `qmSetEntry` keeps the key list. -/
theorem keys_setEntry (qm : QuoteMap) (p r : Nat) (e : InternalRouteQuote) :
    (qmSetEntry qm p r e).map Prod.fst = qm.map Prod.fst :=
  keys_mapAt _ p qm

/-- `qmSetHop` keeps the key list. -/
theorem keys_setHop (qm : QuoteMap) (p r h : Nat) (ch : CalculatedHop) :
    (qmSetHop qm p r h ch).map Prod.fst = qm.map Prod.fst :=
  keys_mapAt _ p qm

/-- `qmCreate` appends the key exactly when it is absent. -/
theorem keys_create (qm : QuoteMap) (p n : Nat) :
    (qmCreate qm p n).map Prod.fst =
      qm.map Prod.fst ++ (if (assocFind qm p).isNone then [p] else []) := by
  unfold qmCreate
  cases hfind : assocFind qm p with
  | some b => simp [hfind]
  | none => simp [hfind]

/-- `qmSetEntry` keeps bucket lengths. -/
theorem bucketsLen_setEntry {qm : QuoteMap} {n : Nat} (h : bucketsLen qm n)
    (p r : Nat) (e : InternalRouteQuote) : bucketsLen (qmSetEntry qm p r e) n := by
  intro pb hpb
  rcases List.mem_map.mp hpb with ⟨kv, hkv, heq⟩
  by_cases hk : kv.1 = p
  · rw [if_pos hk] at heq
    rw [← heq]
    show (bucketSetEntry r e kv.2).length = n
    unfold bucketSetEntry
    simpa using h kv hkv
  · rw [if_neg hk] at heq
    rw [← heq]
    exact h kv hkv

/-- `qmSetHop` keeps bucket lengths. -/
theorem bucketsLen_setHop {qm : QuoteMap} {n : Nat} (h : bucketsLen qm n)
    (p r hh : Nat) (ch : CalculatedHop) : bucketsLen (qmSetHop qm p r hh ch) n := by
  intro pb hpb
  rcases List.mem_map.mp hpb with ⟨kv, hkv, heq⟩
  by_cases hk : kv.1 = p
  · rw [if_pos hk] at heq
    rw [← heq]
    show (bucketSetHop r hh ch kv.2).length = n
    unfold bucketSetHop
    split
    · exact h kv hkv
    · simpa using h kv hkv
  · rw [if_neg hk] at heq
    rw [← heq]
    exact h kv hkv

/-- `qmCreate` with the bucket size keeps bucket lengths. -/
theorem bucketsLen_create {qm : QuoteMap} {n : Nat} (h : bucketsLen qm n) (p : Nat) :
    bucketsLen (qmCreate qm p n) n := by
  unfold qmCreate
  cases assocFind qm p with
  | some b => exact h
  | none =>
    intro pb hpb
    rcases List.mem_append.mp hpb with hpb | hpb
    · exact h pb hpb
    · rcases List.mem_singleton.mp hpb with rfl
      simp

/-- The map side of `routeStep`: the entry initialisation, or nothing when
the route is skipped. -/
theorem routeStep_snd (inputTokenMint outputTokenMint : String) (pools : String → Pool)
    (pairRoutes : List (List String)) (hop : Nat) (asi : Bool)
    (percent tradeAmount : Nat) (st : List QuoteUpdate × QuoteMap) (ri : Nat) :
    (routeStep inputTokenMint outputTokenMint pools pairRoutes hop asi percent
        tradeAmount st ri).2 =
      if routeSkipB asi hop (pairRoutes.getD ri []).length then st.2
      else initEntry st.2 asi hop percent ri (pairRoutes.getD ri []) := by
  simp only [routeStep]
  split
  · rfl
  · split
    · rfl
    · split
      · rfl
      · rfl

/-- `routeStep` touches no entry outside its own `(percent, routeIndex)`. -/
theorem routeStep_entry_other (inputTokenMint outputTokenMint : String)
    (pools : String → Pool) (pairRoutes : List (List String)) (hop : Nat) (asi : Bool)
    (percent tradeAmount : Nat) (st : List QuoteUpdate × QuoteMap) (ri : Nat)
    (p' r' : Nat) (hne : ¬(p' = percent ∧ r' = ri)) :
    qmEntry (routeStep inputTokenMint outputTokenMint pools pairRoutes hop asi percent
        tradeAmount st ri).2 p' r' = qmEntry st.2 p' r' := by
  rw [routeStep_snd]
  split
  · rfl
  · unfold initEntry
    split
    · exact qmEntry_setEntry_other st.2 percent ri _ p' r' hne
    · rfl

/-- `routeStep` keeps the key list. -/
theorem routeStep_keys (inputTokenMint outputTokenMint : String)
    (pools : String → Pool) (pairRoutes : List (List String)) (hop : Nat) (asi : Bool)
    (percent tradeAmount : Nat) (st : List QuoteUpdate × QuoteMap) (ri : Nat) :
    (routeStep inputTokenMint outputTokenMint pools pairRoutes hop asi percent
        tradeAmount st ri).2.map Prod.fst = st.2.map Prod.fst := by
  rw [routeStep_snd]
  split
  · rfl
  · unfold initEntry
    split
    · exact keys_setEntry st.2 percent ri _
    · rfl

/-- `routeStep` keeps bucket lengths. -/
theorem routeStep_bucketsLen (inputTokenMint outputTokenMint : String)
    (pools : String → Pool) (pairRoutes : List (List String)) (hop : Nat) (asi : Bool)
    (percent tradeAmount : Nat) (st : List QuoteUpdate × QuoteMap) (ri : Nat)
    {n : Nat} (h : bucketsLen st.2 n) :
    bucketsLen (routeStep inputTokenMint outputTokenMint pools pairRoutes hop asi percent
      tradeAmount st ri).2 n := by
  rw [routeStep_snd]
  split
  · exact h
  · unfold initEntry
    split
    · exact bucketsLen_setEntry h percent ri _
    · exact h

/-- The entry of `routeStep`'s own `(percent, routeIndex)` follows
`stepEntry`. -/
theorem routeStep_entry_self (inputTokenMint outputTokenMint : String)
    (pools : String → Pool) (pairRoutes : List (List String)) (hop : Nat) (asi : Bool)
    (percent tradeAmount : Nat) (st : List QuoteUpdate × QuoteMap) (ri : Nat)
    (bucket : QuoteBucket) (hb : assocFind st.2 percent = some bucket)
    (hblen : ri < bucket.length) :
    qmEntry (routeStep inputTokenMint outputTokenMint pools pairRoutes hop asi percent
        tradeAmount st ri).2 percent ri =
      stepEntry asi hop percent (pairRoutes.getD ri []) (qmEntry st.2 percent ri) := by
  rw [routeStep_snd]
  unfold stepEntry initEntry
  cases hskip : routeSkipB asi hop (pairRoutes.getD ri []).length
  · cases hstart : startingB asi hop (pairRoutes.getD ri []).length
    · simp [hskip, hstart]
    · simp only [hskip, hstart, Bool.false_eq_true, if_false, if_true]
      exact qmEntry_setEntry_same st.2 percent ri _ bucket hb hblen
  · simp [hskip]

/-- `routeStep` on a skipped route does nothing. -/
theorem routeStep_skip (inputTokenMint outputTokenMint : String)
    (pools : String → Pool) (pairRoutes : List (List String)) (hop : Nat) (asi : Bool)
    (percent tradeAmount : Nat) (st : List QuoteUpdate × QuoteMap) (ri : Nat)
    (hskip : routeSkipB asi hop (pairRoutes.getD ri []).length = true) :
    routeStep inputTokenMint outputTokenMint pools pairRoutes hop asi percent
      tradeAmount st ri = st := by
  simp only [routeStep, hskip]
  rfl

/-- `routeStep` at the starting hop of an eligible route emits the slice
request and re-initialises the entry. -/
theorem routeStep_starting (inputTokenMint outputTokenMint : String)
    (pools : String → Pool) (pairRoutes : List (List String)) (hop : Nat) (asi : Bool)
    (percent tradeAmount : Nat) (st : List QuoteUpdate × QuoteMap) (ri : Nat)
    (bucket : QuoteBucket) (hb : assocFind st.2 percent = some bucket)
    (hblen : ri < bucket.length)
    (hskip : routeSkipB asi hop (pairRoutes.getD ri []).length = false)
    (hstart : startingB asi hop (pairRoutes.getD ri []).length = true) :
    routeStep inputTokenMint outputTokenMint pools pairRoutes hop asi percent
        tradeAmount st ri =
      (st.1 ++ [startUpdate inputTokenMint outputTokenMint pools pairRoutes hop asi
          percent tradeAmount st.1.length ri],
       qmSetEntry st.2 percent ri
         { percent := percent, route := pairRoutes.getD ri [],
           calculatedHops := List.replicate (pairRoutes.getD ri []).length none }) := by
  have hentry : qmEntry (qmSetEntry st.2 percent ri
      { percent := percent, route := pairRoutes.getD ri [],
        calculatedHops := List.replicate (pairRoutes.getD ri []).length none })
      percent ri =
      some { percent := percent, route := pairRoutes.getD ri [],
             calculatedHops := List.replicate (pairRoutes.getD ri []).length none } :=
    qmEntry_setEntry_same st.2 percent ri _ bucket hb hblen
  simp only [routeStep, hskip, Bool.false_eq_true, if_false, initEntry, hstart, if_true,
    hentry, nextTrade, startUpdate]

/-- `routeStep` at a non-starting hop whose adjacent hop succeeded emits the
propagated request and leaves the map alone. -/
theorem routeStep_adjacent_success (inputTokenMint outputTokenMint : String)
    (pools : String → Pool) (pairRoutes : List (List String)) (hop : Nat) (asi : Bool)
    (percent tradeAmount : Nat) (st : List QuoteUpdate × QuoteMap) (ri : Nat)
    (e : InternalRouteQuote) (s : SuccessHop)
    (hskip : routeSkipB asi hop (pairRoutes.getD ri []).length = false)
    (hstart : startingB asi hop (pairRoutes.getD ri []).length = false)
    (hentry : qmEntry st.2 percent ri = some e)
    (hsucc : lastHopOf asi hop e.calculatedHops = some (CalculatedHop.success s)) :
    routeStep inputTokenMint outputTokenMint pools pairRoutes hop asi percent
        tradeAmount st ri =
      (st.1 ++ [adjUpdate inputTokenMint pools pairRoutes hop asi percent st.1.length ri s],
       st.2) := by
  have hinit : initEntry st.2 asi hop percent ri (pairRoutes.getD ri []) = st.2 := by
    unfold initEntry
    rw [hstart]
    simp
  simp only [routeStep, hskip, Bool.false_eq_true, if_false, hinit, hentry, nextTrade,
    hstart, hsucc, adjUpdate]

/-- `routeStep` at a non-starting hop with no successful adjacent hop does
nothing. -/
theorem routeStep_no_adjacent (inputTokenMint outputTokenMint : String)
    (pools : String → Pool) (pairRoutes : List (List String)) (hop : Nat) (asi : Bool)
    (percent tradeAmount : Nat) (st : List QuoteUpdate × QuoteMap) (ri : Nat)
    (hskip : routeSkipB asi hop (pairRoutes.getD ri []).length = false)
    (hstart : startingB asi hop (pairRoutes.getD ri []).length = false)
    (hno : qmEntry st.2 percent ri = none ∨
      ∃ e, qmEntry st.2 percent ri = some e ∧
        ∀ s, lastHopOf asi hop e.calculatedHops ≠ some (CalculatedHop.success s)) :
    routeStep inputTokenMint outputTokenMint pools pairRoutes hop asi percent
      tradeAmount st ri = st := by
  have hinit : initEntry st.2 asi hop percent ri (pairRoutes.getD ri []) = st.2 := by
    unfold initEntry
    rw [hstart]
    simp
  rcases hno with hnone | ⟨e, hentry, hfail⟩
  · simp only [routeStep, hskip, Bool.false_eq_true, if_false, hinit, hnone]
  · simp only [routeStep, hskip, Bool.false_eq_true, if_false, hinit, hentry]
    cases hlast : lastHopOf asi hop e.calculatedHops with
    | none => simp only [nextTrade, hstart, Bool.false_eq_true, if_false, hlast]
    | some ch =>
      cases ch with
      | success s => exact absurd hlast (hfail s)
      | failure err => simp only [nextTrade, hstart, Bool.false_eq_true, if_false, hlast]

/-- A key is found exactly when it occurs in the key list. -/
theorem assocFind_isSome_iff_mem {β : Type} :
    ∀ (l : List (Nat × β)) (k : Nat), (assocFind l k).isSome ↔ k ∈ l.map Prod.fst := by
  intro l
  induction l with
  | nil => intro k; simp [assocFind]
  | cons kv rest ih =>
    intro k
    by_cases h : kv.1 = k
    · simp [assocFind, h]
    · simp [assocFind, h, ih, Ne.symm h]

/-- A route index whose skip test fails indexes a non-empty route, hence is
in range. -/
theorem notSkip_lt_length (asi : Bool) (hop : Nat) (pairRoutes : List (List String))
    (ri : Nat) (h : routeSkipB asi hop (pairRoutes.getD ri []).length = false) :
    ri < pairRoutes.length ∧ 0 < (pairRoutes.getD ri []).length := by
  have hpos : 0 < (pairRoutes.getD ri []).length := by
    unfold routeSkipB at h
    cases asi
    · rw [if_neg (by simp : ¬((false : Bool) = true))] at h
      have := of_decide_eq_false h
      omega
    · rw [if_pos rfl] at h
      have := of_decide_eq_false h
      omega
  refine ⟨?_, hpos⟩
  by_contra hge
  have : pairRoutes.getD ri [] = [] := by
    show (pairRoutes.get? ri).getD [] = []
    rw [List.get?_eq_none.mpr (Nat.le_of_not_lt hge)]
    rfl
  rw [this] at hpos
  exact absurd hpos (by simp)

/-- The route loop keeps the key list. -/
theorem foldl_routeStep_keys (inputTokenMint outputTokenMint : String)
    (pools : String → Pool) (pairRoutes : List (List String)) (hop : Nat) (asi : Bool)
    (percent tradeAmount : Nat) :
    ∀ (ris : List Nat) (st : List QuoteUpdate × QuoteMap),
    (ris.foldl (routeStep inputTokenMint outputTokenMint pools pairRoutes hop asi percent
        tradeAmount) st).2.map Prod.fst = st.2.map Prod.fst := by
  intro ris
  induction ris with
  | nil => intro st; rfl
  | cons r rest ih =>
    intro st
    rw [List.foldl_cons, ih]
    exact routeStep_keys inputTokenMint outputTokenMint pools pairRoutes hop asi percent
      tradeAmount st r

/-- The route loop keeps bucket lengths. -/
theorem foldl_routeStep_bucketsLen (inputTokenMint outputTokenMint : String)
    (pools : String → Pool) (pairRoutes : List (List String)) (hop : Nat) (asi : Bool)
    (percent tradeAmount : Nat) {n : Nat} :
    ∀ (ris : List Nat) (st : List QuoteUpdate × QuoteMap), bucketsLen st.2 n →
    bucketsLen (ris.foldl (routeStep inputTokenMint outputTokenMint pools pairRoutes hop
      asi percent tradeAmount) st).2 n := by
  intro ris
  induction ris with
  | nil => intro st h; exact h
  | cons r rest ih =>
    intro st h
    rw [List.foldl_cons]
    exact ih _ (routeStep_bucketsLen inputTokenMint outputTokenMint pools pairRoutes hop
      asi percent tradeAmount st r h)

/-- Entry evolution of the route loop over a duplicate-free index list: its
own percent's entries evolve by `stepEntry` exactly at the visited indices,
and every other bucket is untouched. -/
theorem foldl_routeStep_entries (inputTokenMint outputTokenMint : String)
    (pools : String → Pool) (pairRoutes : List (List String)) (hop : Nat) (asi : Bool)
    (percent tradeAmount : Nat) :
    ∀ (ris : List Nat) (st : List QuoteUpdate × QuoteMap), ris.Nodup →
    bucketsLen st.2 pairRoutes.length →
    (assocFind st.2 percent).isSome →
    (∀ p' r', p' ≠ percent →
      qmEntry (ris.foldl (routeStep inputTokenMint outputTokenMint pools pairRoutes hop
        asi percent tradeAmount) st).2 p' r' = qmEntry st.2 p' r') ∧
    (∀ r ∈ ris, r < pairRoutes.length →
      qmEntry (ris.foldl (routeStep inputTokenMint outputTokenMint pools pairRoutes hop
        asi percent tradeAmount) st).2 percent r =
        stepEntry asi hop percent (pairRoutes.getD r []) (qmEntry st.2 percent r)) ∧
    (∀ r, r ∉ ris →
      qmEntry (ris.foldl (routeStep inputTokenMint outputTokenMint pools pairRoutes hop
        asi percent tradeAmount) st).2 percent r = qmEntry st.2 percent r) := by
  intro ris
  induction ris with
  | nil =>
    intro st _ _ _
    exact ⟨fun _ _ _ => rfl, fun r hr => absurd hr (List.not_mem_nil r),
      fun _ _ => rfl⟩
  | cons r0 rest ih =>
    intro st hnodup hbl hbsome
    obtain ⟨bucket, hb⟩ := Option.isSome_iff_exists.mp hbsome
    have hblen : bucket.length = pairRoutes.length :=
      hbl (percent, bucket) (assocFind_mem st.2 percent bucket hb)
    have hst'bl : bucketsLen (routeStep inputTokenMint outputTokenMint pools pairRoutes
        hop asi percent tradeAmount st r0).2 pairRoutes.length :=
      routeStep_bucketsLen inputTokenMint outputTokenMint pools pairRoutes hop asi percent
        tradeAmount st r0 hbl
    have hst'some : (assocFind (routeStep inputTokenMint outputTokenMint pools pairRoutes
        hop asi percent tradeAmount st r0).2 percent).isSome := by
      rw [assocFind_isSome_iff_mem, routeStep_keys, ← assocFind_isSome_iff_mem]
      exact hbsome
    rcases ih (routeStep inputTokenMint outputTokenMint pools pairRoutes hop asi percent
        tradeAmount st r0) (List.nodup_cons.mp hnodup).2 hst'bl hst'some
      with ⟨ihOther, ihIn, ihOut⟩
    have hr0nm : r0 ∉ rest := (List.nodup_cons.mp hnodup).1
    refine ⟨?_, ?_, ?_⟩
    · intro p' r' hp'
      rw [List.foldl_cons, ihOther p' r' hp']
      exact routeStep_entry_other inputTokenMint outputTokenMint pools pairRoutes hop asi
        percent tradeAmount st r0 p' r' fun hpr => hp' hpr.1
    · intro r hr hrlen
      rcases List.mem_cons.mp hr with hr | hr
      · subst hr
        rw [List.foldl_cons, ihOut r hr0nm]
        exact routeStep_entry_self inputTokenMint outputTokenMint pools pairRoutes hop asi
          percent tradeAmount st r bucket hb (hblen ▸ hrlen)
      · have hne : r ≠ r0 := fun heq => hr0nm (heq ▸ hr)
        rw [List.foldl_cons, ihIn r hr hrlen]
        rw [routeStep_entry_other inputTokenMint outputTokenMint pools pairRoutes hop asi
          percent tradeAmount st r0 percent r fun hpr => hne hpr.2]
    · intro r hr
      have hne : r ≠ r0 := fun heq => hr (heq ▸ List.mem_cons_self r0 rest)
      have hnr : r ∉ rest := fun hmem => hr (List.mem_cons_of_mem r0 hmem)
      rw [List.foldl_cons, ihOut r hnr]
      exact routeStep_entry_other inputTokenMint outputTokenMint pools pairRoutes hop asi
        percent tradeAmount st r0 percent r fun hpr => hne hpr.2

/-- Requests emitted by the route loop over a duplicate-free index list:
every emitted update carries this percent and hop, its request is the slice
request (starting hop) or sourced from the adjacent successful hop of the
entry as it was when the loop began, and an update for index `r` exists
exactly when `emitsAt` holds of that entry. -/
theorem foldl_routeStep_emission (inputTokenMint outputTokenMint : String)
    (pools : String → Pool) (pairRoutes : List (List String)) (hop : Nat) (asi : Bool)
    (percent tradeAmount : Nat) :
    ∀ (ris : List Nat) (st : List QuoteUpdate × QuoteMap), ris.Nodup →
    bucketsLen st.2 pairRoutes.length →
    (assocFind st.2 percent).isSome →
    ∃ tail : List QuoteUpdate,
      (ris.foldl (routeStep inputTokenMint outputTokenMint pools pairRoutes hop asi
          percent tradeAmount) st).1 = st.1 ++ tail ∧
      (∀ u ∈ tail, u.percent = percent ∧ u.hopIndex = hop ∧ u.routeIndex ∈ ris ∧
        u.request.amountSpecifiedIsInput = asi ∧
        routeSkipB asi hop (pairRoutes.getD u.routeIndex []).length = false ∧
        (startingB asi hop (pairRoutes.getD u.routeIndex []).length = true →
          u.request.tokenAmount = tradeAmount ∧
          u.request.tradeTokenMint = (if asi then inputTokenMint else outputTokenMint)) ∧
        (startingB asi hop (pairRoutes.getD u.routeIndex []).length = false →
          ∃ e s, qmEntry st.2 percent u.routeIndex = some e ∧
            lastHopOf asi hop e.calculatedHops = some (CalculatedHop.success s) ∧
            u.request.tokenAmount = (if asi then s.amountOut else s.amountIn) ∧
            u.request.tradeTokenMint = (if asi then s.outputMint else s.inputMint))) ∧
      (∀ r ∈ ris, emitsAt asi hop (pairRoutes.getD r []) (qmEntry st.2 percent r) →
        ∃ u ∈ tail, u.routeIndex = r) ∧
      (∀ r, ¬ emitsAt asi hop (pairRoutes.getD r []) (qmEntry st.2 percent r) →
        ∀ u ∈ tail, u.routeIndex ≠ r) := by
  intro ris
  induction ris with
  | nil =>
    intro st _ _ _
    exact ⟨[], by simp, by simp, fun r hr => absurd hr (List.not_mem_nil r), by simp⟩
  | cons r0 rest ih =>
    intro st hnodup hbl hbsome
    have hr0nm : r0 ∉ rest := (List.nodup_cons.mp hnodup).1
    cases hskip : routeSkipB asi hop (pairRoutes.getD r0 []).length with
    | true =>
      have hstep := routeStep_skip inputTokenMint outputTokenMint pools pairRoutes hop asi
        percent tradeAmount st r0 hskip
      rcases ih st (List.nodup_cons.mp hnodup).2 hbl hbsome with
        ⟨tail, h1, h2, h3, h4⟩
      refine ⟨tail, by rw [List.foldl_cons, hstep, h1], ?_, ?_, ?_⟩
      · intro u hu
        rcases h2 u hu with ⟨g1, g2, g3, g4, g0, g5, g6⟩
        exact ⟨g1, g2, List.mem_cons_of_mem _ g3, g4, g0, g5, g6⟩
      · intro r hr hem
        rcases List.mem_cons.mp hr with hr | hr
        · subst hr
          exact absurd hem.1 (by rw [hskip]; simp)
        · rcases h3 r hr hem with ⟨u, hu, hur⟩
          exact ⟨u, hu, hur⟩
      · intro r hem u hu
        exact h4 r hem u hu
    | false =>
      obtain ⟨bucket, hb⟩ := Option.isSome_iff_exists.mp hbsome
      have hblen : bucket.length = pairRoutes.length :=
        hbl (percent, bucket) (assocFind_mem st.2 percent bucket hb)
      obtain ⟨hr0lt, _⟩ := notSkip_lt_length asi hop pairRoutes r0 hskip
      cases hstart : startingB asi hop (pairRoutes.getD r0 []).length with
      | true =>
        have hstep := routeStep_starting inputTokenMint outputTokenMint pools pairRoutes
          hop asi percent tradeAmount st r0 bucket hb (hblen ▸ hr0lt) hskip hstart
        have hst'bl : bucketsLen (routeStep inputTokenMint outputTokenMint pools
            pairRoutes hop asi percent tradeAmount st r0).2 pairRoutes.length :=
          routeStep_bucketsLen inputTokenMint outputTokenMint pools pairRoutes hop asi
            percent tradeAmount st r0 hbl
        have hst'some : (assocFind (routeStep inputTokenMint outputTokenMint pools
            pairRoutes hop asi percent tradeAmount st r0).2 percent).isSome := by
          rw [assocFind_isSome_iff_mem, routeStep_keys, ← assocFind_isSome_iff_mem]
          exact hbsome
        have hconv : ∀ r, r ≠ r0 →
            qmEntry (routeStep inputTokenMint outputTokenMint pools pairRoutes hop asi
              percent tradeAmount st r0).2 percent r = qmEntry st.2 percent r := by
          intro r hne
          rw [hstep]
          exact qmEntry_setEntry_other st.2 percent r0 _ percent r fun hpr => hne hpr.2
        rcases ih (routeStep inputTokenMint outputTokenMint pools pairRoutes hop asi
            percent tradeAmount st r0) (List.nodup_cons.mp hnodup).2 hst'bl hst'some with
          ⟨tail, h1, h2, h3, h4⟩
        refine ⟨startUpdate inputTokenMint outputTokenMint pools pairRoutes hop asi
            percent tradeAmount st.1.length r0 :: tail, ?_, ?_, ?_, ?_⟩
        · rw [List.foldl_cons, h1, hstep]
          simp
        · intro u hu
          rcases List.mem_cons.mp hu with hu | hu
          · subst hu
            refine ⟨rfl, rfl, List.mem_cons_self _ _, rfl, hskip, fun _ => ⟨rfl, rfl⟩, ?_⟩
            intro hks
            rw [show (startUpdate inputTokenMint outputTokenMint pools pairRoutes hop asi
              percent tradeAmount st.1.length r0).routeIndex = r0 from rfl] at hks
            exact absurd (hstart.symm.trans hks) (by decide)
          · rcases h2 u hu with ⟨g1, g2, g3, g4, g0, g5, g6⟩
            have hune : u.routeIndex ≠ r0 := fun heq => hr0nm (heq ▸ g3)
            refine ⟨g1, g2, List.mem_cons_of_mem _ g3, g4, g0, g5, ?_⟩
            intro hks
            rcases g6 hks with ⟨e, s, ge, gs, ga, gt⟩
            exact ⟨e, s, by rw [← hconv u.routeIndex hune]; exact ge, gs, ga, gt⟩
        · intro r hr hem
          rcases List.mem_cons.mp hr with hr | hr
          · subst hr
            exact ⟨_, List.mem_cons_self _ _, rfl⟩
          · have hne : r ≠ r0 := fun heq => hr0nm (heq ▸ hr)
            have hem' : emitsAt asi hop (pairRoutes.getD r [])
                (qmEntry (routeStep inputTokenMint outputTokenMint pools pairRoutes hop
                  asi percent tradeAmount st r0).2 percent r) := by
              rw [hconv r hne]
              exact hem
            rcases h3 r hr hem' with ⟨u, hu, hur⟩
            exact ⟨u, List.mem_cons_of_mem _ hu, hur⟩
        · intro r hem u hu
          rcases List.mem_cons.mp hu with hu | hu
          · subst hu
            intro heq
            apply hem
            have hrr : r = r0 := by
              rw [← heq]
              rfl
            subst hrr
            exact ⟨hskip, Or.inl hstart⟩
          · by_cases hne : r = r0
            · subst hne
              apply absurd hem
              rw [not_not]
              exact ⟨hskip, Or.inl hstart⟩
            · have hem' : ¬ emitsAt asi hop (pairRoutes.getD r [])
                  (qmEntry (routeStep inputTokenMint outputTokenMint pools pairRoutes hop
                    asi percent tradeAmount st r0).2 percent r) := by
                rw [hconv r hne]
                exact hem
              exact h4 r hem' u hu
      | false =>
        cases hentry : qmEntry st.2 percent r0 with
        | none =>
          have hstep := routeStep_no_adjacent inputTokenMint outputTokenMint pools
            pairRoutes hop asi percent tradeAmount st r0 hskip hstart (Or.inl hentry)
          rcases ih st (List.nodup_cons.mp hnodup).2 hbl hbsome with
            ⟨tail, h1, h2, h3, h4⟩
          refine ⟨tail, by rw [List.foldl_cons, hstep, h1], ?_, ?_, ?_⟩
          · intro u hu
            rcases h2 u hu with ⟨g1, g2, g3, g4, g0, g5, g6⟩
            exact ⟨g1, g2, List.mem_cons_of_mem _ g3, g4, g0, g5, g6⟩
          · intro r hr hem
            rcases List.mem_cons.mp hr with hr | hr
            · subst hr
              rcases hem.2 with hks | ⟨_, e, s, he, _⟩
              · exact absurd (hstart.symm.trans hks) (by decide)
              · rw [hentry] at he
                exact absurd he (by simp)
            · rcases h3 r hr hem with ⟨u, hu, hur⟩
              exact ⟨u, hu, hur⟩
          · intro r hem u hu
            exact h4 r hem u hu
        | some e =>
          cases hlast : lastHopOf asi hop e.calculatedHops with
          | some ch =>
            cases ch with
            | success s =>
              have hstep := routeStep_adjacent_success inputTokenMint outputTokenMint
                pools pairRoutes hop asi percent tradeAmount st r0 e s hskip hstart
                hentry hlast
              rcases ih (routeStep inputTokenMint outputTokenMint pools pairRoutes hop asi
                  percent tradeAmount st r0) (List.nodup_cons.mp hnodup).2
                  (by rw [hstep]; exact hbl) (by rw [hstep]; exact hbsome) with
                ⟨tail, h1, h2, h3, h4⟩
              have hconv : ∀ r,
                  qmEntry (routeStep inputTokenMint outputTokenMint pools pairRoutes hop
                    asi percent tradeAmount st r0).2 percent r =
                  qmEntry st.2 percent r := by
                intro r
                rw [hstep]
              refine ⟨adjUpdate inputTokenMint pools pairRoutes hop asi percent
                  st.1.length r0 s :: tail, ?_, ?_, ?_, ?_⟩
              · rw [List.foldl_cons, h1, hstep]
                simp
              · intro u hu
                rcases List.mem_cons.mp hu with hu | hu
                · subst hu
                  refine ⟨rfl, rfl, List.mem_cons_self _ _, rfl, hskip, ?_, ?_⟩
                  · intro hks
                    rw [show (adjUpdate inputTokenMint pools pairRoutes hop asi percent
                      st.1.length r0 s).routeIndex = r0 from rfl] at hks
                    exact absurd (hstart.symm.trans hks) (by decide)
                  · intro _
                    exact ⟨e, s, hentry, hlast, rfl, rfl⟩
                · rcases h2 u hu with ⟨g1, g2, g3, g4, g0, g5, g6⟩
                  refine ⟨g1, g2, List.mem_cons_of_mem _ g3, g4, g0, g5, ?_⟩
                  intro hks
                  rcases g6 hks with ⟨e2, s2, ge, gs, ga, gt⟩
                  exact ⟨e2, s2, by rw [← hconv u.routeIndex]; exact ge, gs, ga, gt⟩
              · intro r hr hem
                rcases List.mem_cons.mp hr with hr | hr
                · subst hr
                  exact ⟨_, List.mem_cons_self _ _, rfl⟩
                · have hem' : emitsAt asi hop (pairRoutes.getD r [])
                      (qmEntry (routeStep inputTokenMint outputTokenMint pools pairRoutes
                        hop asi percent tradeAmount st r0).2 percent r) := by
                    rw [hconv r]
                    exact hem
                  rcases h3 r hr hem' with ⟨u, hu, hur⟩
                  exact ⟨u, List.mem_cons_of_mem _ hu, hur⟩
              · intro r hem u hu
                rcases List.mem_cons.mp hu with hu | hu
                · subst hu
                  intro heq
                  apply hem
                  have hrr : r = r0 := by
                    rw [← heq]
                    rfl
                  subst hrr
                  exact ⟨hskip, Or.inr ⟨hstart, e, s, hentry, hlast⟩⟩
                · have hem' : ¬ emitsAt asi hop (pairRoutes.getD r [])
                      (qmEntry (routeStep inputTokenMint outputTokenMint pools pairRoutes
                        hop asi percent tradeAmount st r0).2 percent r) := by
                    rw [hconv r]
                    exact hem
                  exact h4 r hem' u hu
            | failure err =>
              have hstep := routeStep_no_adjacent inputTokenMint outputTokenMint pools
                pairRoutes hop asi percent tradeAmount st r0 hskip hstart
                (Or.inr ⟨e, hentry, fun s2 hs2 => by rw [hlast] at hs2; cases hs2⟩)
              rcases ih st (List.nodup_cons.mp hnodup).2 hbl hbsome with
                ⟨tail, h1, h2, h3, h4⟩
              refine ⟨tail, by rw [List.foldl_cons, hstep, h1], ?_, ?_, ?_⟩
              · intro u hu
                rcases h2 u hu with ⟨g1, g2, g3, g4, g0, g5, g6⟩
                exact ⟨g1, g2, List.mem_cons_of_mem _ g3, g4, g0, g5, g6⟩
              · intro r hr hem
                rcases List.mem_cons.mp hr with hr | hr
                · subst hr
                  rcases hem.2 with hks | ⟨_, e2, s2, he2, hs2⟩
                  · exact absurd (hstart.symm.trans hks) (by decide)
                  · rw [hentry] at he2
                    cases he2
                    rw [hlast] at hs2
                    cases hs2
                · rcases h3 r hr hem with ⟨u, hu, hur⟩
                  exact ⟨u, hu, hur⟩
              · intro r hem u hu
                exact h4 r hem u hu
          | none =>
            have hstep := routeStep_no_adjacent inputTokenMint outputTokenMint pools
              pairRoutes hop asi percent tradeAmount st r0 hskip hstart
              (Or.inr ⟨e, hentry, fun s2 hs2 => by rw [hlast] at hs2; cases hs2⟩)
            rcases ih st (List.nodup_cons.mp hnodup).2 hbl hbsome with
              ⟨tail, h1, h2, h3, h4⟩
            refine ⟨tail, by rw [List.foldl_cons, hstep, h1], ?_, ?_, ?_⟩
            · intro u hu
              rcases h2 u hu with ⟨g1, g2, g3, g4, g0, g5, g6⟩
              exact ⟨g1, g2, List.mem_cons_of_mem _ g3, g4, g0, g5, g6⟩
            · intro r hr hem
              rcases List.mem_cons.mp hr with hr | hr
              · subst hr
                rcases hem.2 with hks | ⟨_, e2, s2, he2, hs2⟩
                · exact absurd (hstart.symm.trans hks) (by decide)
                · rw [hentry] at he2
                  cases he2
                  rw [hlast] at hs2
                  cases hs2
              · rcases h3 r hr hem with ⟨u, hu, hur⟩
                exact ⟨u, hu, hur⟩
            · intro r hem u hu
              exact h4 r hem u hu

/-- A failing skip test means the hop is inside the route. -/
theorem notSkip_hop_lt (asi : Bool) (hop len : Nat)
    (h : routeSkipB asi hop len = false) : hop < len := by
  unfold routeSkipB at h
  cases asi
  · rw [if_neg (by simp : ¬((false : Bool) = true))] at h
    have := of_decide_eq_false h
    omega
  · rw [if_pos rfl] at h
    have := of_decide_eq_false h
    omega

/-- After `qmCreate` the bucket exists. -/
theorem create_isSome (qm : QuoteMap) (p n : Nat) :
    (assocFind (qmCreate qm p n) p).isSome := by
  rw [assocFind_isSome_iff_mem, keys_create]
  cases h : (assocFind qm p).isNone
  · have hsome : (assocFind qm p).isSome := by
      cases hf : assocFind qm p
      · rw [hf] at h
        exact absurd h (by simp)
      · simp
    exact List.mem_append_left _ ((assocFind_isSome_iff_mem qm p).mp hsome)
  · exact List.mem_append_right _ (by simp)

/-- Key list of one `percentStep`. -/
theorem percentStep_keys (inputTokenMint outputTokenMint : String) (pools : String → Pool)
    (pairRoutes : List (List String)) (hop : Nat) (asi : Bool)
    (st : List QuoteUpdate × QuoteMap) (pa : Nat × Nat) :
    (percentStep inputTokenMint outputTokenMint pools pairRoutes hop asi st pa).2.map
        Prod.fst =
      st.2.map Prod.fst ++ (if (assocFind st.2 pa.1).isNone then [pa.1] else []) := by
  unfold percentStep
  rw [foldl_routeStep_keys]
  exact keys_create st.2 pa.1 pairRoutes.length

/-- `percentStep` keeps bucket lengths. -/
theorem percentStep_bucketsLen (inputTokenMint outputTokenMint : String)
    (pools : String → Pool) (pairRoutes : List (List String)) (hop : Nat) (asi : Bool)
    (st : List QuoteUpdate × QuoteMap) (pa : Nat × Nat)
    (hbl : bucketsLen st.2 pairRoutes.length) :
    bucketsLen (percentStep inputTokenMint outputTokenMint pools pairRoutes hop asi st
      pa).2 pairRoutes.length := by
  unfold percentStep
  exact foldl_routeStep_bucketsLen inputTokenMint outputTokenMint pools pairRoutes hop asi
    pa.1 pa.2 _ _ (bucketsLen_create hbl pa.1)

/-- `percentStep` does not touch entries of other percents. -/
theorem percentStep_entry_other (inputTokenMint outputTokenMint : String)
    (pools : String → Pool) (pairRoutes : List (List String)) (hop : Nat) (asi : Bool)
    (st : List QuoteUpdate × QuoteMap) (pa : Nat × Nat)
    (hbl : bucketsLen st.2 pairRoutes.length) (p r : Nat) (hp : p ≠ pa.1) :
    qmEntry (percentStep inputTokenMint outputTokenMint pools pairRoutes hop asi st
      pa).2 p r = qmEntry st.2 p r := by
  unfold percentStep
  rcases foldl_routeStep_entries inputTokenMint outputTokenMint pools pairRoutes hop asi
      pa.1 pa.2 (List.range pairRoutes.length)
      (st.1, qmCreate st.2 pa.1 pairRoutes.length) (List.nodup_range _)
      (bucketsLen_create hbl pa.1) (create_isSome st.2 pa.1 pairRoutes.length) with
    ⟨hOther, _, _⟩
  rw [hOther p r hp]
  exact qmEntry_create st.2 pa.1 pairRoutes.length p r

/-- `percentStep` maps its own percent's entries through `stepEntry`. -/
theorem percentStep_entry_own (inputTokenMint outputTokenMint : String)
    (pools : String → Pool) (pairRoutes : List (List String)) (hop : Nat) (asi : Bool)
    (st : List QuoteUpdate × QuoteMap) (pa : Nat × Nat)
    (hbl : bucketsLen st.2 pairRoutes.length) (r : Nat) (hr : r < pairRoutes.length) :
    qmEntry (percentStep inputTokenMint outputTokenMint pools pairRoutes hop asi st
        pa).2 pa.1 r =
      stepEntry asi hop pa.1 (pairRoutes.getD r []) (qmEntry st.2 pa.1 r) := by
  unfold percentStep
  rcases foldl_routeStep_entries inputTokenMint outputTokenMint pools pairRoutes hop asi
      pa.1 pa.2 (List.range pairRoutes.length)
      (st.1, qmCreate st.2 pa.1 pairRoutes.length) (List.nodup_range _)
      (bucketsLen_create hbl pa.1) (create_isSome st.2 pa.1 pairRoutes.length) with
    ⟨_, hIn, _⟩
  rw [hIn r (List.mem_range.mpr hr) hr]
  rw [show qmEntry (st.1, qmCreate st.2 pa.1 pairRoutes.length).2 pa.1 r =
    qmEntry st.2 pa.1 r from qmEntry_create st.2 pa.1 pairRoutes.length pa.1 r]

/-- Entry evolution of the full amount loop over distinct percents. -/
theorem foldl_percentStep_entries (inputTokenMint outputTokenMint : String)
    (pools : String → Pool) (pairRoutes : List (List String)) (hop : Nat) (asi : Bool) :
    ∀ (pas : List (Nat × Nat)) (st : List QuoteUpdate × QuoteMap),
    (pas.map Prod.fst).Nodup → bucketsLen st.2 pairRoutes.length →
    (∀ p r, p ∉ pas.map Prod.fst →
      qmEntry (pas.foldl (percentStep inputTokenMint outputTokenMint pools pairRoutes hop
        asi) st).2 p r = qmEntry st.2 p r) ∧
    (∀ pa ∈ pas, ∀ r, r < pairRoutes.length →
      qmEntry (pas.foldl (percentStep inputTokenMint outputTokenMint pools pairRoutes hop
        asi) st).2 pa.1 r =
        stepEntry asi hop pa.1 (pairRoutes.getD r []) (qmEntry st.2 pa.1 r)) := by
  intro pas
  induction pas with
  | nil =>
    intro st _ _
    exact ⟨fun _ _ _ => rfl, fun pa hpa => absurd hpa (List.not_mem_nil pa)⟩
  | cons pa0 rest ih =>
    intro st hnodup hbl
    have hnd : (rest.map Prod.fst).Nodup := (List.nodup_cons.mp (by simpa using hnodup)).2
    have hnm : pa0.1 ∉ rest.map Prod.fst :=
      (List.nodup_cons.mp (by simpa using hnodup)).1
    have hbl' : bucketsLen (percentStep inputTokenMint outputTokenMint pools pairRoutes
        hop asi st pa0).2 pairRoutes.length :=
      percentStep_bucketsLen inputTokenMint outputTokenMint pools pairRoutes hop asi st
        pa0 hbl
    rcases ih (percentStep inputTokenMint outputTokenMint pools pairRoutes hop asi st pa0)
        hnd hbl' with ⟨ihOther, ihOwn⟩
    constructor
    · intro p r hp
      have hp0 : p ≠ pa0.1 := fun heq => hp (by rw [heq]; simp)
      have hpr : p ∉ rest.map Prod.fst := fun hmem => hp (by simp [hmem])
      rw [List.foldl_cons, ihOther p r hpr]
      exact percentStep_entry_other inputTokenMint outputTokenMint pools pairRoutes hop
        asi st pa0 hbl p r hp0
    · intro pa hpa r hr
      rcases List.mem_cons.mp hpa with hpa | hpa
      · subst hpa
        rw [List.foldl_cons, ihOther pa.1 r hnm]
        exact percentStep_entry_own inputTokenMint outputTokenMint pools pairRoutes hop
          asi st pa hbl r hr
      · have hne : pa.1 ≠ pa0.1 := fun heq =>
          hnm (heq ▸ List.mem_map_of_mem Prod.fst hpa)
        rw [List.foldl_cons, ihOwn pa hpa r hr]
        rw [percentStep_entry_other inputTokenMint outputTokenMint pools pairRoutes hop
          asi st pa0 hbl pa.1 r hne]

/-- The amount loop keeps bucket lengths. -/
theorem foldl_percentStep_bucketsLen (inputTokenMint outputTokenMint : String)
    (pools : String → Pool) (pairRoutes : List (List String)) (hop : Nat) (asi : Bool) :
    ∀ (pas : List (Nat × Nat)) (st : List QuoteUpdate × QuoteMap),
    bucketsLen st.2 pairRoutes.length →
    bucketsLen (pas.foldl (percentStep inputTokenMint outputTokenMint pools pairRoutes
      hop asi) st).2 pairRoutes.length := by
  intro pas
  induction pas with
  | nil => intro st h; exact h
  | cons pa0 rest ih =>
    intro st h
    rw [List.foldl_cons]
    exact ih _ (percentStep_bucketsLen inputTokenMint outputTokenMint pools pairRoutes
      hop asi st pa0 h)

/-- The amount loop appends exactly the missing percents to the key list. -/
theorem foldl_percentStep_keys (inputTokenMint outputTokenMint : String)
    (pools : String → Pool) (pairRoutes : List (List String)) (hop : Nat) (asi : Bool) :
    ∀ (pas : List (Nat × Nat)) (st : List QuoteUpdate × QuoteMap),
    (pas.map Prod.fst).Nodup →
    (pas.foldl (percentStep inputTokenMint outputTokenMint pools pairRoutes hop asi)
        st).2.map Prod.fst =
      st.2.map Prod.fst ++
        (pas.map Prod.fst).filter fun p => (assocFind st.2 p).isNone := by
  intro pas
  induction pas with
  | nil => intro st _; simp
  | cons pa0 rest ih =>
    intro st hnodup
    have hnd : (rest.map Prod.fst).Nodup := (List.nodup_cons.mp (by simpa using hnodup)).2
    have hnm : pa0.1 ∉ rest.map Prod.fst :=
      (List.nodup_cons.mp (by simpa using hnodup)).1
    have hkeys := percentStep_keys inputTokenMint outputTokenMint pools pairRoutes hop asi
      st pa0
    have hiff : ∀ p, p ∈ rest.map Prod.fst →
        ((assocFind (percentStep inputTokenMint outputTokenMint pools pairRoutes hop asi
          st pa0).2 p).isNone = (assocFind st.2 p).isNone) := by
      intro p hpmem
      have hne : p ≠ pa0.1 := fun heq => hnm (heq ▸ hpmem)
      cases hb : (assocFind st.2 p).isNone
      · have hsome : (assocFind st.2 p).isSome := by
          cases hf : assocFind st.2 p
          · rw [hf] at hb
            exact absurd hb (by simp)
          · simp
        have : p ∈ (percentStep inputTokenMint outputTokenMint pools pairRoutes hop asi
            st pa0).2.map Prod.fst := by
          rw [hkeys]
          exact List.mem_append_left _ ((assocFind_isSome_iff_mem st.2 p).mp hsome)
        rw [← assocFind_isSome_iff_mem] at this
        cases hf2 : assocFind (percentStep inputTokenMint outputTokenMint pools pairRoutes
            hop asi st pa0).2 p
        · rw [hf2] at this
          exact absurd this (by simp)
        · simp
      · have hnot : p ∉ st.2.map Prod.fst := by
          rw [← assocFind_isSome_iff_mem]
          intro hmem
          rw [Option.isSome_iff_exists] at hmem
          obtain ⟨b, hbb⟩ := hmem
          rw [hbb] at hb
          simp at hb
        have : p ∉ (percentStep inputTokenMint outputTokenMint pools pairRoutes hop asi
            st pa0).2.map Prod.fst := by
          rw [hkeys]
          intro hmem
          rcases List.mem_append.mp hmem with hmem | hmem
          · exact hnot hmem
          · cases hcond : (assocFind st.2 pa0.1).isNone
            · rw [hcond] at hmem
              simp at hmem
            · rw [hcond] at hmem
              simp at hmem
              exact hne hmem
        rw [← assocFind_isSome_iff_mem] at this
        cases hf2 : assocFind (percentStep inputTokenMint outputTokenMint pools pairRoutes
            hop asi st pa0).2 p
        · simp
        · rw [hf2] at this
          simp at this
    rw [List.foldl_cons, ih _ hnd]
    have hfc : (rest.map Prod.fst).filter
        (fun p => (assocFind (percentStep inputTokenMint outputTokenMint pools pairRoutes
          hop asi st pa0).2 p).isNone) =
        (rest.map Prod.fst).filter (fun p => (assocFind st.2 p).isNone) :=
      List.filter_congr fun p hp => hiff p hp
    rw [hfc, hkeys, List.append_assoc, List.map_cons]
    congr 1
    rw [List.filter_cons]
    cases hcond : (assocFind st.2 pa0.1).isNone
    · rfl
    · rfl

/-- Requests emitted by one `percentStep`: all carry its percent and hop;
the starting hop's request carries the slice amount, the other hops source
from the adjacent successful hop; an update exists for a route exactly when
`emitsAt` holds of the entry. -/
theorem percentStep_updates (inputTokenMint outputTokenMint : String)
    (pools : String → Pool) (pairRoutes : List (List String)) (hop : Nat) (asi : Bool)
    (st : List QuoteUpdate × QuoteMap) (pa : Nat × Nat)
    (hbl : bucketsLen st.2 pairRoutes.length) :
    ∃ seg : List QuoteUpdate,
      (percentStep inputTokenMint outputTokenMint pools pairRoutes hop asi st pa).1 =
        st.1 ++ seg ∧
      (∀ u ∈ seg, u.percent = pa.1 ∧ u.hopIndex = hop ∧ u.routeIndex < pairRoutes.length ∧
        u.request.amountSpecifiedIsInput = asi ∧
        routeSkipB asi hop (pairRoutes.getD u.routeIndex []).length = false ∧
        (startingB asi hop (pairRoutes.getD u.routeIndex []).length = true →
          u.request.tokenAmount = pa.2 ∧
          u.request.tradeTokenMint = (if asi then inputTokenMint else outputTokenMint)) ∧
        (startingB asi hop (pairRoutes.getD u.routeIndex []).length = false →
          ∃ e s, qmEntry st.2 pa.1 u.routeIndex = some e ∧
            lastHopOf asi hop e.calculatedHops = some (CalculatedHop.success s) ∧
            u.request.tokenAmount = (if asi then s.amountOut else s.amountIn) ∧
            u.request.tradeTokenMint = (if asi then s.outputMint else s.inputMint))) ∧
      (∀ r, r < pairRoutes.length →
        emitsAt asi hop (pairRoutes.getD r []) (qmEntry st.2 pa.1 r) →
        ∃ u ∈ seg, u.routeIndex = r) ∧
      (∀ r, ¬ emitsAt asi hop (pairRoutes.getD r []) (qmEntry st.2 pa.1 r) →
        ∀ u ∈ seg, u.routeIndex ≠ r) := by
  rcases foldl_routeStep_emission inputTokenMint outputTokenMint pools pairRoutes hop asi
      pa.1 pa.2 (List.range pairRoutes.length)
      (st.1, qmCreate st.2 pa.1 pairRoutes.length) (List.nodup_range _)
      (bucketsLen_create hbl pa.1) (create_isSome st.2 pa.1 pairRoutes.length) with
    ⟨tail, h1, h2, h3, h4⟩
  refine ⟨tail, h1, ?_, ?_, ?_⟩
  · intro u hu
    rcases h2 u hu with ⟨g1, g2, g3, g4, g0, g5, g6⟩
    refine ⟨g1, g2, List.mem_range.mp g3, g4, g0, g5, ?_⟩
    intro hns
    rcases g6 hns with ⟨e, s, he, hl, ha, hm⟩
    refine ⟨e, s, ?_, hl, ha, hm⟩
    rw [← qmEntry_create st.2 pa.1 pairRoutes.length pa.1 u.routeIndex]
    exact he
  · intro r hr hem
    refine h3 r (List.mem_range.mpr hr) ?_
    show emitsAt asi hop (pairRoutes.getD r [])
      (qmEntry (qmCreate st.2 pa.1 pairRoutes.length) pa.1 r)
    rw [qmEntry_create]
    exact hem
  · intro r hem
    refine h4 r ?_
    show ¬ emitsAt asi hop (pairRoutes.getD r [])
      (qmEntry (qmCreate st.2 pa.1 pairRoutes.length) pa.1 r)
    rw [qmEntry_create]
    exact hem

/-- Requests emitted by the whole amount loop over distinct percents:
per-update characterisation against the initial map, and per-`(percent,
route)` positive and negative emission. -/
theorem foldl_percentStep_updates (inputTokenMint outputTokenMint : String)
    (pools : String → Pool) (pairRoutes : List (List String)) (hop : Nat) (asi : Bool) :
    ∀ (pas : List (Nat × Nat)) (st : List QuoteUpdate × QuoteMap),
    (pas.map Prod.fst).Nodup → bucketsLen st.2 pairRoutes.length →
    ∃ tail : List QuoteUpdate,
      (pas.foldl (percentStep inputTokenMint outputTokenMint pools pairRoutes hop asi)
          st).1 = st.1 ++ tail ∧
      (∀ u ∈ tail, u.hopIndex = hop ∧ u.routeIndex < pairRoutes.length ∧
        u.request.amountSpecifiedIsInput = asi ∧
        routeSkipB asi hop (pairRoutes.getD u.routeIndex []).length = false ∧
        (∃ pa ∈ pas, pa.1 = u.percent ∧
          (startingB asi hop (pairRoutes.getD u.routeIndex []).length = true →
            u.request.tokenAmount = pa.2 ∧
            u.request.tradeTokenMint = (if asi then inputTokenMint else outputTokenMint))) ∧
        (startingB asi hop (pairRoutes.getD u.routeIndex []).length = false →
          ∃ e s, qmEntry st.2 u.percent u.routeIndex = some e ∧
            lastHopOf asi hop e.calculatedHops = some (CalculatedHop.success s) ∧
            u.request.tokenAmount = (if asi then s.amountOut else s.amountIn) ∧
            u.request.tradeTokenMint = (if asi then s.outputMint else s.inputMint))) ∧
      (∀ pa ∈ pas, ∀ r, r < pairRoutes.length →
        emitsAt asi hop (pairRoutes.getD r []) (qmEntry st.2 pa.1 r) →
        ∃ u ∈ tail, u.percent = pa.1 ∧ u.routeIndex = r) ∧
      (∀ p r, ¬ emitsAt asi hop (pairRoutes.getD r []) (qmEntry st.2 p r) →
        ∀ u ∈ tail, ¬(u.percent = p ∧ u.routeIndex = r)) := by
  intro pas
  induction pas with
  | nil =>
    intro st _ _
    exact ⟨[], by simp, by simp, by simp, by simp⟩
  | cons pa0 rest ih =>
    intro st hnodup hbl
    have hnd : (rest.map Prod.fst).Nodup := (List.nodup_cons.mp (by simpa using hnodup)).2
    have hnm : pa0.1 ∉ rest.map Prod.fst :=
      (List.nodup_cons.mp (by simpa using hnodup)).1
    rcases percentStep_updates inputTokenMint outputTokenMint pools pairRoutes hop asi st
        pa0 hbl with ⟨seg, hs1, hs2, hs3, hs4⟩
    have hbl' := percentStep_bucketsLen inputTokenMint outputTokenMint pools pairRoutes
      hop asi st pa0 hbl
    rcases ih (percentStep inputTokenMint outputTokenMint pools pairRoutes hop asi st pa0)
        hnd hbl' with ⟨tail2, g1, g2, g3, g4⟩
    have hEO : ∀ p r, p ≠ pa0.1 →
        qmEntry (percentStep inputTokenMint outputTokenMint pools pairRoutes hop asi st
          pa0).2 p r = qmEntry st.2 p r :=
      fun p r hp => percentStep_entry_other inputTokenMint outputTokenMint pools pairRoutes
        hop asi st pa0 hbl p r hp
    refine ⟨seg ++ tail2, ?_, ?_, ?_, ?_⟩
    · rw [List.foldl_cons, g1, hs1, List.append_assoc]
    · intro u hu
      rcases List.mem_append.mp hu with hu | hu
      · rcases hs2 u hu with ⟨q1, q2, q3, q4, q5, q6, q7⟩
        refine ⟨q2, q3, q4, q5, ⟨pa0, List.mem_cons_self _ _, q1.symm, q6⟩, ?_⟩
        intro hns
        rw [q1]
        exact q7 hns
      · rcases g2 u hu with ⟨q2, q3, q4, q5, ⟨pa, hpa, hpv, q6⟩, q7⟩
        refine ⟨q2, q3, q4, q5, ⟨pa, List.mem_cons_of_mem _ hpa, hpv, q6⟩, ?_⟩
        intro hns
        rcases q7 hns with ⟨e, s, he, hl, ha, hm⟩
        have hmemf : u.percent ∈ rest.map Prod.fst :=
          hpv ▸ List.mem_map_of_mem Prod.fst hpa
        have hup : u.percent ≠ pa0.1 := fun heq => hnm (heq ▸ hmemf)
        refine ⟨e, s, ?_, hl, ha, hm⟩
        rw [← hEO u.percent u.routeIndex hup]
        exact he
    · intro pa hpa r hr hem
      rcases List.mem_cons.mp hpa with hpa | hpa
      · subst hpa
        rcases hs3 r hr hem with ⟨u, hu, hur⟩
        exact ⟨u, List.mem_append_left _ hu, (hs2 u hu).1, hur⟩
      · have hpne : pa.1 ≠ pa0.1 := fun heq =>
          hnm (heq ▸ List.mem_map_of_mem Prod.fst hpa)
        have hem' : emitsAt asi hop (pairRoutes.getD r [])
            (qmEntry (percentStep inputTokenMint outputTokenMint pools pairRoutes hop asi
              st pa0).2 pa.1 r) := by
          rw [hEO pa.1 r hpne]
          exact hem
        rcases g3 pa hpa r hr hem' with ⟨u, hu, hupc, hur⟩
        exact ⟨u, List.mem_append_right _ hu, hupc, hur⟩
    · intro p r hem u hu hpr
      rcases List.mem_append.mp hu with hu | hu
      · have hq1 := (hs2 u hu).1
        have hp0 : p = pa0.1 := by
          rw [← hpr.1]
          exact hq1
        refine hs4 r ?_ u hu hpr.2
        rw [← hp0]
        exact hem
      · rcases g2 u hu with ⟨_, _, _, _, ⟨pa, hpa, hpv, _⟩, _⟩
        have hmemf : u.percent ∈ rest.map Prod.fst :=
          hpv ▸ List.mem_map_of_mem Prod.fst hpa
        have hup : u.percent ≠ pa0.1 := fun heq => hnm (heq ▸ hmemf)
        have hpne : p ≠ pa0.1 := by
          rw [← hpr.1]
          exact hup
        have hem' : ¬ emitsAt asi hop (pairRoutes.getD r [])
            (qmEntry (percentStep inputTokenMint outputTokenMint pools pairRoutes hop asi
              st pa0).2 p r) := by
          rw [hEO p r hpne]
          exact hem
        exact g4 p r hem' u hu hpr

/-- The skip test fails exactly when the hop lies within the route, in both
directions. -/
theorem routeSkipB_eq_false_iff (asi : Bool) (hop len : Nat) :
    routeSkipB asi hop len = false ↔ hop < len := by
  unfold routeSkipB
  cases asi
  · rw [if_neg (by simp : ¬((false : Bool) = true))]
    rw [decide_eq_false_iff_not]
    omega
  · rw [if_pos rfl]
    rw [decide_eq_false_iff_not]
    omega

/-- Forward mode starts at hop `0`. -/
theorem startingB_fwd_iff (hop len : Nat) : startingB true hop len = true ↔ hop = 0 := by
  unfold startingB
  rw [if_pos rfl]
  exact beq_iff_eq

/-- Backward mode starts at the last hop. -/
theorem startingB_bwd_iff (hop len : Nat) :
    startingB false hop len = true ↔ hop = len - 1 := by
  unfold startingB
  rw [if_neg (by simp : ¬((false : Bool) = true))]
  exact beq_iff_eq

/-- `getD` inside the left part of an append. -/
theorem getD_append_lt {α : Type} (l1 l2 : List α) (d : α) (i : Nat)
    (h : i < l1.length) : (l1 ++ l2).getD i d = l1.getD i d := by
  show ((l1 ++ l2).get? i).getD d = (l1.get? i).getD d
  rw [List.get?_append h]

/-- `getD` inside the right part of an append. -/
theorem getD_append_ge {α : Type} (l1 l2 : List α) (d : α) (i : Nat)
    (h : l1.length ≤ i) : (l1 ++ l2).getD i d = l2.getD (i - l1.length) d := by
  show ((l1 ++ l2).get? i).getD d = (l2.get? (i - l1.length)).getD d
  rw [List.get?_append_right h]

/-- Reading inside the success prefix of a chain yields a success. -/
theorem exists_getD_map_success (ss : List SuccessHop) (i : Nat) (h : i < ss.length) :
    ∃ s, (ss.map fun s => some (CalculatedHop.success s)).getD i none =
      some (CalculatedHop.success s) := by
  refine ⟨ss.get ⟨i, h⟩, ?_⟩
  show ((ss.map fun s => some (CalculatedHop.success s)).get? i).getD none = _
  rw [List.get?_map, List.get?_eq_get h]
  rfl

/-- Reading a forward failed chain at or past the failure never yields a
success. -/
theorem getD_shape2F_no_success (ss : List SuccessHop) (err : Option SwapErrorCode)
    (k i : Nat) (h : ss.length ≤ i) :
    ∀ s, (ss.map (fun s => some (CalculatedHop.success s)) ++
        some (CalculatedHop.failure err) :: List.replicate k none).getD i none ≠
      some (CalculatedHop.success s) := by
  intro s
  rw [getD_append_ge _ _ _ _ (by simpa using h), List.length_map]
  rcases Nat.eq_zero_or_pos (i - ss.length) with h0 | h0
  · rw [h0, List.getD_cons_zero]
    simp
  · obtain ⟨j, hj⟩ := Nat.exists_eq_succ_of_ne_zero (Nat.pos_iff_ne_zero.mp h0)
    rw [hj, List.getD_cons_succ, getD_replicate_none]
    simp

/-- Reading a backward failed chain at or before the failure never yields a
success. -/
theorem getD_shape2B_no_success (ss : List SuccessHop) (err : Option SwapErrorCode)
    (m i : Nat) (h : i ≤ m) :
    ∀ s, (List.replicate m (none : Option CalculatedHop) ++
        some (CalculatedHop.failure err) ::
          ss.map (fun s => some (CalculatedHop.success s))).getD i none ≠
      some (CalculatedHop.success s) := by
  intro s
  rcases Nat.lt_or_ge i m with hlt | hge
  · rw [getD_append_lt _ _ _ _ (by simpa using hlt), getD_replicate_none]
    simp
  · have him : i = m := Nat.le_antisymm h hge
    subst him
    rw [getD_append_ge _ _ _ _ (le_of_eq (by simp))]
    simp

/-- A complete forward shape is stable as the bound grows. -/
theorem shapeF_succ_of_complete (bound len : Nat) (hops : List (Option CalculatedHop))
    (hlen : len ≤ bound) (h : shapeF bound len hops) : shapeF (bound + 1) len hops := by
  rcases h with ⟨ss, h1, h2⟩ | ⟨ss, err, h1, h2, h3⟩
  · left
    refine ⟨ss, ?_, h2⟩
    rw [h1, Nat.min_eq_right hlen, Nat.min_eq_right (le_trans hlen (Nat.le_succ bound))]
  · right
    exact ⟨ss, err, Nat.lt_succ_of_lt h1, h2, h3⟩

/-- Pairwise lexicographic updates have pairwise distinct targets. -/
theorem lexPR_distinct {l : List QuoteUpdate} (h : l.Pairwise lexPR) :
    l.Pairwise (fun a b => ¬(a.percent = b.percent ∧ a.routeIndex = b.routeIndex)) := by
  refine h.imp ?_
  intro a b hab hpr
  rcases hab with h1 | ⟨h1, h2⟩
  · exact absurd hpr.1 (Nat.ne_of_lt h1)
  · exact absurd hpr.2 (Nat.ne_of_lt h2)

/-- On a map with distinct keys, `assocFind` returns the member bucket. -/
theorem assocFind_of_mem_nodup {β : Type} :
    ∀ (l : List (Nat × β)), (l.map Prod.fst).Nodup → ∀ p b, (p, b) ∈ l →
    assocFind l p = some b
  | [], _, p, b, h => absurd h (List.not_mem_nil _)
  | kv :: rest, hnd, p, b, h => by
    rcases List.mem_cons.mp h with heq | hmem
    · rw [← heq]
      simp [assocFind]
    · have hpf : p ∈ rest.map Prod.fst := List.mem_map_of_mem Prod.fst hmem
      have hh : kv.1 ∉ rest.map Prod.fst := (List.nodup_cons.mp (by simpa using hnd)).1
      have hne : ¬(kv.1 = p) := fun heq2 => hh (heq2 ▸ hpf)
      show (if kv.1 = p then some kv.2 else assocFind rest p) = some b
      rw [if_neg hne]
      exact assocFind_of_mem_nodup rest (List.nodup_cons.mp (by simpa using hnd)).2 p b hmem

/-- `foldl max` dominates the seed and every element. -/
theorem foldl_max_le :
    ∀ (l : List Nat) (b : Nat), b ≤ l.foldl max b ∧ ∀ a ∈ l, a ≤ l.foldl max b
  | [], b => ⟨Nat.le_refl b, fun a h => absurd h (List.not_mem_nil a)⟩
  | x :: t, b => by
    rcases foldl_max_le t (max b x) with ⟨h1, h2⟩
    refine ⟨le_trans (Nat.le_max_left b x) h1, ?_⟩
    intro a ha
    rcases List.mem_cons.mp ha with ha | ha
    · subst ha
      exact le_trans (Nat.le_max_right b a) h1
    · exact h2 a ha

/-- The slicer's percents are strictly increasing (trivially so when the
increment is `0`, where the loop bound `100 / 0` is `0`). -/
theorem percents_sorted (T inc : Nat) :
    ((generatePercentageAmounts T inc).1).Pairwise (· < ·) := by
  cases inc with
  | zero => simp [generatePercentageAmounts]
  | succ k =>
    refine List.pairwise_map.mpr ?_
    refine (List.pairwise_lt_range _).imp ?_
    intro a b hab
    exact (Nat.mul_lt_mul_right (Nat.succ_pos k)).mpr (Nat.succ_lt_succ hab)

/-- The executor never changes the key list. -/
theorem updateQuoteMap_keys (engine : SwapQuoteParam → Except SwapErrorCode Nat)
    (quoteParams : List SwapQuoteParam) :
    ∀ (updates : List QuoteUpdate) (qm : QuoteMap),
    (updateQuoteMap engine updates quoteParams qm).map Prod.fst = qm.map Prod.fst
  | [], _ => rfl
  | u :: rest, qm => by
    show (updateQuoteMap engine rest quoteParams
      (applyQuoteResult engine quoteParams qm u)).map Prod.fst = _
    rw [updateQuoteMap_keys engine quoteParams rest _]
    exact keys_setHop qm u.percent u.routeIndex u.hopIndex _

/-- The executor never changes bucket lengths. -/
theorem updateQuoteMap_bucketsLen (engine : SwapQuoteParam → Except SwapErrorCode Nat)
    (quoteParams : List SwapQuoteParam) {n : Nat} :
    ∀ (updates : List QuoteUpdate) (qm : QuoteMap), bucketsLen qm n →
    bucketsLen (updateQuoteMap engine updates quoteParams qm) n
  | [], _, h => h
  | u :: rest, qm, h => by
    show bucketsLen (updateQuoteMap engine rest quoteParams
      (applyQuoteResult engine quoteParams qm u)) n
    exact updateQuoteMap_bucketsLen engine quoteParams rest _
      (bucketsLen_setHop h u.percent u.routeIndex u.hopIndex _)

/-- Inversion of one successful hop iteration. -/
theorem runHopsStep_ok (inputTokenMint outputTokenMint : String) (pools : String → Pool)
    (pairRoutes : List (List String)) (percents amounts : List Nat) (asi : Bool)
    (batchBuild : List QuoteRequest → Except String (List SwapQuoteParam))
    (engine : SwapQuoteParam → Except SwapErrorCode Nat) (qm : QuoteMap) (hop : Nat)
    (qm' : QuoteMap)
    (h : runHopsStep inputTokenMint outputTokenMint pools pairRoutes percents amounts asi
      batchBuild engine qm hop = Except.ok qm') :
    ∃ quoteParams,
      batchBuild ((buildQuoteUpdateRequests inputTokenMint outputTokenMint pools
        pairRoutes percents amounts hop asi qm).1.map QuoteUpdate.request) =
          Except.ok quoteParams ∧
      qm' = updateQuoteMap engine
        (buildQuoteUpdateRequests inputTokenMint outputTokenMint pools pairRoutes percents
          amounts hop asi qm).1 quoteParams
        (buildQuoteUpdateRequests inputTokenMint outputTokenMint pools pairRoutes percents
          amounts hop asi qm).2 := by
  simp only [runHopsStep] at h
  cases hb : batchBuild ((buildQuoteUpdateRequests inputTokenMint outputTokenMint pools
      pairRoutes percents amounts hop asi qm).1.map QuoteUpdate.request) with
  | error e =>
    rw [hb] at h
    simp at h
  | ok quoteParams =>
    rw [hb] at h
    simp at h
    exact ⟨quoteParams, rfl, h.symm⟩

/-- Inversion of a successful effectful fold step. -/
theorem foldlM_except_cons_ok {β α : Type} (f : β → α → Except String β) (b : β)
    (a : α) (l : List α) (res : β)
    (h : List.foldlM f b (a :: l) = Except.ok res) :
    ∃ b', f b a = Except.ok b' ∧ List.foldlM f b' l = Except.ok res := by
  rw [List.foldlM_cons] at h
  cases hf : f b a with
  | error e =>
    rw [hf] at h
    simp [Bind.bind, Except.bind] at h
  | ok b' =>
    rw [hf] at h
    exact ⟨b', rfl, by simpa [Bind.bind, Except.bind] using h⟩

/-- `qmEntry` of the empty map. -/
theorem qmEntry_nil (p r : Nat) : qmEntry [] p r = none := rfl

/-- One forward hop iteration preserves the forward loop invariant. -/
theorem stepF (inputTokenMint outputTokenMint : String) (pools : String → Pool)
    (pairRoutes : List (List String)) (percents amounts : List Nat)
    (batchBuild : List QuoteRequest → Except String (List SwapQuoteParam))
    (engine : SwapQuoteParam → Except SwapErrorCode Nat)
    (hsort : percents.Pairwise (· < ·))
    (hroutes : ∀ route ∈ pairRoutes, route ≠ [])
    (b : Nat) (qm : QuoteMap)
    (hinv : qmInvF pairRoutes ((percents.zip amounts).map Prod.fst) b qm)
    (qm' : QuoteMap)
    (hstep : runHopsStep inputTokenMint outputTokenMint pools pairRoutes percents amounts
      true batchBuild engine qm b = Except.ok qm') :
    qmInvF pairRoutes ((percents.zip amounts).map Prod.fst) (b + 1) qm' := by
  obtain ⟨quoteParams, hbb, hqm'⟩ := runHopsStep_ok inputTokenMint outputTokenMint pools
    pairRoutes percents amounts true batchBuild engine qm b qm' hstep
  have hzsort : ((percents.zip amounts).map Prod.fst).Pairwise (· < ·) :=
    hsort.sublist (map_fst_zip_sublist percents amounts)
  have hpfnd : ((percents.zip amounts).map Prod.fst).Nodup :=
    hzsort.imp fun h => Nat.ne_of_lt h
  have hbl : bucketsLen qm pairRoutes.length := by
    rcases Nat.eq_zero_or_pos b with hb0 | hbpos
    · rw [hinv.1 hb0]
      intro pb hpb
      exact absurd hpb (List.not_mem_nil pb)
    · exact (hinv.2 hbpos).2.1
  have hkeysB : (buildQuoteUpdateRequests inputTokenMint outputTokenMint pools pairRoutes
      percents amounts b true qm).2.map Prod.fst =
      qm.map Prod.fst ++ ((percents.zip amounts).map Prod.fst).filter
        (fun p => (assocFind qm p).isNone) :=
    foldl_percentStep_keys inputTokenMint outputTokenMint pools pairRoutes b true
      (percents.zip amounts) ([], qm) hpfnd
  have hkeys' : (buildQuoteUpdateRequests inputTokenMint outputTokenMint pools pairRoutes
      percents amounts b true qm).2.map Prod.fst =
      (percents.zip amounts).map Prod.fst := by
    rw [hkeysB]
    rcases Nat.eq_zero_or_pos b with hb0 | hbpos
    · rw [hinv.1 hb0]
      rw [show (List.map Prod.fst ([] : QuoteMap)) = [] from rfl, List.nil_append]
      refine List.filter_eq_self.mpr ?_
      intro p _
      rw [show assocFind ([] : QuoteMap) p = none from rfl]
      rfl
    · have hk := (hinv.2 hbpos).1
      rw [hk]
      have hfe : ((percents.zip amounts).map Prod.fst).filter
          (fun p => (assocFind qm p).isNone) = [] := by
        rw [List.filter_eq_nil]
        intro p hp
        have hmem : p ∈ qm.map Prod.fst := by
          rw [hk]
          exact hp
        rw [← assocFind_isSome_iff_mem, Option.isSome_iff_exists] at hmem
        obtain ⟨bq, hbq⟩ := hmem
        rw [hbq]
        simp
      rw [hfe, List.append_nil]
  have hblB : bucketsLen (buildQuoteUpdateRequests inputTokenMint outputTokenMint pools
      pairRoutes percents amounts b true qm).2 pairRoutes.length :=
    foldl_percentStep_bucketsLen inputTokenMint outputTokenMint pools pairRoutes b true
      (percents.zip amounts) ([], qm) hbl
  have hkeysQ : qm'.map Prod.fst = (percents.zip amounts).map Prod.fst := by
    rw [hqm', updateQuoteMap_keys]
    exact hkeys'
  have hblQ : bucketsLen qm' pairRoutes.length := by
    rw [hqm']
    exact updateQuoteMap_bucketsLen engine quoteParams _ _ hblB
  rcases foldl_percentStep_entries inputTokenMint outputTokenMint pools pairRoutes b true
      (percents.zip amounts) ([], qm) hpfnd hbl with ⟨hEO, hEI⟩
  rcases foldl_percentStep_updates inputTokenMint outputTokenMint pools pairRoutes b true
      (percents.zip amounts) ([], qm) hpfnd hbl with ⟨tail, hU1, hU2, hU3, hU4⟩
  have hUtail : (buildQuoteUpdateRequests inputTokenMint outputTokenMint pools pairRoutes
      percents amounts b true qm).1 = tail := by
    simpa using hU1
  have hlex : (buildQuoteUpdateRequests inputTokenMint outputTokenMint pools pairRoutes
      percents amounts b true qm).1.Pairwise lexPR := by
    rcases foldl_percentStep_tail inputTokenMint outputTokenMint pools pairRoutes b true
        (percents.zip amounts) ([], qm) hzsort with ⟨t2, ht1, ht2, _, _⟩
    have he2 : (buildQuoteUpdateRequests inputTokenMint outputTokenMint pools pairRoutes
        percents amounts b true qm).1 = t2 := by
      simpa using ht1
    rw [he2]
    exact ht2
  have hdist := lexPR_distinct hlex
  constructor
  · intro h01
    exact absurd h01 (Nat.succ_ne_zero b)
  · intro _
    refine ⟨hkeysQ, hblQ, ?_⟩
    intro p hp r route hroute
    obtain ⟨pa, hpam, hpa1⟩ : ∃ pa ∈ percents.zip amounts, pa.1 = p := by
      rcases List.mem_map.mp hp with ⟨pa, hpam, hpa1⟩
      exact ⟨pa, hpam, hpa1⟩
    have hr : r < pairRoutes.length := (List.get?_eq_some.mp hroute).1
    have hgetD : pairRoutes.getD r [] = route := by
      show (pairRoutes.get? r).getD [] = route
      rw [hroute]
      rfl
    have hrne : route ≠ [] := hroutes route (List.get?_mem hroute)
    have hlen0 : 0 < route.length := List.length_pos.mpr hrne
    have hEntryB : qmEntry (buildQuoteUpdateRequests inputTokenMint outputTokenMint pools
        pairRoutes percents amounts b true qm).2 p r =
        stepEntry true b p route (qmEntry qm p r) := by
      have hthis := hEI pa hpam r hr
      rw [hpa1, hgetD] at hthis
      exact hthis
    rcases Nat.eq_zero_or_pos b with hb0 | hbpos
    · subst hb0
      have hqmnil := hinv.1 rfl
      subst hqmnil
      have hskip : routeSkipB true 0 route.length = false :=
        (routeSkipB_eq_false_iff true 0 route.length).mpr hlen0
      have hstart : startingB true 0 route.length = true :=
        (startingB_fwd_iff 0 route.length).mpr rfl
      have hstepE : stepEntry true 0 p route none = some (freshEntry p route) := by
        unfold stepEntry freshEntry
        rw [hskip, hstart]
        rfl
      have hem : emitsAt true 0 (pairRoutes.getD r []) (qmEntry ([] : QuoteMap) pa.1 r) := by
        rw [hgetD]
        exact ⟨hskip, Or.inl hstart⟩
      rcases hU3 pa hpam r hr hem with ⟨u, hu, hup, hur⟩
      have hupp : u.percent = p := by
        rw [hup, hpa1]
      have hhi : u.hopIndex = 0 := (hU2 u hu).1
      have hEB : qmEntry (buildQuoteUpdateRequests inputTokenMint outputTokenMint pools
          pairRoutes percents amounts 0 true []).2 u.percent u.routeIndex =
          some (freshEntry p route) := by
        rw [hupp, hur, hEntryB, qmEntry_nil]
        exact hstepE
      have hfin : qmEntry qm' p r = some (setHopEntry (freshEntry p route) u.hopIndex
          (hopResultOf engine (quoteParams.get? u.quoteIndex) u)) := by
        have happ := updateQuoteMap_apply_mem engine quoteParams
          (buildQuoteUpdateRequests inputTokenMint outputTokenMint pools pairRoutes
            percents amounts 0 true []).1
          (buildQuoteUpdateRequests inputTokenMint outputTokenMint pools pairRoutes
            percents amounts 0 true []).2 hdist u (hUtail.symm ▸ hu)
          (freshEntry p route) hEB
        rw [hupp, hur] at happ
        rw [hqm']
        exact happ
      have hset : (List.replicate route.length (none : Option CalculatedHop)).set
          u.hopIndex (some (hopResultOf engine (quoteParams.get? u.quoteIndex) u)) =
          some (hopResultOf engine (quoteParams.get? u.quoteIndex) u) ::
            List.replicate (route.length - 1) none := by
        rw [hhi, replicate_set _ _ _ _ hlen0]
        rfl
      refine ⟨setHopEntry (freshEntry p route) u.hopIndex
        (hopResultOf engine (quoteParams.get? u.quoteIndex) u), hfin, rfl, rfl, ?_, ?_⟩
      · show ((List.replicate route.length none).set u.hopIndex _).length = route.length
        rw [List.length_set]
        exact List.length_replicate _ _
      · show shapeF 1 route.length
          ((List.replicate route.length none).set u.hopIndex
            (some (hopResultOf engine (quoteParams.get? u.quoteIndex) u)))
        rw [hset]
        cases hopResultOf engine (quoteParams.get? u.quoteIndex) u with
        | success s =>
          left
          refine ⟨[s], ?_, rfl⟩
          rw [Nat.min_eq_left hlen0]
          rfl
        | failure err =>
          right
          exact ⟨[], err, Nat.one_pos, hlen0, rfl⟩
    · rcases (hinv.2 hbpos).2.2 p hp r route hroute with ⟨e, hqe, hep, her, hel, hshape⟩
      have hbne0 : b ≠ 0 := Nat.pos_iff_ne_zero.mp hbpos
      rcases Nat.lt_or_ge b route.length with hblt | hbge
      · have hskip : routeSkipB true b route.length = false :=
          (routeSkipB_eq_false_iff true b route.length).mpr hblt
        have hstart : startingB true b route.length = false := by
          cases hst : startingB true b route.length
          · rfl
          · exact absurd ((startingB_fwd_iff b route.length).mp hst) hbne0
        have hstepE : stepEntry true b p route (qmEntry qm p r) = qmEntry qm p r := by
          unfold stepEntry
          rw [hskip, hstart]
          simp
        rcases hshape with ⟨ss, hss1, hss2⟩ | ⟨ss, err, hf1, hf2, hf3⟩
        · have hssb : ss.length = b := by
            rw [hss1, Nat.min_eq_left (Nat.le_of_lt hblt)]
          have hlast : ∃ s, lastHopOf true b e.calculatedHops =
              some (CalculatedHop.success s) := by
            unfold lastHopOf
            rw [if_pos rfl, if_neg hbne0, hss2]
            rw [getD_append_lt _ _ _ _ (by rw [List.length_map]; omega)]
            exact exists_getD_map_success ss (b - 1) (by omega)
          obtain ⟨s, hlasts⟩ := hlast
          have hem : emitsAt true b (pairRoutes.getD r []) (qmEntry qm pa.1 r) := by
            rw [hgetD, hpa1, hqe]
            exact ⟨hskip, Or.inr ⟨hstart, e, s, rfl, hlasts⟩⟩
          rcases hU3 pa hpam r hr hem with ⟨u, hu, hup, hur⟩
          have hupp : u.percent = p := by
            rw [hup, hpa1]
          have hhi : u.hopIndex = b := (hU2 u hu).1
          have hEB : qmEntry (buildQuoteUpdateRequests inputTokenMint outputTokenMint
              pools pairRoutes percents amounts b true qm).2 u.percent u.routeIndex =
              some e := by
            rw [hupp, hur, hEntryB, hstepE, hqe]
          have hfin : qmEntry qm' p r = some (setHopEntry e u.hopIndex
              (hopResultOf engine (quoteParams.get? u.quoteIndex) u)) := by
            have happ := updateQuoteMap_apply_mem engine quoteParams
              (buildQuoteUpdateRequests inputTokenMint outputTokenMint pools pairRoutes
                percents amounts b true qm).1
              (buildQuoteUpdateRequests inputTokenMint outputTokenMint pools pairRoutes
                percents amounts b true qm).2 hdist u (hUtail.symm ▸ hu) e hEB
            rw [hupp, hur] at happ
            rw [hqm']
            exact happ
          refine ⟨setHopEntry e u.hopIndex
            (hopResultOf engine (quoteParams.get? u.quoteIndex) u), hfin, hep, her,
            ?_, ?_⟩
          · show (e.calculatedHops.set u.hopIndex _).length = route.length
            rw [List.length_set]
            exact hel
          · show shapeF (b + 1) route.length
              (e.calculatedHops.set u.hopIndex
                (some (hopResultOf engine (quoteParams.get? u.quoteIndex) u)))
            rw [hhi, hss2, List.set_append_right _ _ (by rw [List.length_map]; omega)]
            rw [List.length_map, hssb, Nat.sub_self]
            rw [replicate_set _ _ _ _ (by omega)]
            rw [show List.replicate 0 (none : Option CalculatedHop) = [] from rfl,
              List.nil_append]
            cases hopResultOf engine (quoteParams.get? u.quoteIndex) u with
            | success s2 =>
              left
              refine ⟨ss ++ [s2], ?_, ?_⟩
              · rw [List.length_append, hssb, Nat.min_eq_left hblt]
                rfl
              · rw [List.map_append, List.append_assoc, List.length_append, hssb]
                rfl
            | failure err2 =>
              right
              refine ⟨ss, err2, by omega, by omega, by rw [hssb]; rfl⟩
        · have hnolast : ∀ s, lastHopOf true b e.calculatedHops ≠
              some (CalculatedHop.success s) := by
            intro s
            unfold lastHopOf
            rw [if_pos rfl, if_neg hbne0, hf3]
            exact getD_shape2F_no_success ss err _ (b - 1) (by omega) s
          have hnem : ¬ emitsAt true b (pairRoutes.getD r []) (qmEntry qm p r) := by
            rw [hgetD, hqe]
            intro hem
            rcases hem.2 with hst | ⟨_, e2, s2, he2, hl2⟩
            · exact absurd hst (by rw [hstart]; simp)
            · have he2e : e2 = e := by
                injection he2 with hx
                exact hx.symm
              rw [he2e] at hl2
              exact hnolast s2 hl2
          have hnt : ∀ u ∈ (buildQuoteUpdateRequests inputTokenMint outputTokenMint pools
              pairRoutes percents amounts b true qm).1,
              ¬(u.percent = p ∧ u.routeIndex = r) :=
            fun u hu => hU4 p r hnem u (hUtail ▸ hu)
          refine ⟨e, ?_, hep, her, hel, ?_⟩
          · rw [hqm', updateQuoteMap_untargeted engine quoteParams _ _ p r hnt, hEntryB,
              hstepE, hqe]
          · right
            exact ⟨ss, err, Nat.lt_succ_of_lt hf1, hf2, hf3⟩
      · have hskipT : routeSkipB true b route.length = true := by
          cases hsk : routeSkipB true b route.length
          · exact absurd ((routeSkipB_eq_false_iff true b route.length).mp hsk)
              (Nat.not_lt.mpr hbge)
          · rfl
        have hnem : ¬ emitsAt true b (pairRoutes.getD r []) (qmEntry qm p r) := by
          rw [hgetD]
          intro hem
          have hc := hem.1
          rw [hskipT] at hc
          exact absurd hc (by simp)
        have hnt : ∀ u ∈ (buildQuoteUpdateRequests inputTokenMint outputTokenMint pools
            pairRoutes percents amounts b true qm).1,
            ¬(u.percent = p ∧ u.routeIndex = r) :=
          fun u hu => hU4 p r hnem u (hUtail ▸ hu)
        have hstepE : stepEntry true b p route (qmEntry qm p r) = qmEntry qm p r := by
          unfold stepEntry
          rw [hskipT]
          rfl
        refine ⟨e, ?_, hep, her, hel, ?_⟩
        · rw [hqm', updateQuoteMap_untargeted engine quoteParams _ _ p r hnt, hEntryB,
            hstepE, hqe]
        · exact shapeF_succ_of_complete b route.length e.calculatedHops hbge hshape

/-- One backward hop iteration preserves the backward loop invariant. -/
theorem stepB (inputTokenMint outputTokenMint : String) (pools : String → Pool)
    (pairRoutes : List (List String)) (percents amounts : List Nat)
    (batchBuild : List QuoteRequest → Except String (List SwapQuoteParam))
    (engine : SwapQuoteParam → Except SwapErrorCode Nat)
    (hsort : percents.Pairwise (· < ·))
    (hroutes : ∀ route ∈ pairRoutes, route ≠ [])
    (L : Nat) (hLlen : ∀ route ∈ pairRoutes, route.length ≤ L)
    (h : Nat) (hhL : h < L) (qm : QuoteMap)
    (hinv : qmInvB pairRoutes ((percents.zip amounts).map Prod.fst) L (h + 1) qm)
    (qm' : QuoteMap)
    (hstep : runHopsStep inputTokenMint outputTokenMint pools pairRoutes percents amounts
      false batchBuild engine qm h = Except.ok qm') :
    qmInvB pairRoutes ((percents.zip amounts).map Prod.fst) L h qm' := by
  obtain ⟨quoteParams, hbb, hqm'⟩ := runHopsStep_ok inputTokenMint outputTokenMint pools
    pairRoutes percents amounts false batchBuild engine qm h qm' hstep
  have hzsort : ((percents.zip amounts).map Prod.fst).Pairwise (· < ·) :=
    hsort.sublist (map_fst_zip_sublist percents amounts)
  have hpfnd : ((percents.zip amounts).map Prod.fst).Nodup :=
    hzsort.imp fun hx => Nat.ne_of_lt hx
  have hkq : qm = [] ∨ qm.map Prod.fst = (percents.zip amounts).map Prod.fst := by
    rcases Nat.lt_or_eq_of_le (Nat.succ_le_of_lt hhL) with h1lt | h1eq
    · exact Or.inr (hinv.2 h1lt).1
    · exact Or.inl (hinv.1 h1eq)
  have hbl : bucketsLen qm pairRoutes.length := by
    rcases Nat.lt_or_eq_of_le (Nat.succ_le_of_lt hhL) with h1lt | h1eq
    · exact (hinv.2 h1lt).2.1
    · rw [hinv.1 h1eq]
      intro pb hpb
      exact absurd hpb (List.not_mem_nil pb)
  have hkeysB : (buildQuoteUpdateRequests inputTokenMint outputTokenMint pools pairRoutes
      percents amounts h false qm).2.map Prod.fst =
      qm.map Prod.fst ++ ((percents.zip amounts).map Prod.fst).filter
        (fun p => (assocFind qm p).isNone) :=
    foldl_percentStep_keys inputTokenMint outputTokenMint pools pairRoutes h false
      (percents.zip amounts) ([], qm) hpfnd
  have hkeys' : (buildQuoteUpdateRequests inputTokenMint outputTokenMint pools pairRoutes
      percents amounts h false qm).2.map Prod.fst =
      (percents.zip amounts).map Prod.fst := by
    rw [hkeysB]
    rcases hkq with hnil | hk
    · rw [hnil]
      rw [show (List.map Prod.fst ([] : QuoteMap)) = [] from rfl, List.nil_append]
      refine List.filter_eq_self.mpr ?_
      intro p _
      rw [show assocFind ([] : QuoteMap) p = none from rfl]
      rfl
    · rw [hk]
      have hfe : ((percents.zip amounts).map Prod.fst).filter
          (fun p => (assocFind qm p).isNone) = [] := by
        rw [List.filter_eq_nil]
        intro p hp
        have hmem : p ∈ qm.map Prod.fst := by
          rw [hk]
          exact hp
        rw [← assocFind_isSome_iff_mem, Option.isSome_iff_exists] at hmem
        obtain ⟨bq, hbq⟩ := hmem
        rw [hbq]
        simp
      rw [hfe, List.append_nil]
  have hblB : bucketsLen (buildQuoteUpdateRequests inputTokenMint outputTokenMint pools
      pairRoutes percents amounts h false qm).2 pairRoutes.length :=
    foldl_percentStep_bucketsLen inputTokenMint outputTokenMint pools pairRoutes h false
      (percents.zip amounts) ([], qm) hbl
  have hkeysQ : qm'.map Prod.fst = (percents.zip amounts).map Prod.fst := by
    rw [hqm', updateQuoteMap_keys]
    exact hkeys'
  have hblQ : bucketsLen qm' pairRoutes.length := by
    rw [hqm']
    exact updateQuoteMap_bucketsLen engine quoteParams _ _ hblB
  rcases foldl_percentStep_entries inputTokenMint outputTokenMint pools pairRoutes h false
      (percents.zip amounts) ([], qm) hpfnd hbl with ⟨hEO, hEI⟩
  rcases foldl_percentStep_updates inputTokenMint outputTokenMint pools pairRoutes h false
      (percents.zip amounts) ([], qm) hpfnd hbl with ⟨tail, hU1, hU2, hU3, hU4⟩
  have hUtail : (buildQuoteUpdateRequests inputTokenMint outputTokenMint pools pairRoutes
      percents amounts h false qm).1 = tail := by
    simpa using hU1
  have hlex : (buildQuoteUpdateRequests inputTokenMint outputTokenMint pools pairRoutes
      percents amounts h false qm).1.Pairwise lexPR := by
    rcases foldl_percentStep_tail inputTokenMint outputTokenMint pools pairRoutes h false
        (percents.zip amounts) ([], qm) hzsort with ⟨t2, ht1, ht2, _, _⟩
    have he2 : (buildQuoteUpdateRequests inputTokenMint outputTokenMint pools pairRoutes
        percents amounts h false qm).1 = t2 := by
      simpa using ht1
    rw [he2]
    exact ht2
  have hdist := lexPR_distinct hlex
  constructor
  · intro h0L
    exact absurd h0L (Nat.ne_of_lt hhL)
  · intro _
    refine ⟨hkeysQ, hblQ, ?_⟩
    intro p hp r route hroute
    obtain ⟨pa, hpam, hpa1⟩ : ∃ pa ∈ percents.zip amounts, pa.1 = p := by
      rcases List.mem_map.mp hp with ⟨pa, hpam, hpa1⟩
      exact ⟨pa, hpam, hpa1⟩
    have hr : r < pairRoutes.length := (List.get?_eq_some.mp hroute).1
    have hgetD : pairRoutes.getD r [] = route := by
      show (pairRoutes.get? r).getD [] = route
      rw [hroute]
      rfl
    have hrne : route ≠ [] := hroutes route (List.get?_mem hroute)
    have hlen0 : 0 < route.length := List.length_pos.mpr hrne
    have hEntryB : qmEntry (buildQuoteUpdateRequests inputTokenMint outputTokenMint pools
        pairRoutes percents amounts h false qm).2 p r =
        stepEntry false h p route (qmEntry qm p r) := by
      have hthis := hEI pa hpam r hr
      rw [hpa1, hgetD] at hthis
      exact hthis
    have holdN : route.length ≤ h + 1 → qmEntry qm p r = none := by
      intro hle
      rcases Nat.lt_or_eq_of_le (Nat.succ_le_of_lt hhL) with h1lt | h1eq
      · exact ((hinv.2 h1lt).2.2 p hp r route hroute).1 hle
      · rw [hinv.1 h1eq]
        exact qmEntry_nil p r
    have holdS : h + 1 < route.length →
        ∃ e, qmEntry qm p r = some e ∧ e.percent = p ∧ e.route = route ∧
          e.calculatedHops.length = route.length ∧
          shapeB (route.length - (h + 1)) route.length e.calculatedHops := by
      intro hlt2
      have h1lt : h + 1 < L :=
        lt_of_lt_of_le hlt2 (hLlen route (List.get?_mem hroute))
      exact ((hinv.2 h1lt).2.2 p hp r route hroute).2 hlt2
    constructor
    · intro hle
      have hskipT : routeSkipB false h route.length = true := by
        cases hsk : routeSkipB false h route.length
        · exact absurd ((routeSkipB_eq_false_iff false h route.length).mp hsk)
            (Nat.not_lt.mpr hle)
        · rfl
      have hnem : ¬ emitsAt false h (pairRoutes.getD r []) (qmEntry qm p r) := by
        rw [hgetD]
        intro hem
        have hc := hem.1
        rw [hskipT] at hc
        exact absurd hc (by simp)
      have hnt : ∀ u ∈ (buildQuoteUpdateRequests inputTokenMint outputTokenMint pools
          pairRoutes percents amounts h false qm).1,
          ¬(u.percent = p ∧ u.routeIndex = r) :=
        fun u hu => hU4 p r hnem u (hUtail ▸ hu)
      have hstepE : stepEntry false h p route (qmEntry qm p r) = qmEntry qm p r := by
        unfold stepEntry
        rw [hskipT]
        rfl
      rw [hqm', updateQuoteMap_untargeted engine quoteParams _ _ p r hnt, hEntryB,
        hstepE]
      exact holdN (Nat.le_trans hle (Nat.le_succ h))
    · intro hhlt
      have hskip : routeSkipB false h route.length = false :=
        (routeSkipB_eq_false_iff false h route.length).mpr hhlt
      rcases Nat.lt_or_ge (h + 1) route.length with hlt2 | hge2
      · have hstart : startingB false h route.length = false := by
          cases hst : startingB false h route.length
          · rfl
          · have := (startingB_bwd_iff h route.length).mp hst
            omega
        have hstepE : stepEntry false h p route (qmEntry qm p r) = qmEntry qm p r := by
          unfold stepEntry
          rw [hskip, hstart]
          simp
        rcases holdS hlt2 with ⟨e, hqe, hep, her, hel, hshape⟩
        rcases hshape with ⟨ss, hss1, hss2⟩ | ⟨ss, err, hf1, hf2, hf3⟩
        · have hssb : ss.length = route.length - (h + 1) := by
            rw [hss1, Nat.min_eq_left (Nat.sub_le _ _)]
          have hpre : route.length - ss.length = h + 1 := by
            omega
          have hlast : ∃ s, lastHopOf false h e.calculatedHops =
              some (CalculatedHop.success s) := by
            unfold lastHopOf
            rw [if_neg (by simp : ¬((false : Bool) = true)), hss2]
            rw [getD_append_ge _ _ _ _ (by rw [List.length_replicate]; omega)]
            rw [List.length_replicate, hpre, Nat.sub_self]
            exact exists_getD_map_success ss 0 (by omega)
          obtain ⟨s, hlasts⟩ := hlast
          have hem : emitsAt false h (pairRoutes.getD r []) (qmEntry qm pa.1 r) := by
            rw [hgetD, hpa1, hqe]
            exact ⟨hskip, Or.inr ⟨hstart, e, s, rfl, hlasts⟩⟩
          rcases hU3 pa hpam r hr hem with ⟨u, hu, hup, hur⟩
          have hupp : u.percent = p := by
            rw [hup, hpa1]
          have hhi : u.hopIndex = h := (hU2 u hu).1
          have hEB : qmEntry (buildQuoteUpdateRequests inputTokenMint outputTokenMint
              pools pairRoutes percents amounts h false qm).2 u.percent u.routeIndex =
              some e := by
            rw [hupp, hur, hEntryB, hstepE, hqe]
          have hfin : qmEntry qm' p r = some (setHopEntry e u.hopIndex
              (hopResultOf engine (quoteParams.get? u.quoteIndex) u)) := by
            have happ := updateQuoteMap_apply_mem engine quoteParams
              (buildQuoteUpdateRequests inputTokenMint outputTokenMint pools pairRoutes
                percents amounts h false qm).1
              (buildQuoteUpdateRequests inputTokenMint outputTokenMint pools pairRoutes
                percents amounts h false qm).2 hdist u (hUtail.symm ▸ hu) e hEB
            rw [hupp, hur] at happ
            rw [hqm']
            exact happ
          refine ⟨setHopEntry e u.hopIndex
            (hopResultOf engine (quoteParams.get? u.quoteIndex) u), hfin, hep, her,
            ?_, ?_⟩
          · show (e.calculatedHops.set u.hopIndex _).length = route.length
            rw [List.length_set]
            exact hel
          · show shapeB (route.length - h) route.length
              (e.calculatedHops.set u.hopIndex
                (some (hopResultOf engine (quoteParams.get? u.quoteIndex) u)))
            rw [hhi, hss2, List.set_append_left _ _ (by rw [List.length_replicate]; omega)]
            rw [replicate_set _ _ _ _ (by omega)]
            have hz0 : route.length - ss.length - h - 1 = 0 := by
              omega
            rw [hz0]
            cases hopResultOf engine (quoteParams.get? u.quoteIndex) u with
            | success s2 =>
              left
              refine ⟨s2 :: ss, ?_, ?_⟩
              · rw [Nat.min_eq_left (Nat.sub_le _ _), List.length_cons]
                omega
              · have hzz : route.length - (s2 :: ss).length = h := by
                  rw [List.length_cons]
                  omega
                rw [hzz, List.map_cons, List.append_assoc]
                rfl
            | failure err2 =>
              right
              refine ⟨ss, err2, by omega, by omega, ?_⟩
              have hzz : route.length - ss.length - 1 = h := by
                omega
              rw [hzz, List.append_assoc]
              rfl
        · have hnolast : ∀ s, lastHopOf false h e.calculatedHops ≠
              some (CalculatedHop.success s) := by
            intro s
            unfold lastHopOf
            rw [if_neg (by simp : ¬((false : Bool) = true)), hf3]
            exact getD_shape2B_no_success ss err _ (h + 1) (by omega) s
          have hnem : ¬ emitsAt false h (pairRoutes.getD r []) (qmEntry qm p r) := by
            rw [hgetD, hqe]
            intro hem
            rcases hem.2 with hst | ⟨_, e2, s2, he2, hl2⟩
            · have := (startingB_bwd_iff h route.length).mp hst
              omega
            · have he2e : e2 = e := by
                injection he2 with hx
                exact hx.symm
              rw [he2e] at hl2
              exact hnolast s2 hl2
          have hnt : ∀ u ∈ (buildQuoteUpdateRequests inputTokenMint outputTokenMint
              pools pairRoutes percents amounts h false qm).1,
              ¬(u.percent = p ∧ u.routeIndex = r) :=
            fun u hu => hU4 p r hnem u (hUtail ▸ hu)
          refine ⟨e, ?_, hep, her, hel, ?_⟩
          · rw [hqm', updateQuoteMap_untargeted engine quoteParams _ _ p r hnt, hEntryB,
              hstepE, hqe]
          · right
            exact ⟨ss, err, by omega, hf2, hf3⟩
      · have hlenh : route.length = h + 1 := by
          omega
        have hstart : startingB false h route.length = true := by
          rw [startingB_bwd_iff h route.length]
          omega
        have hold0 : qmEntry qm p r = none := holdN hge2
        have hstepE : stepEntry false h p route (qmEntry qm p r) =
            some (freshEntry p route) := by
          unfold stepEntry freshEntry
          rw [hold0, hskip, hstart]
          rfl
        have hem : emitsAt false h (pairRoutes.getD r []) (qmEntry qm pa.1 r) := by
          rw [hgetD]
          exact ⟨hskip, Or.inl hstart⟩
        rcases hU3 pa hpam r hr hem with ⟨u, hu, hup, hur⟩
        have hupp : u.percent = p := by
          rw [hup, hpa1]
        have hhi : u.hopIndex = h := (hU2 u hu).1
        have hEB : qmEntry (buildQuoteUpdateRequests inputTokenMint outputTokenMint pools
            pairRoutes percents amounts h false qm).2 u.percent u.routeIndex =
            some (freshEntry p route) := by
          rw [hupp, hur, hEntryB]
          exact hstepE
        have hfin : qmEntry qm' p r = some (setHopEntry (freshEntry p route) u.hopIndex
            (hopResultOf engine (quoteParams.get? u.quoteIndex) u)) := by
          have happ := updateQuoteMap_apply_mem engine quoteParams
            (buildQuoteUpdateRequests inputTokenMint outputTokenMint pools pairRoutes
              percents amounts h false qm).1
            (buildQuoteUpdateRequests inputTokenMint outputTokenMint pools pairRoutes
              percents amounts h false qm).2 hdist u (hUtail.symm ▸ hu)
            (freshEntry p route) hEB
          rw [hupp, hur] at happ
          rw [hqm']
          exact happ
        refine ⟨setHopEntry (freshEntry p route) u.hopIndex
          (hopResultOf engine (quoteParams.get? u.quoteIndex) u), hfin, rfl, rfl,
          ?_, ?_⟩
        · show ((List.replicate route.length none).set u.hopIndex _).length = route.length
          rw [List.length_set]
          exact List.length_replicate _ _
        · show shapeB (route.length - h) route.length
            ((List.replicate route.length none).set u.hopIndex
              (some (hopResultOf engine (quoteParams.get? u.quoteIndex) u)))
          rw [hhi, replicate_set _ _ _ _ hhlt]
          have hz0 : route.length - h - 1 = 0 := by
            omega
          rw [hz0]
          cases hopResultOf engine (quoteParams.get? u.quoteIndex) u with
          | success s2 =>
            left
            refine ⟨[s2], ?_, ?_⟩
            · rw [Nat.min_eq_left (Nat.sub_le _ _)]
              show 1 = route.length - h
              omega
            · have hzz : route.length - [s2].length = h := by
                show route.length - 1 = h
                omega
              rw [hzz]
              rfl
          | failure err2 =>
            right
            refine ⟨[], err2, by show 0 < route.length - h; omega,
              by show 0 < route.length; omega, ?_⟩
            have hzz : route.length - List.length ([] : List SuccessHop) - 1 = h := by
              show route.length - 0 - 1 = h
              omega
            rw [hzz]
            rfl

/-- The forward hop loop carries the invariant across its whole range. -/
theorem runF (inputTokenMint outputTokenMint : String) (pools : String → Pool)
    (pairRoutes : List (List String)) (percents amounts : List Nat)
    (batchBuild : List QuoteRequest → Except String (List SwapQuoteParam))
    (engine : SwapQuoteParam → Except SwapErrorCode Nat)
    (hsort : percents.Pairwise (· < ·))
    (hroutes : ∀ route ∈ pairRoutes, route ≠ []) :
    ∀ (n b : Nat) (qm : QuoteMap),
    qmInvF pairRoutes ((percents.zip amounts).map Prod.fst) b qm →
    ∀ qmF, runHops inputTokenMint outputTokenMint pools pairRoutes percents amounts true
      batchBuild engine (List.range' b n) qm = Except.ok qmF →
    qmInvF pairRoutes ((percents.zip amounts).map Prod.fst) (b + n) qmF := by
  intro n
  induction n with
  | zero =>
    intro b qm hinv qmF hrun
    have hqm : Except.ok qm = Except.ok qmF := hrun
    injection hqm with hx
    rw [← hx]
    exact hinv
  | succ n ih =>
    intro b qm hinv qmF hrun
    rw [List.range'_succ] at hrun
    obtain ⟨qm1, hs, hrest⟩ := foldlM_except_cons_ok
      (runHopsStep inputTokenMint outputTokenMint pools pairRoutes percents amounts true
        batchBuild engine) qm b (List.range' (b + 1) n) qmF hrun
    have hinv1 := stepF inputTokenMint outputTokenMint pools pairRoutes percents amounts
      batchBuild engine hsort hroutes b qm hinv qm1 hs
    have hres := ih (b + 1) qm1 hinv1 qmF hrest
    rw [show b + (n + 1) = (b + 1) + n by omega]
    exact hres

/-- The backward hop loop carries the invariant down to hop `0`. -/
theorem runB (inputTokenMint outputTokenMint : String) (pools : String → Pool)
    (pairRoutes : List (List String)) (percents amounts : List Nat)
    (batchBuild : List QuoteRequest → Except String (List SwapQuoteParam))
    (engine : SwapQuoteParam → Except SwapErrorCode Nat)
    (hsort : percents.Pairwise (· < ·))
    (hroutes : ∀ route ∈ pairRoutes, route ≠ [])
    (L : Nat) (hLlen : ∀ route ∈ pairRoutes, route.length ≤ L) :
    ∀ (n : Nat), n ≤ L → ∀ (qm : QuoteMap),
    qmInvB pairRoutes ((percents.zip amounts).map Prod.fst) L n qm →
    ∀ qmF, runHops inputTokenMint outputTokenMint pools pairRoutes percents amounts false
      batchBuild engine ((List.range n).reverse) qm = Except.ok qmF →
    qmInvB pairRoutes ((percents.zip amounts).map Prod.fst) L 0 qmF := by
  intro n
  induction n with
  | zero =>
    intro _ qm hinv qmF hrun
    have hqm : Except.ok qm = Except.ok qmF := hrun
    injection hqm with hx
    rw [← hx]
    exact hinv
  | succ n ih =>
    intro hle qm hinv qmF hrun
    rw [List.range_succ, List.reverse_append] at hrun
    obtain ⟨qm1, hs, hrest⟩ := foldlM_except_cons_ok
      (runHopsStep inputTokenMint outputTokenMint pools pairRoutes percents amounts false
        batchBuild engine) qm n ((List.range n).reverse) qmF hrun
    have hinv1 := stepB inputTokenMint outputTokenMint pools pairRoutes percents amounts
      batchBuild engine hsort hroutes L hLlen n (Nat.lt_of_succ_le hle) qm hinv qm1 hs
    exact ih (Nat.le_of_succ_le hle) qm1 hinv1 qmF hrest

/-! ### From chain shapes to hop counts -/

/-- Success hops of the mapped success prefix. -/
theorem successHops_map_success (ss : List SuccessHop) :
    successHops (ss.map fun s => some (CalculatedHop.success s)) = ss := by
  unfold successHops
  rw [List.filterMap_map]
  exact List.filterMap_some ss

/-- Success hops of an all-hole chain. -/
theorem successHops_replicate (n : Nat) :
    successHops (List.replicate n (none : Option CalculatedHop)) = [] := by
  unfold successHops
  refine List.filterMap_eq_nil.mpr ?_
  intro a ha
  rw [List.eq_of_mem_replicate ha]

/-- Failure hops of the mapped success prefix. -/
theorem failureHops_map_success (ss : List SuccessHop) :
    failureHops (ss.map fun s => some (CalculatedHop.success s)) = [] := by
  unfold failureHops
  rw [List.filterMap_map]
  refine List.filterMap_eq_nil.mpr ?_
  intro a _
  rfl

/-- Failure hops of an all-hole chain. -/
theorem failureHops_replicate (n : Nat) :
    failureHops (List.replicate n (none : Option CalculatedHop)) = [] := by
  unfold failureHops
  refine List.filterMap_eq_nil.mpr ?_
  intro a ha
  rw [List.eq_of_mem_replicate ha]

/-- `successHops` distributes over append. -/
theorem successHops_append (a b : List (Option CalculatedHop)) :
    successHops (a ++ b) = successHops a ++ successHops b :=
  List.filterMap_append a b _

/-- `failureHops` distributes over append. -/
theorem failureHops_append (a b : List (Option CalculatedHop)) :
    failureHops (a ++ b) = failureHops a ++ failureHops b :=
  List.filterMap_append a b _

/-- A full-bound forward shape yields a complete chain without failures or
an incomplete chain with exactly one. -/
theorem shapeF_counts (bound len : Nat) (hops : List (Option CalculatedHop))
    (hlen : len ≤ bound) (h : shapeF bound len hops) :
    ((successHops hops).length = len ∧ failureHops hops = []) ∨
    ((successHops hops).length < len ∧ (failureHops hops).length = 1) := by
  rcases h with ⟨ss, h1, h2⟩ | ⟨ss, err, h1, h2, h3⟩
  · left
    subst h2
    constructor
    · rw [successHops_append, successHops_map_success, successHops_replicate,
        List.append_nil, h1, Nat.min_eq_right hlen]
    · rw [failureHops_append, failureHops_map_success, failureHops_replicate]
      rfl
  · right
    subst h3
    constructor
    · rw [successHops_append, successHops_map_success,
        show successHops (some (CalculatedHop.failure err) ::
          List.replicate (len - ss.length - 1) none) =
          successHops (List.replicate (len - ss.length - 1) none) from rfl,
        successHops_replicate, List.append_nil]
      exact h2
    · rw [failureHops_append, failureHops_map_success,
        show failureHops (some (CalculatedHop.failure err) ::
          List.replicate (len - ss.length - 1) none) =
          err :: failureHops (List.replicate (len - ss.length - 1) none) from rfl,
        failureHops_replicate]
      rfl

/-- A full-bound backward shape yields a complete chain without failures or
an incomplete chain with exactly one. -/
theorem shapeB_counts (bound len : Nat) (hops : List (Option CalculatedHop))
    (hlen : len ≤ bound) (h : shapeB bound len hops) :
    ((successHops hops).length = len ∧ failureHops hops = []) ∨
    ((successHops hops).length < len ∧ (failureHops hops).length = 1) := by
  rcases h with ⟨ss, h1, h2⟩ | ⟨ss, err, h1, h2, h3⟩
  · left
    subst h2
    constructor
    · rw [successHops_append, successHops_map_success, successHops_replicate,
        List.nil_append, h1, Nat.min_eq_right hlen]
    · rw [failureHops_append, failureHops_map_success, failureHops_replicate]
      rfl
  · right
    subst h3
    constructor
    · rw [successHops_append, successHops_replicate,
        show successHops (some (CalculatedHop.failure err) ::
          ss.map fun s => some (CalculatedHop.success s)) =
          successHops (ss.map fun s => some (CalculatedHop.success s)) from rfl,
        successHops_map_success, List.nil_append]
      exact h2
    · rw [failureHops_append, failureHops_replicate,
        show failureHops (some (CalculatedHop.failure err) ::
          ss.map fun s => some (CalculatedHop.success s)) =
          err :: failureHops (ss.map fun s => some (CalculatedHop.success s)) from rfl,
        failureHops_map_success]
      rfl

/-- `getD` past the end of a list is the default. -/
theorem getD_ge_length {α : Type} (l : List α) (d : α) (i : Nat) (h : l.length ≤ i) :
    l.getD i d = d := by
  show (l.get? i).getD d = d
  rw [List.get?_eq_none.mpr h]
  rfl

/-- In a forward shape, every slot above a recorded failure is unset. -/
theorem shapeF_stuck (bound len : Nat) (hops : List (Option CalculatedHop))
    (h : shapeF bound len hops) (j : Nat) (err : Option SwapErrorCode)
    (hj : hops.getD j none = some (CalculatedHop.failure err)) :
    ∀ j', j < j' → hops.getD j' none = none := by
  rcases h with ⟨ss, _, h2⟩ | ⟨ss, err2, _, _, h3⟩
  · exfalso
    subst h2
    rcases Nat.lt_or_ge j ss.length with hlt | hge
    · rw [getD_append_lt _ _ _ _ (by simpa using hlt)] at hj
      obtain ⟨s, hs⟩ := exists_getD_map_success ss j hlt
      rw [hs] at hj
      simp at hj
    · rw [getD_append_ge _ _ _ _ (by simpa using hge), getD_replicate_none] at hj
      simp at hj
  · subst h3
    have hj' : j = ss.length := by
      rcases Nat.lt_trichotomy j ss.length with hlt | heq | hgt
      · exfalso
        rw [getD_append_lt _ _ _ _ (by simpa using hlt)] at hj
        obtain ⟨s, hs⟩ := exists_getD_map_success ss j hlt
        rw [hs] at hj
        simp at hj
      · exact heq
      · exfalso
        rw [getD_append_ge _ _ _ _ (by rw [List.length_map]; omega),
          List.length_map] at hj
        obtain ⟨k2, hk2⟩ := Nat.exists_eq_succ_of_ne_zero
          (show j - ss.length ≠ 0 by omega)
        rw [hk2, List.getD_cons_succ, getD_replicate_none] at hj
        simp at hj
    subst hj'
    intro j' hjj
    rw [getD_append_ge _ _ _ _ (by rw [List.length_map]; omega), List.length_map]
    obtain ⟨k2, hk2⟩ := Nat.exists_eq_succ_of_ne_zero
      (show j' - ss.length ≠ 0 by omega)
    rw [hk2, List.getD_cons_succ, getD_replicate_none]

/-- In a backward shape, every slot below a recorded failure is unset. -/
theorem shapeB_stuck (bound len : Nat) (hops : List (Option CalculatedHop))
    (h : shapeB bound len hops) (j : Nat) (err : Option SwapErrorCode)
    (hj : hops.getD j none = some (CalculatedHop.failure err)) :
    ∀ j', j' < j → hops.getD j' none = none := by
  rcases h with ⟨ss, _, h2⟩ | ⟨ss, err2, _, _, h3⟩
  · exfalso
    subst h2
    rcases Nat.lt_or_ge j (len - ss.length) with hlt | hge
    · rw [getD_append_lt _ _ _ _ (by simpa using hlt), getD_replicate_none] at hj
      simp at hj
    · rw [getD_append_ge _ _ _ _ (by simpa using hge), List.length_replicate] at hj
      rcases Nat.lt_or_ge (j - (len - ss.length)) ss.length with h2lt | h2ge
      · obtain ⟨s, hs⟩ := exists_getD_map_success ss _ h2lt
        rw [hs] at hj
        simp at hj
      · rw [getD_ge_length _ _ _ (by rw [List.length_map]; omega)] at hj
        simp at hj
  · subst h3
    have hm : j = len - ss.length - 1 := by
      rcases Nat.lt_trichotomy j (len - ss.length - 1) with hlt | heq | hgt
      · exfalso
        rw [getD_append_lt _ _ _ _ (by rw [List.length_replicate]; omega),
          getD_replicate_none] at hj
        simp at hj
      · exact heq
      · exfalso
        rw [getD_append_ge _ _ _ _ (by rw [List.length_replicate]; omega),
          List.length_replicate] at hj
        obtain ⟨k2, hk2⟩ := Nat.exists_eq_succ_of_ne_zero
          (show j - (len - ss.length - 1) ≠ 0 by omega)
        rw [hk2, List.getD_cons_succ] at hj
        rcases Nat.lt_or_ge k2 ss.length with h2lt | h2ge
        · obtain ⟨s, hs⟩ := exists_getD_map_success ss _ h2lt
          rw [hs] at hj
          simp at hj
        · rw [getD_ge_length _ _ _ (by rw [List.length_map]; omega)] at hj
          simp at hj
    subst hm
    intro j' hjj
    rw [getD_append_lt _ _ _ _ (by rw [List.length_replicate]; omega),
      getD_replicate_none]

/-! ### The aggregator never crashes on well-shaped maps -/

/-- `head?` of a non-empty list. -/
theorem head?_some_of_ne_nil {α : Type} :
    ∀ (l : List α), l ≠ [] → ∃ x, l.head? = some x
  | [], h => absurd rfl h
  | a :: _, _ => ⟨a, rfl⟩

/-- `getLast?` of a non-empty list. -/
theorem getLast?_some_of_ne_nil {α : Type} :
    ∀ (l : List α), l ≠ [] → ∃ x, l.getLast? = some x
  | [], h => absurd rfl h
  | [a], _ => ⟨a, rfl⟩
  | a :: b :: t, _ => by
    obtain ⟨x, hx⟩ := getLast?_some_of_ne_nil (b :: t) (by simp)
    exact ⟨x, by rw [List.getLast?_cons_cons]; exact hx⟩

/-- `catStep` succeeds on a ready entry. -/
theorem catStep_ok (tradeAmount : Nat) (asi : Bool) (percent : Nat)
    (acc : List RouteQuote × List (Option SwapErrorCode))
    (o : Option InternalRouteQuote) (h : entryReady o) :
    ∃ acc', catStep tradeAmount asi percent acc o = Except.ok acc' := by
  obtain ⟨e, ho, hne, hcases⟩ := h
  subst ho
  show ∃ acc', catStepSome tradeAmount asi percent acc e = Except.ok acc'
  unfold catStepSome
  by_cases hcomp : (successHops e.calculatedHops).length = e.route.length
  · rw [if_pos hcomp]
    have hfne : successHops e.calculatedHops ≠ [] := by
      intro h0
      have hz : e.route.length = 0 := by
        rw [← hcomp, h0]
        rfl
      exact hne (List.length_eq_zero.mp hz)
    have hx : ∃ x, (if asi then (successHops e.calculatedHops).getLast?
        else (successHops e.calculatedHops).head?) = some x := by
      cases asi
      · rw [if_neg (by simp : ¬((false : Bool) = true))]
        exact head?_some_of_ne_nil _ hfne
      · rw [if_pos rfl]
        exact getLast?_some_of_ne_nil _ hfne
    obtain ⟨x, hx⟩ := hx
    rw [hx]
    exact ⟨_, rfl⟩
  · rw [if_neg hcomp]
    have hfne2 : failureHops e.calculatedHops ≠ [] := by
      rcases hcases with hc | hc
      · exact absurd hc hcomp
      · exact hc
    obtain ⟨x, hx⟩ := head?_some_of_ne_nil _ hfne2
    rw [hx]
    exact ⟨_, rfl⟩

/-- The bucket fold of the aggregator succeeds on ready entries. -/
theorem foldlM_catStep_ok (tradeAmount : Nat) (asi : Bool) (percent : Nat) :
    ∀ (entries : QuoteBucket), (∀ o ∈ entries, entryReady o) →
    ∀ acc, ∃ res,
      List.foldlM (catStep tradeAmount asi percent) acc entries = Except.ok res
  | [], _, acc => ⟨acc, rfl⟩
  | o :: rest, h, acc => by
    obtain ⟨acc1, hs⟩ := catStep_ok tradeAmount asi percent acc o
      (h o (List.mem_cons_self o rest))
    rw [List.foldlM_cons, hs]
    obtain ⟨res, hres⟩ := foldlM_catStep_ok tradeAmount asi percent rest
      (fun o2 ho2 => h o2 (List.mem_cons_of_mem o ho2)) acc1
    exact ⟨res, hres⟩

/-- `categorizeBucket` succeeds on ready entries. -/
theorem categorizeBucket_ok (tradeAmount : Nat) (asi : Bool) (percent : Nat)
    (entries : QuoteBucket) (failures0 : List (Option SwapErrorCode))
    (h : ∀ o ∈ entries, entryReady o) :
    ∃ res, categorizeBucket tradeAmount asi percent entries failures0 = Except.ok res :=
  foldlM_catStep_ok tradeAmount asi percent entries h ([], failures0)

/-- The outer fold body of the aggregator succeeds on a ready bucket. -/
theorem catQStep_ok (tradeAmount : Nat) (asi : Bool)
    (acc : CleanedMap × List (Option SwapErrorCode)) (pb : Nat × QuoteBucket)
    (h : ∀ o ∈ pb.2, entryReady o) :
    ∃ acc', catQStep tradeAmount asi acc pb = Except.ok acc' := by
  obtain ⟨res, hres⟩ := categorizeBucket_ok tradeAmount asi pb.1 pb.2 acc.2 h
  unfold catQStep
  rw [hres]
  exact ⟨_, rfl⟩

/-- The whole aggregator fold succeeds on ready buckets. -/
theorem foldlM_catQStep_ok (tradeAmount : Nat) (asi : Bool) :
    ∀ (qm : QuoteMap), (∀ pb ∈ qm, ∀ o ∈ pb.2, entryReady o) →
    ∀ acc, ∃ res, List.foldlM (catQStep tradeAmount asi) acc qm = Except.ok res
  | [], _, acc => ⟨acc, rfl⟩
  | pb :: rest, h, acc => by
    obtain ⟨acc1, hs⟩ := catQStep_ok tradeAmount asi acc pb
      (h pb (List.mem_cons_self pb rest))
    rw [List.foldlM_cons, hs]
    obtain ⟨res, hres⟩ := foldlM_catQStep_ok tradeAmount asi rest
      (fun pb2 hpb2 => h pb2 (List.mem_cons_of_mem pb hpb2)) acc1
    exact ⟨res, hres⟩

/-- `categorizeQuotes` succeeds on ready buckets. -/
theorem categorizeQuotes_ok (tradeAmount : Nat) (asi : Bool) (qm : QuoteMap)
    (h : ∀ pb ∈ qm, ∀ o ∈ pb.2, entryReady o) :
    ∃ res, categorizeQuotes tradeAmount asi qm = Except.ok res :=
  foldlM_catQStep_ok tradeAmount asi qm h ([], [])

/-- The forward invariant at the full bound makes every entry done. -/
theorem invF_entryDone (pairRoutes : List (List String)) (pfsts : List Nat) (L : Nat)
    (qmF : QuoteMap) (hnd : pfsts.Nodup)
    (hroutes : ∀ route ∈ pairRoutes, route ≠ [])
    (hLlen : ∀ route ∈ pairRoutes, route.length ≤ L)
    (hinv : qmInvF pairRoutes pfsts L qmF) :
    ∀ pb ∈ qmF, ∀ o ∈ pb.2, entryDone o := by
  intro pb hpb o ho
  rcases Nat.eq_zero_or_pos L with hL0 | hLpos
  · exact absurd (hinv.1 hL0 ▸ hpb) (List.not_mem_nil pb)
  · obtain ⟨hkeys, hbl, hent⟩ := hinv.2 hLpos
    obtain ⟨r, hr⟩ := List.get?_of_mem ho
    have hrlen : r < pb.2.length := (List.get?_eq_some.mp hr).1
    have hblen : pb.2.length = pairRoutes.length := hbl pb hpb
    obtain ⟨route, hroute⟩ : ∃ route, pairRoutes.get? r = some route := by
      rcases hx : pairRoutes.get? r with _ | route
      · exfalso
        have := List.get?_eq_none.mp hx
        omega
      · exact ⟨route, rfl⟩
    have hpmem : pb.1 ∈ pfsts := by
      rw [← hkeys]
      exact List.mem_map_of_mem Prod.fst hpb
    obtain ⟨e, hqe, hep, her, hel, hshape⟩ := hent pb.1 hpmem r route hroute
    have hfind : assocFind qmF pb.1 = some pb.2 :=
      assocFind_of_mem_nodup qmF (by rw [hkeys]; exact hnd) pb.1 pb.2 hpb
    have hoeq : qmEntry qmF pb.1 r = o := by
      unfold qmEntry
      rw [hfind]
      show (pb.2.get? r).getD none = o
      rw [hr]
      rfl
    rw [hoeq] at hqe
    refine ⟨e, hqe, ?_, ?_, ?_⟩
    · rw [her]
      exact hroutes route (List.get?_mem hroute)
    · rw [her]
      exact hel
    · rw [her]
      exact shapeF_counts L route.length e.calculatedHops
        (hLlen route (List.get?_mem hroute)) hshape

/-- The backward invariant at hop `0` makes every entry done. -/
theorem invB_entryDone (pairRoutes : List (List String)) (pfsts : List Nat) (L : Nat)
    (qmF : QuoteMap) (hnd : pfsts.Nodup)
    (hroutes : ∀ route ∈ pairRoutes, route ≠ [])
    (hinv : qmInvB pairRoutes pfsts L 0 qmF) :
    ∀ pb ∈ qmF, ∀ o ∈ pb.2, entryDone o := by
  intro pb hpb o ho
  rcases Nat.eq_zero_or_pos L with hL0 | hLpos
  · exact absurd (hinv.1 hL0.symm ▸ hpb) (List.not_mem_nil pb)
  · obtain ⟨hkeys, hbl, hent⟩ := hinv.2 hLpos
    obtain ⟨r, hr⟩ := List.get?_of_mem ho
    have hrlen : r < pb.2.length := (List.get?_eq_some.mp hr).1
    have hblen : pb.2.length = pairRoutes.length := hbl pb hpb
    obtain ⟨route, hroute⟩ : ∃ route, pairRoutes.get? r = some route := by
      rcases hx : pairRoutes.get? r with _ | route
      · exfalso
        have := List.get?_eq_none.mp hx
        omega
      · exact ⟨route, rfl⟩
    have hpmem : pb.1 ∈ pfsts := by
      rw [← hkeys]
      exact List.mem_map_of_mem Prod.fst hpb
    have hrne : route ≠ [] := hroutes route (List.get?_mem hroute)
    obtain ⟨e, hqe, hep, her, hel, hshape⟩ :=
      (hent pb.1 hpmem r route hroute).2 (List.length_pos.mpr hrne)
    have hfind : assocFind qmF pb.1 = some pb.2 :=
      assocFind_of_mem_nodup qmF (by rw [hkeys]; exact hnd) pb.1 pb.2 hpb
    have hoeq : qmEntry qmF pb.1 r = o := by
      unfold qmEntry
      rw [hfind]
      show (pb.2.get? r).getD none = o
      rw [hr]
      rfl
    rw [hoeq] at hqe
    refine ⟨e, hqe, ?_, ?_, ?_⟩
    · rw [her]
      exact hrne
    · rw [her]
      exact hel
    · rw [her]
      exact shapeB_counts (route.length - 0) route.length e.calculatedHops
        (by omega) hshape

/-- Shape extraction from the forward invariant at its full bound. -/
theorem invF_shape (pairRoutes : List (List String)) (pfsts : List Nat) (L : Nat)
    (qmF : QuoteMap) (hnd : pfsts.Nodup)
    (hinv : qmInvF pairRoutes pfsts L qmF) :
    ∀ pb ∈ qmF, ∀ o ∈ pb.2, ∃ e route, o = some e ∧ route ∈ pairRoutes ∧
      e.route = route ∧ e.calculatedHops.length = route.length ∧
      shapeF L route.length e.calculatedHops := by
  intro pb hpb o ho
  rcases Nat.eq_zero_or_pos L with hL0 | hLpos
  · exact absurd (hinv.1 hL0 ▸ hpb) (List.not_mem_nil pb)
  · obtain ⟨hkeys, hbl, hent⟩ := hinv.2 hLpos
    obtain ⟨r, hr⟩ := List.get?_of_mem ho
    have hrlen : r < pb.2.length := (List.get?_eq_some.mp hr).1
    have hblen : pb.2.length = pairRoutes.length := hbl pb hpb
    obtain ⟨route, hroute⟩ : ∃ route, pairRoutes.get? r = some route := by
      rcases hx : pairRoutes.get? r with _ | route
      · exfalso
        have := List.get?_eq_none.mp hx
        omega
      · exact ⟨route, rfl⟩
    have hpmem : pb.1 ∈ pfsts := by
      rw [← hkeys]
      exact List.mem_map_of_mem Prod.fst hpb
    obtain ⟨e, hqe, _, her, hel, hshape⟩ := hent pb.1 hpmem r route hroute
    have hfind : assocFind qmF pb.1 = some pb.2 :=
      assocFind_of_mem_nodup qmF (by rw [hkeys]; exact hnd) pb.1 pb.2 hpb
    have hoeq : qmEntry qmF pb.1 r = o := by
      unfold qmEntry
      rw [hfind]
      show (pb.2.get? r).getD none = o
      rw [hr]
      rfl
    rw [hoeq] at hqe
    exact ⟨e, route, hqe, List.get?_mem hroute, her, hel, hshape⟩

/-- Shape extraction from the backward invariant at hop `0`. -/
theorem invB_shape (pairRoutes : List (List String)) (pfsts : List Nat) (L : Nat)
    (qmF : QuoteMap) (hnd : pfsts.Nodup)
    (hroutes : ∀ route ∈ pairRoutes, route ≠ [])
    (hinv : qmInvB pairRoutes pfsts L 0 qmF) :
    ∀ pb ∈ qmF, ∀ o ∈ pb.2, ∃ e route, o = some e ∧ route ∈ pairRoutes ∧
      e.route = route ∧ e.calculatedHops.length = route.length ∧
      shapeB route.length route.length e.calculatedHops := by
  intro pb hpb o ho
  rcases Nat.eq_zero_or_pos L with hL0 | hLpos
  · exact absurd (hinv.1 hL0.symm ▸ hpb) (List.not_mem_nil pb)
  · obtain ⟨hkeys, hbl, hent⟩ := hinv.2 hLpos
    obtain ⟨r, hr⟩ := List.get?_of_mem ho
    have hrlen : r < pb.2.length := (List.get?_eq_some.mp hr).1
    have hblen : pb.2.length = pairRoutes.length := hbl pb hpb
    obtain ⟨route, hroute⟩ : ∃ route, pairRoutes.get? r = some route := by
      rcases hx : pairRoutes.get? r with _ | route
      · exfalso
        have := List.get?_eq_none.mp hx
        omega
      · exact ⟨route, rfl⟩
    have hpmem : pb.1 ∈ pfsts := by
      rw [← hkeys]
      exact List.mem_map_of_mem Prod.fst hpb
    have hrne : route ≠ [] := hroutes route (List.get?_mem hroute)
    obtain ⟨e, hqe, _, her, hel, hshape⟩ :=
      (hent pb.1 hpmem r route hroute).2 (List.length_pos.mpr hrne)
    have hfind : assocFind qmF pb.1 = some pb.2 :=
      assocFind_of_mem_nodup qmF (by rw [hkeys]; exact hnd) pb.1 pb.2 hpb
    have hoeq : qmEntry qmF pb.1 r = o := by
      unfold qmEntry
      rw [hfind]
      show (pb.2.get? r).getD none = o
      rw [hr]
      rfl
    rw [hoeq] at hqe
    refine ⟨e, route, hqe, List.get?_mem hroute, her, hel, ?_⟩
    have hsz : route.length - 0 = route.length := Nat.sub_zero route.length
    rw [← hsz]
    exact hshape

/-- The invariant handed to the forward run at hop `0`. -/
theorem qmInvF_start (pairRoutes : List (List String)) (pfsts : List Nat) :
    qmInvF pairRoutes pfsts 0 [] :=
  ⟨fun _ => rfl, fun hc => absurd hc (lt_irrefl 0)⟩

/-- The invariant handed to the backward run before any hop. -/
theorem qmInvB_start (pairRoutes : List (List String)) (pfsts : List Nat) (L : Nat) :
    qmInvB pairRoutes pfsts L L [] :=
  ⟨fun _ => rfl, fun hc => absurd hc (lt_irrefl L)⟩

/-- `maxRouteLength` dominates every route length. -/
theorem maxRouteLength_le (pairRoutes : List (List String)) :
    ∀ route ∈ pairRoutes, route.length ≤ (pairRoutes.map List.length).foldl max 0 :=
  fun route hru => (foldl_max_le (pairRoutes.map List.length) 0).2 route.length
    (List.mem_map_of_mem List.length hru)

/-- C10: after the hop loop finishes, every `(percentage, route)` entry of
the quote map is present and well-formed: a complete chain carries no
recorded failure and an incomplete chain carries exactly one; hence the
failure list read by `categorizeQuotes` on an incomplete chain is non-empty,
the access `quoteFailures[0].error` never reads a missing element, and the
aggregation returns without an exception. -/
theorem C10_incomplete_chain_one_failure (inputTokenMint outputTokenMint : String)
    (pools : String → Pool) (pairRoutes : List (List String)) (tradeAmount : Nat)
    (asi : Bool)
    (batchBuild : List QuoteRequest → Except String (List SwapQuoteParam))
    (engine : SwapQuoteParam → Except SwapErrorCode Nat) (opts : RoutingOptions)
    (qmF : QuoteMap)
    (hroutes : ∀ route ∈ pairRoutes, route ≠ [])
    (hrun : pipelineQuoteMap inputTokenMint outputTokenMint pools pairRoutes tradeAmount
      asi batchBuild engine opts = Except.ok qmF) :
    (∀ pb ∈ qmF, ∀ o ∈ pb.2, entryDone o) ∧
    ∃ res, categorizeQuotes tradeAmount asi qmF = Except.ok res := by
  have hsort := percents_sorted tradeAmount opts.percentIncrement
  have hnd : (((generatePercentageAmounts tradeAmount opts.percentIncrement).1.zip
      (generatePercentageAmounts tradeAmount opts.percentIncrement).2).map
        Prod.fst).Nodup :=
    (hsort.sublist (map_fst_zip_sublist _ _)).imp fun hx => Nat.ne_of_lt hx
  have hLlen := maxRouteLength_le pairRoutes
  have hdone : ∀ pb ∈ qmF, ∀ o ∈ pb.2, entryDone o := by
    cases asi with
    | false =>
      have hrun' : runHops inputTokenMint outputTokenMint pools pairRoutes
          (generatePercentageAmounts tradeAmount opts.percentIncrement).1
          (generatePercentageAmounts tradeAmount opts.percentIncrement).2 false
          batchBuild engine
          ((List.range ((pairRoutes.map List.length).foldl max 0)).reverse) [] =
          Except.ok qmF := hrun
      have hfin := runB inputTokenMint outputTokenMint pools pairRoutes
        (generatePercentageAmounts tradeAmount opts.percentIncrement).1
        (generatePercentageAmounts tradeAmount opts.percentIncrement).2 batchBuild
        engine hsort hroutes ((pairRoutes.map List.length).foldl max 0) hLlen
        ((pairRoutes.map List.length).foldl max 0) (Nat.le_refl _) []
        (qmInvB_start pairRoutes _ _) qmF hrun'
      exact invB_entryDone pairRoutes _ _ qmF hnd hroutes hfin
    | true =>
      have hrun' : runHops inputTokenMint outputTokenMint pools pairRoutes
          (generatePercentageAmounts tradeAmount opts.percentIncrement).1
          (generatePercentageAmounts tradeAmount opts.percentIncrement).2 true
          batchBuild engine
          (List.range' 0 ((pairRoutes.map List.length).foldl max 0)) [] =
          Except.ok qmF := by
        rw [← List.range_eq_range']
        exact hrun
      have hfin := runF inputTokenMint outputTokenMint pools pairRoutes
        (generatePercentageAmounts tradeAmount opts.percentIncrement).1
        (generatePercentageAmounts tradeAmount opts.percentIncrement).2 batchBuild
        engine hsort hroutes ((pairRoutes.map List.length).foldl max 0) 0 []
        (qmInvF_start pairRoutes _) qmF hrun'
      rw [Nat.zero_add] at hfin
      exact invF_entryDone pairRoutes _ _ qmF hnd hroutes hLlen hfin
  refine ⟨hdone, categorizeQuotes_ok tradeAmount asi qmF ?_⟩
  intro pb hpb o ho
  obtain ⟨e, ho2, hne, _, hcases⟩ := hdone pb hpb o ho
  refine ⟨e, ho2, hne, ?_⟩
  rcases hcases with ⟨hc1, _⟩ | ⟨_, hc2⟩
  · exact Or.inl hc1
  · refine Or.inr ?_
    intro h0
    rw [h0] at hc2
    exact absurd hc2 (by simp)

/-- Witness for C10 on the two-hop scenario with a failing first hop. -/
theorem C10_incomplete_chain_one_failure_witness :
    (∀ route ∈ [[keyP1, keyP2]], route ≠ ([] : List String)) ∧
    pipelineQuoteMap tokA tokB poolsTwo [[keyP1, keyP2]] 100 true (batchOf poolsTwo)
      engineFailA opts50 = Except.ok qmC10W ∧
    ((∀ pb ∈ qmC10W, ∀ o ∈ pb.2, entryDone o) ∧
      ∃ res, categorizeQuotes 100 true qmC10W = Except.ok res) :=
  ⟨by decide, rfl,
    C10_incomplete_chain_one_failure tokA tokB poolsTwo [[keyP1, keyP2]] 100 true
      (batchOf poolsTwo) engineFailA opts50 qmC10W (by decide) rfl⟩

/-- C4: failure is sticky per `(percentage, route)` chain.  Every request
built for a non-initial hop takes its amount and token from the adjacent
already-computed hop — its output in forward mode, its input in backward
mode; when that adjacent hop's recorded result is a failure no request is
built for the `(percentage, route)` at this hop and the entry survives the
hop's batch untouched; and after the full loop every `calculatedHops` slot
after (forward) or before (backward) a recorded failure is unset. -/
theorem C4_sticky_failure (inputTokenMint outputTokenMint : String)
    (pools : String → Pool) (pairRoutes : List (List String))
    (percents amounts : List Nat) (hop : Nat) (asi : Bool) (qm : QuoteMap)
    (engine : SwapQuoteParam → Except SwapErrorCode Nat)
    (quoteParams : List SwapQuoteParam)
    (hnd : percents.Nodup) (hbl : bucketsLen qm pairRoutes.length) :
    (∀ u ∈ (buildQuoteUpdateRequests inputTokenMint outputTokenMint pools pairRoutes
        percents amounts hop asi qm).1,
      startingB asi hop (pairRoutes.getD u.routeIndex []).length = false →
      ∃ e s, qmEntry qm u.percent u.routeIndex = some e ∧
        lastHopOf asi hop e.calculatedHops = some (CalculatedHop.success s) ∧
        u.request.tokenAmount = (if asi then s.amountOut else s.amountIn) ∧
        u.request.tradeTokenMint = (if asi then s.outputMint else s.inputMint)) ∧
    (∀ p r e err, qmEntry qm p r = some e →
      lastHopOf asi hop e.calculatedHops = some (CalculatedHop.failure err) →
      startingB asi hop (pairRoutes.getD r []).length = false →
      (∀ u ∈ (buildQuoteUpdateRequests inputTokenMint outputTokenMint pools pairRoutes
          percents amounts hop asi qm).1, ¬(u.percent = p ∧ u.routeIndex = r)) ∧
      qmEntry (updateQuoteMap engine
        (buildQuoteUpdateRequests inputTokenMint outputTokenMint pools pairRoutes
          percents amounts hop asi qm).1 quoteParams
        (buildQuoteUpdateRequests inputTokenMint outputTokenMint pools pairRoutes
          percents amounts hop asi qm).2) p r = some e) ∧
    (∀ (tradeAmount : Nat) (opts : RoutingOptions)
      (batchBuild : List QuoteRequest → Except String (List SwapQuoteParam))
      (qmF : QuoteMap),
      (∀ route ∈ pairRoutes, route ≠ []) →
      pipelineQuoteMap inputTokenMint outputTokenMint pools pairRoutes tradeAmount asi
        batchBuild engine opts = Except.ok qmF →
      ∀ pb ∈ qmF, ∀ o ∈ pb.2, ∀ e, o = some e → ∀ j err,
        e.calculatedHops.getD j none = some (CalculatedHop.failure err) →
        ∀ j', (if asi then j < j' else j' < j) →
          e.calculatedHops.getD j' none = none) := by
  have hndz : ((percents.zip amounts).map Prod.fst).Nodup :=
    List.Nodup.sublist (map_fst_zip_sublist percents amounts) hnd
  rcases foldl_percentStep_updates inputTokenMint outputTokenMint pools pairRoutes hop
      asi (percents.zip amounts) ([], qm) hndz hbl with ⟨tail, hU1, hU2, _, hU4⟩
  have hUtail : (buildQuoteUpdateRequests inputTokenMint outputTokenMint pools pairRoutes
      percents amounts hop asi qm).1 = tail := by
    simpa using hU1
  refine ⟨?_, ?_, ?_⟩
  · intro u hu hns
    exact (hU2 u (hUtail ▸ hu)).2.2.2.2.2 hns
  · intro p r e err hqe hlast hns
    have hnem : ¬ emitsAt asi hop (pairRoutes.getD r []) (qmEntry qm p r) := by
      intro hem
      rcases hem.2 with hst | ⟨_, e2, s2, he2, hl2⟩
      · rw [hns] at hst
        exact absurd hst (by simp)
      · rw [hqe] at he2
        have he2e : e2 = e := by
          injection he2 with hx
          exact hx.symm
        rw [he2e, hlast] at hl2
        simp at hl2
    have hnt : ∀ u ∈ (buildQuoteUpdateRequests inputTokenMint outputTokenMint pools
        pairRoutes percents amounts hop asi qm).1,
        ¬(u.percent = p ∧ u.routeIndex = r) :=
      fun u hu => hU4 p r hnem u (hUtail ▸ hu)
    refine ⟨hnt, ?_⟩
    rw [updateQuoteMap_untargeted engine quoteParams _ _ p r hnt]
    rcases foldl_percentStep_entries inputTokenMint outputTokenMint pools pairRoutes hop
        asi (percents.zip amounts) ([], qm) hndz hbl with ⟨hEO, hEI⟩
    show qmEntry ((percents.zip amounts).foldl (percentStep inputTokenMint outputTokenMint
      pools pairRoutes hop asi) ([], qm)).2 p r = some e
    by_cases hpin : p ∈ (percents.zip amounts).map Prod.fst
    · obtain ⟨pa, hpam, hpa1⟩ : ∃ pa ∈ percents.zip amounts, pa.1 = p := by
        rcases List.mem_map.mp hpin with ⟨pa, hpam, hpa1⟩
        exact ⟨pa, hpam, hpa1⟩
      by_cases hrin : r < pairRoutes.length
      · have hthis := hEI pa hpam r hrin
        rw [hpa1] at hthis
        rw [hthis]
        have hse : stepEntry asi hop p (pairRoutes.getD r []) (qmEntry qm p r) =
            qmEntry qm p r := by
          unfold stepEntry
          cases hsk : routeSkipB asi hop (pairRoutes.getD r []).length
          · rw [hns]
            simp
          · rfl
        show stepEntry asi hop p (pairRoutes.getD r []) (qmEntry qm p r) = some e
        rw [hse]
        exact hqe
      · exfalso
        cases hf : assocFind qm p with
        | none =>
          have hqe2 : (none : Option InternalRouteQuote) = some e := by
            rw [← hqe]
            unfold qmEntry
            rw [hf]
          simp at hqe2
        | some bqt =>
          have hmem : (p, bqt) ∈ qm := assocFind_mem qm p bqt hf
          have hlen : bqt.length = pairRoutes.length := hbl (p, bqt) hmem
          have hqe2 : bqt.getD r none = some e := by
            rw [← hqe]
            unfold qmEntry
            rw [hf]
          rw [getD_ge_length _ _ _ (by omega)] at hqe2
          simp at hqe2
    · rw [hEO p r hpin]
      exact hqe
  · intro tradeAmount opts batchBuild qmF hroutes hrun
    have hsort := percents_sorted tradeAmount opts.percentIncrement
    have hndp : (((generatePercentageAmounts tradeAmount opts.percentIncrement).1.zip
        (generatePercentageAmounts tradeAmount opts.percentIncrement).2).map
          Prod.fst).Nodup :=
      (hsort.sublist (map_fst_zip_sublist _ _)).imp fun hx => Nat.ne_of_lt hx
    have hLlen := maxRouteLength_le pairRoutes
    cases asi with
    | false =>
      have hrun' : runHops inputTokenMint outputTokenMint pools pairRoutes
          (generatePercentageAmounts tradeAmount opts.percentIncrement).1
          (generatePercentageAmounts tradeAmount opts.percentIncrement).2 false
          batchBuild engine
          ((List.range ((pairRoutes.map List.length).foldl max 0)).reverse) [] =
          Except.ok qmF := hrun
      have hfin := runB inputTokenMint outputTokenMint pools pairRoutes
        (generatePercentageAmounts tradeAmount opts.percentIncrement).1
        (generatePercentageAmounts tradeAmount opts.percentIncrement).2 batchBuild
        engine hsort hroutes ((pairRoutes.map List.length).foldl max 0) hLlen
        ((pairRoutes.map List.length).foldl max 0) (Nat.le_refl _) []
        (qmInvB_start pairRoutes _ _) qmF hrun'
      intro pb hpb o ho e hoe j err hfail j' hcomp
      obtain ⟨e2, route, hoe2, _, _, _, hshape⟩ :=
        invB_shape pairRoutes _ _ qmF hndp hroutes hfin pb hpb o ho
      rw [hoe] at hoe2
      have he2e : e2 = e := by
        injection hoe2 with hx
        exact hx.symm
      rw [he2e] at hshape
      have hj' : j' < j := by
        rw [if_neg (by simp : ¬((false : Bool) = true))] at hcomp
        exact hcomp
      exact shapeB_stuck route.length route.length e.calculatedHops hshape j err hfail
        j' hj'
    | true =>
      have hrun' : runHops inputTokenMint outputTokenMint pools pairRoutes
          (generatePercentageAmounts tradeAmount opts.percentIncrement).1
          (generatePercentageAmounts tradeAmount opts.percentIncrement).2 true
          batchBuild engine
          (List.range' 0 ((pairRoutes.map List.length).foldl max 0)) [] =
          Except.ok qmF := by
        rw [← List.range_eq_range']
        exact hrun
      have hfin := runF inputTokenMint outputTokenMint pools pairRoutes
        (generatePercentageAmounts tradeAmount opts.percentIncrement).1
        (generatePercentageAmounts tradeAmount opts.percentIncrement).2 batchBuild
        engine hsort hroutes ((pairRoutes.map List.length).foldl max 0) 0 []
        (qmInvF_start pairRoutes _) qmF hrun'
      rw [Nat.zero_add] at hfin
      intro pb hpb o ho e hoe j err hfail j' hcomp
      obtain ⟨e2, route, hoe2, _, _, _, hshape⟩ :=
        invF_shape pairRoutes _ _ qmF hndp hfin pb hpb o ho
      rw [hoe] at hoe2
      have he2e : e2 = e := by
        injection hoe2 with hx
        exact hx.symm
      rw [he2e] at hshape
      have hj' : j < j' := by
        rw [if_pos rfl] at hcomp
        exact hcomp
      exact shapeF_stuck ((pairRoutes.map List.length).foldl max 0) route.length
        e.calculatedHops hshape j err hfail j' hj'

/-- Witness for C4 at hop 1 of the two-hop scenario with a failed first
hop. -/
theorem C4_sticky_failure_witness :
    ([50, 100] : List Nat).Nodup ∧ bucketsLen qmC4MidW 1 ∧
    ((∀ u ∈ (buildQuoteUpdateRequests tokA tokB poolsTwo [[keyP1, keyP2]] [50, 100]
        [50, 100] 1 true qmC4MidW).1,
      startingB true 1 (([[keyP1, keyP2]] : List (List String)).getD
        u.routeIndex []).length = false →
      ∃ e s, qmEntry qmC4MidW u.percent u.routeIndex = some e ∧
        lastHopOf true 1 e.calculatedHops = some (CalculatedHop.success s) ∧
        u.request.tokenAmount = (if true then s.amountOut else s.amountIn) ∧
        u.request.tradeTokenMint = (if true then s.outputMint else s.inputMint)) ∧
     (∀ p r e err, qmEntry qmC4MidW p r = some e →
      lastHopOf true 1 e.calculatedHops = some (CalculatedHop.failure err) →
      startingB true 1 (([[keyP1, keyP2]] : List (List String)).getD r []).length =
        false →
      (∀ u ∈ (buildQuoteUpdateRequests tokA tokB poolsTwo [[keyP1, keyP2]] [50, 100]
          [50, 100] 1 true qmC4MidW).1, ¬(u.percent = p ∧ u.routeIndex = r)) ∧
      qmEntry (updateQuoteMap engineFailA
        (buildQuoteUpdateRequests tokA tokB poolsTwo [[keyP1, keyP2]] [50, 100]
          [50, 100] 1 true qmC4MidW).1 []
        (buildQuoteUpdateRequests tokA tokB poolsTwo [[keyP1, keyP2]] [50, 100]
          [50, 100] 1 true qmC4MidW).2) p r = some e) ∧
     (∀ (tradeAmount : Nat) (opts : RoutingOptions)
        (batchBuild : List QuoteRequest → Except String (List SwapQuoteParam))
        (qmF : QuoteMap),
      (∀ route ∈ ([[keyP1, keyP2]] : List (List String)), route ≠ []) →
      pipelineQuoteMap tokA tokB poolsTwo [[keyP1, keyP2]] tradeAmount true batchBuild
        engineFailA opts = Except.ok qmF →
      ∀ pb ∈ qmF, ∀ o ∈ pb.2, ∀ e, o = some e → ∀ j err,
        e.calculatedHops.getD j none = some (CalculatedHop.failure err) →
        ∀ j', (if true then j < j' else j' < j) →
          e.calculatedHops.getD j' none = none)) :=
  ⟨by decide, by unfold bucketsLen; decide,
    C4_sticky_failure tokA tokB poolsTwo [[keyP1, keyP2]] [50, 100] [50, 100] 1 true
      qmC4MidW engineFailA [] (by decide) (by unfold bucketsLen; decide)⟩

end Whirlpools
